import Mathlib

/-!
# rclone-tui: job registry and batch sequencer

A shallow embedding of `rclone/jobqueue.go`, `rclone/client.go`
(`SendCommandAsync`) and `rclone/operations/explorer.go` (`BatchOperation`),
followed by theorems about the embedded functions.

Conventions.
* Go `int64` values are `Int`; arithmetic that can overflow goes through
  `wrapInt64`.
* A Go `map` (and the `sync.Map` holding the registry) is an association list
  (`GoMap`) with the operations `load`, `store`, `delete`, `len`.
* The package-level variables `jobQueue`, `jobTotal` and `JobInfoChan` are the
  fields of `State`; every function that touches them takes and returns a
  `State`.  `State.trace` additionally records, in program order, the
  observable actions of the calling goroutine.
* Library functions that are not part of the repository (`fmt.Errorf`,
  `filepath.Join`, `filepath.Base`, `filepath.Dir`, `bytefmt.ByteSize`) are
  fields of `GoLib`, as is the value of `int64(f)` for a `float64` out of range.
* A `float64` is the rational number it denotes.
-/

namespace RcloneTui

/-! ## Go primitives -/

/-- Two's-complement wrap-around of a mathematical integer into `int64`. -/
def wrapInt64 (x : Int) : Int :=
  (x + 9223372036854775808) % 18446744073709551616 - 9223372036854775808

/-- Go `a + b` on `int64`. -/
def addInt64 (a b : Int) : Int := wrapInt64 (a + b)

/-- Go `a - b` on `int64`. -/
def subInt64 (a b : Int) : Int := wrapInt64 (a - b)

/-- The largest `int64`. -/
def maxInt64 : Int := 9223372036854775807

/-- The smallest `int64`. -/
def minInt64 : Int := -9223372036854775808

/-- A Go map, as an association list; `load` reads the first binding of a key. -/
abbrev GoMap (κ : Type) (ν : Type) := List (κ × ν)

namespace GoMap

variable {κ ν : Type} [DecidableEq κ]

/-- Map read `m[k]` with the comma-ok result as an `Option`. -/
def load (m : GoMap κ ν) (k : κ) : Option ν :=
  match m with
  | [] => none
  | (k', v) :: rest => if k' = k then some v else load rest k

/-- Go `delete(m, k)`. -/
def delete (m : GoMap κ ν) (k : κ) : GoMap κ ν :=
  m.filter (fun e => decide (e.1 ≠ k))

/-- Go `m[k] = v`. -/
def store (m : GoMap κ ν) (k : κ) (v : ν) : GoMap κ ν :=
  (k, v) :: delete m k

/-- The keys of the map (what `for k := range m` visits). -/
def keys (m : GoMap κ ν) : List κ := m.map Prod.fst

/-- Go `len(m)`. -/
def len (m : GoMap κ ν) : Nat := m.length

end GoMap

/-- Library functions used by the embedded code but defined outside the
repository. -/
structure GoLib where
  /-- Message of `fmt.Errorf(format)` called without operands. -/
  Errorf : String → String
  /-- The function `filepath.Join(a, b)`. -/
  Join : String → String → String
  /-- The function `filepath.Base(p)`. -/
  Base : String → String
  /-- The function `bytefmt.ByteSize(n)`. -/
  ByteSize : Int → String
  /-- The function `filepath.Dir(p)`. -/
  Dir : String → String
  /-- The result of the conversion `int64(f)` of a `float64` whose integer part
  does not fit `int64`, which the language leaves to the implementation. -/
  Int64 : ℚ → Int

/-- The part of a path before its last `/`, if it has one. -/
def dirChars : List Char → Option (List Char)
  | [] => none
  | c :: cs =>
    match dirChars cs with
    | some d => some (c :: d)
    | none => if c = '/' then some [] else none

/-- What `fmt.Errorf(format)` makes of a format when called without operands,
after the documentation of package `fmt`: text is copied; after a `%` come
flags, a width and a precision, then the verb; `%%` gives `%`, a missing verb
gives `%!(NOVERB)` and any other verb `c` gives `%!c(MISSING)`. The stage is
`none` in text, `some 0` among the flags, `some 1` in the width, `some 2` in the
precision. Formats with `*` or `[` after a `%`, and widths of a million or more,
are not covered. -/
def goFormat : Option Nat → List Char → List Char
  | none, [] => []
  | some _, [] => "%!(NOVERB)".toList
  | none, c :: cs => if c = '%' then goFormat (some 0) cs else c :: goFormat none cs
  | some st, c :: cs =>
    if st = 0 ∧ (c = '#' ∨ c = '0' ∨ c = '+' ∨ c = '-' ∨ c = ' ') then goFormat (some 0) cs
    else if st ≤ 1 ∧ c.isDigit then goFormat (some 1) cs
    else if st ≤ 1 ∧ c = '.' then goFormat (some 2) cs
    else if st = 2 ∧ c.isDigit then goFormat (some 2) cs
    else if c = '%' then '%' :: goFormat none cs
    else "%!".toList ++ c :: "(MISSING)".toList ++ goFormat none cs

/-- A library instance for evaluating the model on messages without `%` verbs
and on paths that are a single clean element (`filepath.Base` is then the
identity and `filepath.Join` puts one separator between non-empty elements). -/
def plainLib : GoLib where
  Errorf := fun s => s
  Join := fun a b => if a = "" then b else a ++ "/" ++ b
  Base := fun p => p
  ByteSize := fun n => toString n ++ "B"
  Dir := fun p =>
    match dirChars p.toList with
    | some d => String.mk d
    | none => "."
  Int64 := fun _ => -9223372036854775808

/-- The library instance with the `fmt.Errorf` of `goFormat`; the path functions
are those of `plainLib`. -/
def goLib : GoLib :=
  { plainLib with Errorf := fun format => String.mk (goFormat none format.toList) }

/-! ## Data model -/

/-- Record `ListItem` of `operations/list.go`. -/
structure ListItem where
  ID : String
  IsDir : Bool
  MimeType : String
  ModTime : String
  Name : String
  Path : String
  Size : Int
  FS : String
  ISize : String
  ModifiedTime : String
  ModifiedTimeUnix : Int
  About : Bool
  RefreshAddItem : Bool
  deriving DecidableEq, Repr

/-- Record `Job` of `jobqueue.go`.  `Context` names the cancellation context the
job carries (`Cancel` cancels that same context); the `Updates` channel is the
private queue of the job and is passed separately where it is read.
`RefreshItems` is `nil` or a `[]ListItem`. -/
structure Job where
  ID : Int
  Group : String
  Context : Nat
  Type_ : String
  Description : String
  RefreshItems : Option (List ListItem)
  deriving DecidableEq, Repr

/-- Record `JobInfo` of `jobqueue.go`, without the daemon-reported timing and
transfer statistics (`Duration`, `StartTime`, `EndTime`, `Output`, `Transfers`,
`CurrentTransfer`), which no embedded function branches on. -/
structure JobInfo where
  Error : String
  Finished : Bool
  Group : String
  ID : Int
  Success : Bool
  JobCount : Int
  Type_ : String
  Description : String
  RefreshItems : Option (List ListItem)
  deriving DecidableEq, Repr

/-- A value of type `interface{}` in a command or in a decoded answer: a string,
an `int64` (the ids put into commands), a `float64` (what `Decode` makes of a
JSON number, kept as the rational it denotes), a bool, or `nil`. -/
inductive JVal where
  | str (s : String)
  | num (n : Int)
  | float (f : ℚ)
  | bool (b : Bool)
  | null
  deriving DecidableEq, Repr

/-- The conversion `int64(f)` of a `float64`: the fraction is discarded; when the
result does not fit `int64` the value is the implementation's. -/
def int64OfFloat (lib : GoLib) (f : ℚ) : Int :=
  let t := if 0 ≤ f.num then Rat.floor f else -Rat.floor (-f)
  if -9223372036854775808 ≤ t ∧ t ≤ 9223372036854775807 then t else lib.Int64 f

/-- A command payload, `map[string]interface{}`. -/
abbrev Command := GoMap String JVal

/-- Observable actions, in program order. -/
inductive Event where
  /-- A call `SendCommand(command, endpoint)`. -/
  | send (endpoint : String) (command : Command)
  /-- A snapshot offered to the broadcast queue `JobInfoStatus()`. -/
  | offer (info : JobInfo)
  /-- The statement `go MonitorJob(job, ...)`. -/
  | monitor (job : Job) (nostop : Bool)
  /-- The call `GetJobReply(job)` returned `info`. -/
  | reply (job : Job) (info : JobInfo)
  deriving DecidableEq, Repr

/-- The package-level state of `jobqueue.go` plus the trace of actions. -/
structure State where
  /-- Registry `jobQueue`: category to (job id to job). -/
  jobQueue : GoMap String (GoMap Int Job)
  /-- Counter `jobTotal`. -/
  jobTotal : Int
  /-- Pending snapshots of the broadcast queue `JobInfoChan` (capacity 100). -/
  JobInfoChan : List JobInfo
  /-- Actions so far, oldest first. -/
  trace : List Event
  deriving DecidableEq, Repr

/-- The initial state: empty registry, counter 0. -/
def State.init : State := ⟨[], 0, [], []⟩

/-! ## jobqueue.go -/

/-- Function `NewJob`; `jobGroup` is the optional variadic argument and `ctx` the
freshly created cancellation context. -/
def NewJob (jobType jobDesc : String) (jobId : Int) (jobGroup : Option String)
    (ctx : Nat) : Job :=
  let group := match jobGroup with
    | some g => g
    | none => ""
  { ID := jobId, Group := group, Context := ctx, Type_ := jobType,
    Description := jobDesc, RefreshItems := none }

/-- The test of `modifyJobCount` for categories left out of the counter. -/
def isInternal (jobType : String) : Bool :=
  "UI:".toList.isPrefixOf jobType.toList || "_".toList.isPrefixOf jobType.toList

/-- Function `modifyJobCount`: the returned value and the new state. -/
def modifyJobCount (s : State) (jobType : String) (inc : Bool) : Int × State :=
  if isInternal jobType then (-1, s)
  else
    let total := if inc then addInt64 s.jobTotal 1 else subInt64 s.jobTotal 1
    (total, { s with jobTotal := total })

/-- Function `jobCount`. -/
def jobCount (s : State) : Int := s.jobTotal

/-- Function `AddJobToQueue`; `nomonitor` tells whether the variadic flag was
given.  Without it the monitor goroutine is started. -/
def AddJobToQueue (s : State) (job : Job) (nomonitor : Bool) : State :=
  let jobMap := match s.jobQueue.load job.Type_ with
    | some m => m
    | none => []
  let jobMap := jobMap.store job.ID job
  let s := { s with jobQueue := s.jobQueue.store job.Type_ jobMap }
  let s := (modifyJobCount s job.Type_ true).2
  if nomonitor then s else { s with trace := s.trace ++ [Event.monitor job false] }

/-- The call `sort.Slice(jobIds, less)` with `less = (<)`. -/
def sortIds (jobIds : List Int) : List Int :=
  jobIds.insertionSort (fun a b => a ≤ b)

/-- Function `getJobTypeInfo`: the bucket (`none` for `nil`) and the greatest id. -/
def getJobTypeInfo (s : State) (jobType : String) : Option (GoMap Int Job) × Int :=
  match s.jobQueue.load jobType with
  | none => (none, -1)
  | some jobMap =>
    let jobIds := sortIds jobMap.keys
    match jobIds.getLast? with
    | none => (none, -1)
    | some last => (some jobMap, last)

/-- Function `GetNewJobID`. -/
def GetNewJobID (s : State) (jobType : String) : Int :=
  let jobId := (getJobTypeInfo s jobType).2
  if jobId = -1 then 0 else addInt64 jobId 1

/-- Function `GetLatestJob`: the job pointer (`none` for `nil`) and the error
(`none` for `nil`, otherwise its message). -/
def GetLatestJob (lib : GoLib) (s : State) (jobType : String) :
    Option Job × Option String :=
  let err := lib.Errorf ("Cannot get job information for " ++ jobType)
  match getJobTypeInfo s jobType with
  | (none, _) => (none, some err)
  | (some jobMap, jobId) => (jobMap.load jobId, none)

/-- The non-blocking send `select { case JobInfoStatus() <- info: default: }`:
the snapshot is queued unless 100 snapshots are already pending. -/
def offerBroadcast (s : State) (info : JobInfo) : State :=
  let s := { s with trace := s.trace ++ [Event.offer info] }
  if s.JobInfoChan.length < 100 then { s with JobInfoChan := s.JobInfoChan ++ [info] }
  else s

/-! ## client.go -/

/-- Function `SendCommand`, as seen by the caller: the call is recorded; what the
daemon answers is an input of the caller. -/
def SendCommand (s : State) (command : Command) (endpoint : String) : State :=
  { s with trace := s.trace ++ [Event.send endpoint command] }

/-- Function `SendCommandAsync`.  `resp` is the outcome of `SendCommand` followed
by `Decode`: the message of the error of either, or the decoded object. `ctx` is
the context `NewJob` creates. The result is the job or the error message. -/
def SendCommandAsync (lib : GoLib) (s : State) (jobType jobDesc : String)
    (command : Command) (endpoint : String) (noqueue : Bool)
    (resp : Except String Command) (ctx : Nat) : Except String Job × State :=
  let command := command.store "_async" (JVal.bool true)
  let s := SendCommand s command endpoint
  match resp with
  | .error e => (.error e, s)
  | .ok jobID =>
    match jobID.load "error" with
    | some (JVal.str respErr) => (.error (lib.Errorf respErr), s)
    | _ =>
      match jobID.load "jobid" with
      | some (JVal.float id) =>
        let job := NewJob jobType jobDesc (int64OfFloat lib id) none ctx
        if noqueue then (.ok job, s) else (.ok job, AddJobToQueue s job false)
      | _ => (.error (lib.Errorf "Cannot get job ID from rclone"), s)

/-! ## jobqueue.go, continued -/

/-- Function `GetJobReply`, on the snapshots that arrive on `job.Updates`, oldest
first: the snapshot returned and the error (`none` for `nil`).  The result is
`none` when no terminal snapshot ever arrives, in which case the loop never
returns. -/
def GetJobReply (lib : GoLib) : List JobInfo → Option (JobInfo × Option String)
  | [] => none
  | info :: rest =>
    if info.Error ≠ "" then some (info, some (lib.Errorf info.Error))
    else if info.Finished then some (info, none)
    else GetJobReply lib rest

/-- Function `StopJob`; `force` tells whether the variadic flag was given.  The
result of the `/job/stop` dispatch is discarded and, `noqueue` being set, the
dispatch registers nothing, so only the call itself is kept. -/
def StopJob (s : State) (job : Job) (errors : String) (force : Bool) : State :=
  let command : Command := [("jobid", JVal.num job.ID)]
  let s :=
    if force then { s with jobQueue := s.jobQueue.delete job.Type_ }
    else
      let s := SendCommand s (command.store "_async" (JVal.bool true)) "/job/stop"
      match s.jobQueue.load job.Type_ with
      | some jobMap =>
        let jobMap := jobMap.delete job.ID
        if jobMap.len = 0 then { s with jobQueue := s.jobQueue.delete job.Type_ }
        else { s with jobQueue := s.jobQueue.store job.Type_ jobMap }
      | none => s
  let r := modifyJobCount s job.Type_ false
  let jobFinished : JobInfo :=
    { ID := job.ID, Type_ := job.Type_, Description := job.Description,
      JobCount := r.1, Error := errors, Finished := true,
      RefreshItems := job.RefreshItems, Group := "", Success := false }
  offerBroadcast r.2 jobFinished

/-- Method `Range` of `sync.Map` and of the registry: `f` is called on the entries
in turn, with the effect accumulated so far, until it returns `false`. -/
def GoMap.range {κ ν α : Type} (f : κ → ν → α → α × Bool) : GoMap κ ν → α → α
  | [], a => a
  | (k, v) :: rest, a =>
    match f k v a with
    | (a, true) => GoMap.range f rest a
    | (a, false) => a

/-- Function `StopJobGroup`.  The second component lists the contexts cancelled
by the calls `j.Cancel()`, in the order of the calls; the registry and the
counter are only read. -/
def StopJobGroup (s : State) (job : Job) : State × List Nat :=
  (s, GoMap.range
    (fun (jobType : String) (jobMap : GoMap Int Job) (cancelled : List Nat) =>
      if jobType ≠ job.Type_ then (cancelled, true)
      else (cancelled ++ jobMap.map (fun e => e.2.Context), false))
    s.jobQueue [])

/-! ## operations/explorer.go -/

/-- What the environment does while one item of a batch is processed. -/
structure ItemRun where
  /-- Whether `mainJob.Context.Done()` is ready at the top of the iteration. -/
  cancelled : Bool
  /-- Outcome of the dispatch: `SendCommand` and `Decode` (see `SendCommandAsync`). -/
  response : Except String Command
  /-- Snapshots the sub-job's monitor delivers on its private queue. -/
  updates : List JobInfo
  /-- Outcome of `stat`, if it is called: error message or the decoded item. -/
  statResult : Except String ListItem

/-- Function `stat`, as seen by the caller: the request is recorded and the
daemon's answer is passed through. -/
def stat (s : State) (fs remote : String) (result : Except String ListItem) :
    Except String ListItem × State :=
  let command : Command := [("fs", JVal.str fs), ("remote", JVal.str remote)]
  (result, SendCommand s command "/operations/stat")

/-- Function `batchCommand`; `none` is the `nil` map left by an operation that is
none of the three cases. -/
def batchCommand (lib : GoLib) (operation dstFs dstRemote : String) (item : ListItem) :
    Option Command :=
  if operation = "Copy" ∨ operation = "Move" then
    if item.IsDir then
      some [("srcFs", JVal.str item.Path),
            ("dstFs", JVal.str (dstFs ++ lib.Join dstRemote item.Name))]
    else
      some [("srcFs", JVal.str item.FS),
            ("srcRemote", JVal.str item.Path),
            ("dstFs", JVal.str dstFs),
            ("dstRemote", JVal.str (lib.Join dstRemote item.Name))]
  else if operation = "Delete" then
    some [("fs", JVal.str item.FS), ("remote", JVal.str item.Path)]
  else none

/-- How the item loop of `BatchOperation` ends. -/
inductive LoopExit where
  /-- The loop was left (by exhaustion or `break`) with this `jobErr`. -/
  | done (jobErr : String)
  /-- The call `GetJobReply` never returns. -/
  | blocked
  /-- The write `command["_group"] = ...` hit a `nil` map. -/
  | nilMap
  deriving DecidableEq, Repr

/-- The description string built for item number `i` (0-based) of `n`. -/
def batchDescription (lib : GoLib) (desc dstFs dstRemote : String) (i n : Nat)
    (item : ListItem) : String :=
  let description := "(" ++ toString (i + 1) ++ "/" ++ toString n ++ ") "
  let description := description ++ desc ++ " " ++ lib.Base item.Path
  if desc ≠ "Deleting" then description ++ " -> " ++ dstFs ++ dstRemote
  else description

/-- The body of the `for i, item := range items` loop of the goroutine in
`BatchOperation`, for item `i` (0-based) of `n`.  The second component is `none`
when the loop goes on with the next item (end of body or `continue`), and the
way the loop ends otherwise; `run` is the environment's behaviour during this
iteration and `ctx` the context name `NewJob` uses. -/
def batchItem (lib : GoLib) (name desc dstFs dstRemote : String)
    (endpoints : String × String) (n : Nat) (mainJob : Job) (ctx : Nat)
    (run : ItemRun) (i : Nat) (item : ListItem) (s : State) : State × Option LoopExit :=
  -- `select { case <-mainJob.Context.Done(): break; default: }`: the `break`
  -- leaves the `select` statement, not the loop
  let s := match run.cancelled with
    | true => s
    | false => s
  let endpoint := if item.IsDir then endpoints.1 else endpoints.2
  match batchCommand lib name dstFs dstRemote item with
  | none => (s, some LoopExit.nilMap)
  | some command =>
    let command := command.store "_group" (JVal.str mainJob.Group)
    let description := batchDescription lib desc dstFs dstRemote i n item
    match SendCommandAsync lib s ("_" ++ name) description command endpoint true
        run.response ctx with
    | (.error e, s) => (s, some (LoopExit.done e))
    | (.ok job, s) =>
      let job := { job with Group := mainJob.Group, Context := mainJob.Context }
      let s := { s with trace := s.trace ++ [Event.monitor job true] }
      match GetJobReply lib run.updates with
      | none => (s, some LoopExit.blocked)
      | some (jobInfo, err) =>
        let s := { s with trace := s.trace ++ [Event.reply job jobInfo] }
        if err.isSome ∨ jobInfo.Error ≠ "" then (s, some (LoopExit.done ""))
        else
          let item1 := if name = "Delete" ∨ name = "Move"
            then { item with RefreshAddItem := false } else item
          let refreshItems : List ListItem := if name = "Delete" ∨ name = "Move"
            then [item1] else []
          if name = "Copy" ∨ name = "Move" then
            let item2 := { item1 with FS := dstFs, Path := lib.Join dstRemote item1.Name, RefreshAddItem := true }
            if item2.Size = -1 then
              match stat s item2.FS item2.Path run.statResult with
              | (.error _, s) => (s, none)
              | (.ok listItem, s) =>
                let item3 := { item2 with Size := listItem.Size }
                let item3 := if listItem.Size > 0
                  then { item3 with ISize := lib.ByteSize item3.Size } else item3
                let job := { job with RefreshItems := some (refreshItems ++ [item3]) }
                (StopJob s job jobInfo.Error false, none)
            else
              let job := { job with RefreshItems := some (refreshItems ++ [item2]) }
              (StopJob s job jobInfo.Error false, none)
          else
            let job := { job with RefreshItems := some refreshItems }
            (StopJob s job jobInfo.Error false, none)

/-- The `for i, item := range items` loop from index `i` on, with `jobErr` still
empty; `env i` is the environment's behaviour during iteration `i`. -/
def batchLoop (lib : GoLib) (name desc dstFs dstRemote : String)
    (endpoints : String × String) (n : Nat) (mainJob : Job) (ctx : Nat)
    (env : Nat → ItemRun) : Nat → List ListItem → State → State × LoopExit
  | _, [], s => (s, LoopExit.done "")
  | i, item :: rest, s =>
    match batchItem lib name desc dstFs dstRemote endpoints n mainJob (ctx + 1 + i)
        (env i) i item s with
    | (s, some exit) => (s, exit)
    | (s, none) =>
      batchLoop lib name desc dstFs dstRemote endpoints n mainJob ctx env (i + 1) rest s

/-- Function `BatchOperation` together with the goroutine it starts, run to its
end.  `items = none` is the `nil` slice, `endpoints` the two-element slice the
callers pass, `ctx` the context created for the parent job. -/
def BatchOperation (lib : GoLib) (s : State) (name desc dstFs dstRemote : String)
    (endpoints : String × String) (items : Option (List ListItem)) (ctx : Nat)
    (env : Nat → ItemRun) : State :=
  match items with
  | none => s
  | some items =>
    let id := GetNewJobID s name
    let job := NewJob name desc id (some (name ++ "/" ++ toString id)) ctx
    let s := AddJobToQueue s job true
    match batchLoop lib name desc dstFs dstRemote endpoints items.length job ctx env
        0 items s with
    | (s, LoopExit.done jobErr) => StopJob s job jobErr true
    | (s, _) => s

/-- Function `Copy`. -/
def Copy (lib : GoLib) (s : State) (items : Option (List ListItem))
    (dstFs dstRemote : String) (ctx : Nat) (env : Nat → ItemRun) : State :=
  BatchOperation lib s "Copy" "Copying" dstFs dstRemote
    ("/sync/copy", "/operations/copyfile") items ctx env

/-- Function `Move`. -/
def Move (lib : GoLib) (s : State) (items : Option (List ListItem))
    (dstFs dstRemote : String) (ctx : Nat) (env : Nat → ItemRun) : State :=
  BatchOperation lib s "Move" "Moving" dstFs dstRemote
    ("/sync/move", "/operations/movefile") items ctx env

/-- Function `Delete`. -/
def Delete (lib : GoLib) (s : State) (items : Option (List ListItem)) (ctx : Nat)
    (env : Nat → ItemRun) : State :=
  BatchOperation lib s "Delete" "Deleting" "" ""
    ("/operations/purge", "/operations/deletefile") items ctx env

/-! ## ui/utils.go and ui/explore.go -/

/-- The closure passed to `sort.Slice` in `sortList`, on the two entries it
compares. -/
def lessItem (asc : Bool) (mode : String) (x y : ListItem) : Bool :=
  if x.IsDir ≠ y.IsDir then x.IsDir
  else
    let a := if asc then x else y
    let b := if asc then y else x
    if mode = "size" then decide (a.Size < b.Size)
    else if mode = "modified" then decide (a.ModifiedTimeUnix < b.ModifiedTimeUnix)
    else decide (a.Name < b.Name)

/-- Function `sortList`. The library's `sort.Slice` is not stable; entries that
compare equal are kept in their input order here. -/
def sortList (listItems : List ListItem) (asc : Bool) (mode : String) : List ListItem :=
  listItems.insertionSort (fun x y => lessItem asc mode y x = false)

/-- The fields of `Pane` that `watchItem` reads and writes: remote and path, the
cached listing `list.Items`, the sort settings and the pending snapshots of
`refreshChan` (capacity 10). -/
structure Pane where
  FS : String
  Path : String
  items : List ListItem
  sortMode : String
  sortAsc : Bool
  refreshChan : List JobInfo
  deriving DecidableEq, Repr

/-- The test of `watchItem` that pairs a cached entry with a refresh record. -/
def matchesRecord (item listItem : ListItem) : Bool :=
  decide (listItem.ID = item.ID ∨ listItem.Name = item.Name)

/-- The inner loop `for i, listItem := range p.list.Items` of `watchItem`: the
listing it leaves and the flag `exist`. -/
def scanItems (item : ListItem) : List ListItem → List ListItem × Bool
  | [] => ([], false)
  | listItem :: rest =>
    if matchesRecord item listItem then
      if item.RefreshAddItem then
        ({ listItem with Size := item.Size, ISize := item.ISize } :: rest, true)
      else (rest, false)
    else
      let r := scanItems item rest
      (listItem :: r.1, r.2)

/-- The body of `for _, item := range items` in `watchItem`. -/
def watchRecord (lib : GoLib) (p : Pane) (item : ListItem) : Pane :=
  let itemPath := if lib.Dir item.Path = "." then "" else lib.Dir item.Path
  if p.FS ++ p.Path ≠ item.FS ++ itemPath then p
  else
    let r := scanItems item p.items
    if !r.2 && item.RefreshAddItem then
      { p with items := sortList (r.1 ++ [item]) p.sortAsc p.sortMode }
    else { p with items := r.1 }

/-- The body of `for info := range p.refreshChan` in `watchItem`. -/
def watchInfo (lib : GoLib) (p : Pane) (info : JobInfo) : Pane :=
  if !info.Finished || decide (info.Error ≠ "") then p
  else
    match info.RefreshItems with
    | none => p
    | some items => items.foldl (watchRecord lib) p

/-- Function `watchItem`, on the snapshots received from `refreshChan`. -/
def watchItem (lib : GoLib) (p : Pane) (infos : List JobInfo) : Pane :=
  infos.foldl (watchInfo lib) p

/-- The `select` of `detectPaneRefresh` for one pane: the non-blocking send of
`jobInfo` to `pane.refreshChan` (capacity 10). -/
def offerRefresh (jobInfo : JobInfo) (pane : Pane) : Pane :=
  if pane.refreshChan.length < 10 then
    { pane with refreshChan := pane.refreshChan ++ [jobInfo] }
  else pane

/-- Function `detectPaneRefresh`, on the panes `e.Panes` and the snapshots
received from `e.refreshPanes`, oldest first. -/
def detectPaneRefresh (panes : List Pane) (refreshPanes : List JobInfo) : List Pane :=
  refreshPanes.foldl (fun panes jobInfo => panes.map (offerRefresh jobInfo)) panes

/-! ## jobqueue.go: MonitorJob -/

/-- What the daemon and the decoder do during one round of polls. -/
structure PollEnv where
  /-- The error of `SendCommand(command, "/job/status")`, `none` if it succeeds. -/
  statusRequest : Option String
  /-- What `response.Decode(&jobInfo)` leaves in `jobInfo`, and its error. -/
  statusDecode : JobInfo → JobInfo × Option String
  /-- The error of `SendCommand(command, "/core/stats")`, `none` if it succeeds. -/
  statsRequest : Option String
  /-- The error of `response.Decode(&jobInfo.Transfers)`, `none` if it succeeds. -/
  statsDecode : Option String

/-- The zero value of `JobInfo`. -/
def JobInfo.zero : JobInfo :=
  { Error := "", Finished := false, Group := "", ID := 0, Success := false, JobCount := 0,
    Type_ := "", Description := "", RefreshItems := none }

/-- The group `MonitorJob` polls with: `job.Group`, or `"job/" + id` when it is
empty. -/
def monitorGroup (job : Job) : String :=
  if job.Group = "" then "job/" ++ toString job.ID else job.Group

/-- The `command` map of `MonitorJob`. -/
def monitorCommand (job : Job) : Command :=
  [("jobid", JVal.num job.ID), ("group", JVal.str (monitorGroup job))]

/-- One round of `MonitorJob` from the top of the outer `for` to the label
`SendInfo`: the two polls and the snapshot they leave in `jobInfo`. -/
def pollSnapshot (s : State) (job : Job) (jobInfo : JobInfo) (env : PollEnv) :
    State × JobInfo :=
  let s := SendCommand s (monitorCommand job) "/job/status"
  match env.statusRequest with
  | some e => (s, { jobInfo with Error := e })
  | none =>
    match env.statusDecode jobInfo with
    | (jobInfo, some e) => (s, { jobInfo with Error := e })
    | (jobInfo, none) =>
      let s := SendCommand s (monitorCommand job) "/core/stats"
      match env.statsRequest with
      | some e => (s, { jobInfo with Error := e })
      | none =>
        let jobInfo := match env.statsDecode with
          | some e => { jobInfo with Error := e }
          | none => jobInfo
        (s, { jobInfo with Type_ := job.Type_, JobCount := jobCount s,
                           Description := job.Description })

/-- The block at the label `SendInfo`: the non-blocking send of `jobInfo` to the
private queue `updates` (capacity 10) and what follows it. The last component
tells whether `MonitorJob` returns. -/
def sendInfo (s : State) (job : Job) (nostop : Bool) (updates : List JobInfo)
    (jobInfo : JobInfo) : State × List JobInfo × Bool :=
  if updates.length < 10 then
    let updates := updates ++ [jobInfo]
    let s := offerBroadcast s jobInfo
    if jobInfo.Error ≠ "" ∨ jobInfo.Finished = true then
      (if nostop then s else StopJob s job jobInfo.Error false, updates, true)
    else (s, updates, false)
  else (s, updates, false)

/-- What happens between two deliveries: the reader of the private queue takes
`taken` snapshots, and the final `select` of the loop either sees the ticker,
which starts the next round of polls, or the cancelled context. -/
inductive MonitorStep where
  | tick (taken : Nat) (env : PollEnv)
  | cancel (taken : Nat)

/-- Where `MonitorJob` stands. -/
structure MonitorState where
  state : State
  updates : List JobInfo
  jobInfo : JobInfo
  exited : Bool

/-- The loop of `MonitorJob` over the steps the environment takes; it stops at
the first delivery after which `MonitorJob` returns. -/
def monitorLoop (job : Job) (nostop : Bool) : List MonitorStep → MonitorState → MonitorState
  | [], m => m
  | step :: rest, m =>
    if m.exited then m
    else
      let taken := match step with
        | .tick taken _ => taken
        | .cancel taken => taken
      let r := match step with
        | .tick _ env => pollSnapshot m.state job m.jobInfo env
        | .cancel _ => (m.state, { m.jobInfo with Error := job.Description ++ " cancelled" })
      let d := sendInfo r.1 job nostop (m.updates.drop taken) r.2
      monitorLoop job nostop rest
        { state := d.1, updates := d.2.1, jobInfo := r.2, exited := d.2.2 }

/-- Function `MonitorJob`: the first round of polls with the job's private queue
holding `updates`, then the steps of `rest`. -/
def MonitorJob (s : State) (job : Job) (nostop : Bool) (updates : List JobInfo)
    (env : PollEnv) (rest : List MonitorStep) : MonitorState :=
  monitorLoop job nostop (MonitorStep.tick 0 env :: rest)
    { state := s, updates := updates, jobInfo := JobInfo.zero, exited := false }

/-! ## Notions used in the statements -/

/-- The job registered under category `c` and id `k`, if any. -/
def lookupJob (s : State) (c : String) (k : Int) : Option Job :=
  match s.jobQueue.load c with
  | some b => b.load k
  | none => none

/-- The ids present in the bucket of category `c` (none if there is no bucket). -/
def bucketIds (s : State) (c : String) : List Int :=
  match s.jobQueue.load c with
  | some b => b.keys
  | none => []

/-- Every registered job sits under its own id and category, as `AddJobToQueue`
files it. -/
def KeyedByID (s : State) : Prop :=
  ∀ e ∈ s.jobQueue, ∀ f ∈ e.2, f.2.ID = f.1 ∧ f.2.Type_ = e.1

instance (s : State) : Decidable (KeyedByID s) := by
  unfold KeyedByID; infer_instance

/-- The job `Copy`/0 of `demoState`. -/
def demoJob0 : Job := NewJob "Copy" "Copying" 0 (some "Copy/0") 0

/-- The job `Copy`/1 of `demoState`. -/
def demoJob1 : Job := NewJob "Copy" "Copying" 1 (some "Copy/1") 2

/-- A registry holding two `Copy` jobs, ids 0 and 1, and one `UI:Mounts` job. -/
def demoState : State :=
  AddJobToQueue
    (AddJobToQueue (AddJobToQueue State.init demoJob0 true)
      (NewJob "UI:Mounts" "Mounting remote" 7 none 1) true)
    demoJob1 true

/-- The number of registered jobs whose category is not internal: the pairs
`(c, k)` of a category `c` of the registry that `modifyJobCount` counts and an
id `k` of its bucket. -/
def nonInternalCount (s : State) : Nat :=
  ((s.jobQueue.keys.dedup.filter (fun c => !isInternal c)).map
    (fun c => (bucketIds s c).dedup.length)).sum

/-- The states reached from the empty registry by registering any job and by
stopping, forced or not, a job that is currently registered. -/
inductive Reachable : State → Prop where
  | init : Reachable State.init
  | add (s : State) (j : Job) (nm : Bool) : Reachable s → Reachable (AddJobToQueue s j nm)
  | stop (s : State) (j : Job) (err : String) (force : Bool) : Reachable s →
      lookupJob s j.Type_ j.ID = some j → Reachable (StopJob s j err force)

/-- The states reached from the empty registry by registering a job whose
`(Type, ID)` is not registered yet, by stopping a registered job without
`force`, and by stopping with `force` a registered job that is the only one of
its category. -/
inductive ReachableFresh : State → Prop where
  | init : ReachableFresh State.init
  | add (s : State) (j : Job) (nm : Bool) : ReachableFresh s →
      lookupJob s j.Type_ j.ID = none → ReachableFresh (AddJobToQueue s j nm)
  | stop (s : State) (j : Job) (err : String) : ReachableFresh s →
      lookupJob s j.Type_ j.ID = some j → ReachableFresh (StopJob s j err false)
  | stopLast (s : State) (j : Job) (err : String) : ReachableFresh s →
      lookupJob s j.Type_ j.ID = some j → bucketIds s j.Type_ = [j.ID] →
      ReachableFresh (StopJob s j err true)

/-- The sum of the bucket sizes of the categories that are not internal. -/
def sizeSum : GoMap String (GoMap Int Job) → Nat
  | [] => 0
  | (c, b) :: q => (if isInternal c then 0 else b.length) + sizeSum q

/-- No category and, within a bucket, no id is listed twice. -/
def NodupKeys (q : GoMap String (GoMap Int Job)) : Prop :=
  q.keys.Nodup ∧ ∀ e ∈ q, e.2.keys.Nodup

/-- The three kinds of batch the repository runs. -/
inductive BatchKind where
  | copy
  | move
  | delete
  deriving DecidableEq, Repr

/-- The `name` argument the wrapper of the kind passes to `BatchOperation`. -/
def BatchKind.name : BatchKind → String
  | .copy => "Copy"
  | .move => "Move"
  | .delete => "Delete"

/-- The `endpoints` argument the wrapper of the kind passes to `BatchOperation`. -/
def BatchKind.endpoints : BatchKind → String × String
  | .copy => ("/sync/copy", "/operations/copyfile")
  | .move => ("/sync/move", "/operations/movefile")
  | .delete => ("/operations/purge", "/operations/deletefile")

/-- The wrapper `Copy`, `Move` or `Delete` of the kind (`Delete` takes no
destination). -/
def BatchKind.run (kind : BatchKind) (lib : GoLib) (s : State)
    (items : Option (List ListItem)) (dstFs dstRemote : String) (ctx : Nat)
    (env : Nat → ItemRun) : State :=
  match kind with
  | .copy => Copy lib s items dstFs dstRemote ctx env
  | .move => Move lib s items dstFs dstRemote ctx env
  | .delete => Delete lib s items ctx env

/-- The result of a dispatch as `SendCommandAsync` computes it from the daemon's
answer: the error message, or the job id. -/
def dispatchResult (lib : GoLib) (resp : Except String Command) : Except String Int :=
  match (SendCommandAsync lib State.init "" "" [] "" true resp 0).1 with
  | .error e => .error e
  | .ok job => .ok job.ID

/-- The item is dispatched and its sub-job ends with an error-free terminal
snapshot. -/
def ItemRun.succeeds (lib : GoLib) (r : ItemRun) : Prop :=
  (∃ id, dispatchResult lib r.response = .ok id) ∧
    ∃ info, GetJobReply lib r.updates = some (info, none) ∧ info.Error = ""

/-- The dispatch of the item is rejected with message `e`. -/
def ItemRun.rejected (lib : GoLib) (r : ItemRun) (e : String) : Prop :=
  dispatchResult lib r.response = .error e

/-- The item is dispatched and the terminal snapshot of its sub-job carries the
error `e`. -/
def ItemRun.subJobFails (lib : GoLib) (r : ItemRun) (e : String) : Prop :=
  (∃ id, dispatchResult lib r.response = .ok id) ∧
    ∃ info err, GetJobReply lib r.updates = some (info, err) ∧ info.Error = e ∧ e ≠ ""

/-- The per-item operation requests of a trace: the `SendCommand` calls to one
of the two operation endpoints, with their payloads, in order. -/
def operationRequests (eps : String × String) (tr : List Event) : List (String × Command) :=
  tr.filterMap (fun ev =>
    match ev with
    | Event.send ep cmd => if ep = eps.1 ∨ ep = eps.2 then some (ep, cmd) else none
    | _ => none)

/-- The operation request of one item: its endpoint and the payload of
`batchCommand` tagged with the parent's group and `_async`. -/
def itemRequest (lib : GoLib) (name dstFs dstRemote : String) (eps : String × String)
    (group : String) (item : ListItem) : String × Command :=
  (if item.IsDir then eps.1 else eps.2,
   GoMap.store
     (GoMap.store ((batchCommand lib name dstFs dstRemote item).getD [])
       "_group" (JVal.str group))
     "_async" (JVal.bool true))

/-- Neither operation endpoint is the `stat` or the `/job/stop` endpoint. -/
def EndpointsOK (eps : String × String) : Prop :=
  eps.1 ≠ "/operations/stat" ∧ eps.1 ≠ "/job/stop" ∧
    eps.2 ≠ "/operations/stat" ∧ eps.2 ≠ "/job/stop"

/-- The parent job `BatchOperation` creates in state `s`. -/
def parentJob (s : State) (name desc : String) (ctx : Nat) : Job :=
  NewJob name desc (GetNewJobID s name)
    (some (name ++ "/" ++ toString (GetNewJobID s name))) ctx

/-- The snapshot `jobFinished` that `StopJob(job, errors)` offers. -/
def jobFinished (s : State) (job : Job) (errors : String) : JobInfo :=
  { ID := job.ID, Type_ := job.Type_, Description := job.Description,
    JobCount := if isInternal job.Type_ then -1 else subInt64 s.jobTotal 1,
    Error := errors, Finished := true, RefreshItems := job.RefreshItems, Group := "",
    Success := false }

/-- The events that wrap up an item whose sub-job succeeded: the `stat` and
`/job/stop` requests and the sub-job's final snapshot. -/
def Event.isWrapUp (c : String) : Event → Bool
  | .send ep _ => decide (ep = "/operations/stat" ∨ ep = "/job/stop")
  | .offer info => decide (info.Type_ = c)
  | _ => false

/-- The sub-job of an item, as the loop body sets it up after the dispatch. -/
def subJob (lib : GoLib) (name desc dstFs dstRemote : String) (n : Nat) (mainJob : Job)
    (ctx : Nat) (i : Nat) (item : ListItem) (id : Int) : Job :=
  { NewJob ("_" ++ name) (batchDescription lib desc dstFs dstRemote i n item) id none ctx with
    Group := mainJob.Group, Context := mainJob.Context }

/-- The `desc` argument the wrapper of the kind passes to `BatchOperation`. -/
def BatchKind.desc : BatchKind → String
  | .copy => "Copying"
  | .move => "Moving"
  | .delete => "Deleting"

/-- A file entry `name` of remote `r:` with size 3. -/
def demoFile (name : String) : ListItem :=
  { ID := "", IsDir := false, MimeType := "text/plain", ModTime := "", Name := name,
    Path := name, Size := 3, FS := "r:", ISize := "3B", ModifiedTime := "",
    ModifiedTimeUnix := 0, About := false, RefreshAddItem := false }

/-- An environment in which every dispatch is accepted as job 7 and the sub-job's
monitor delivers one running snapshot and then a snapshot with the error
`object not found`. -/
def failingEnv : Nat → ItemRun := fun _ =>
  { cancelled := false
    response := .ok [("jobid", JVal.float 7)]
    updates :=
      [{ Error := "", Finished := false, Group := "Delete/0", ID := 7, Success := false,
         JobCount := 1, Type_ := "_Delete", Description := "", RefreshItems := none },
       { Error := "object not found", Finished := true, Group := "Delete/0", ID := 7,
         Success := false, JobCount := 1, Type_ := "_Delete", Description := "",
         RefreshItems := none }]
    statResult := .error "not called" }

/-- The event is a per-item operation request. -/
def Event.isRequest (eps : String × String) : Event → Bool
  | .send ep _ => decide (ep = eps.1 ∨ ep = eps.2)
  | _ => false

/-- The event starts the monitoring of a sub-job. -/
def Event.isStart : Event → Bool
  | .monitor _ _ => true
  | _ => false

/-- The event is the delivery of a terminal snapshot to `GetJobReply`. -/
def Event.isEnd : Event → Bool
  | .reply _ info => decide (info.Error ≠ "") || info.Finished
  | _ => false

/-- The number of sub-jobs started in a trace. -/
def subJobsStarted (tr : List Event) : Nat := tr.countP Event.isStart

/-- The number of sub-jobs that delivered their terminal snapshot in a trace. -/
def subJobsEnded (tr : List Event) : Nat := tr.countP Event.isEnd

/-- The number of per-item operation requests in a trace. -/
def requestsIssued (eps : String × String) (tr : List Event) : Nat :=
  tr.countP (Event.isRequest eps)

/-- Where the sequencer stands between two events: no request outstanding, a
request issued whose sub-job is not started yet, or a sub-job in flight. -/
inductive Phase where
  | idle
  | requested
  | running
  deriving DecidableEq, Repr

/-- Runs through a trace keeping the phase. A request is allowed only when idle,
a start only after a request, an end only while a sub-job is running; anything
else gives `none`. -/
def flight (eps : String × String) : Phase → List Event → Option Phase
  | p, [] => some p
  | p, ev :: tr =>
    if ev.isRequest eps then (if p = Phase.idle then flight eps Phase.requested tr else none)
    else if ev.isStart then (if p = Phase.requested then flight eps Phase.running tr else none)
    else if ev.isEnd then (if p = Phase.running then flight eps Phase.idle tr else none)
    else flight eps p tr

/-- One for the phase with a request not yet started, else zero. -/
def Phase.unstarted : Phase → Nat
  | .requested => 1
  | _ => 0

/-- One for the phase with a sub-job in flight, else zero. -/
def Phase.inFlight : Phase → Nat
  | .running => 1
  | _ => 0

/-- A directory entry `name` of remote `r:` whose size is unknown. -/
def demoDir (name : String) : ListItem :=
  { ID := "", IsDir := true, MimeType := "inode/directory", ModTime := "", Name := name,
    Path := name, Size := -1, FS := "r:", ISize := "Unknown", ModifiedTime := "",
    ModifiedTimeUnix := 0, About := false, RefreshAddItem := false }

/-- An error-free terminal snapshot of job 7. -/
def doneSnapshot : JobInfo :=
  { Error := "", Finished := true, Group := "", ID := 7, Success := true, JobCount := 1,
    Type_ := "", Description := "", RefreshItems := none }

/-- An environment in which every dispatch is accepted as job 7, the sub-job
ends without error and `stat` reports the size `size`. -/
def succeedingEnv (size : Int) : Nat → ItemRun := fun _ =>
  { cancelled := false
    response := .ok [("jobid", JVal.float 7)]
    updates := [doneSnapshot]
    statResult := .ok { demoDir "" with Size := size } }

/-- As `succeedingEnv`, but `stat` fails. -/
def statFailEnv : Nat → ItemRun := fun _ =>
  { cancelled := false
    response := .ok [("jobid", JVal.float 7)]
    updates := [doneSnapshot]
    statResult := .error "connection refused" }

/-- The refresh payloads carried by the snapshots offered in a trace. -/
def refreshPayloads (tr : List Event) : List (List ListItem) :=
  tr.filterMap (fun ev =>
    match ev with
    | Event.offer info => info.RefreshItems
    | _ => none)

/-- A cached entry with the given id, name and size, in directory `ab` of remote
`r:`. -/
def demoEntry (id name : String) (size : Int) : ListItem :=
  { demoFile name with ID := id, Path := "ab/" ++ name, Size := size }

/-- A pane showing directory `ab` of remote `r:` with two entries, sorted by
ascending size. -/
def demoPane : Pane :=
  { FS := "r:", Path := "ab",
    items := [demoEntry "id1" "a.txt" 1, demoEntry "id2" "m.txt" 5],
    sortMode := "size", sortAsc := true, refreshChan := [] }

/-- The directory `watchItem` computes for a refresh record: `filepath.Dir` of
its path, with `.` read as the empty path. -/
def recordDir (lib : GoLib) (item : ListItem) : String :=
  if lib.Dir item.Path = "." then "" else lib.Dir item.Path

/-- The order `sortList` leaves between an earlier entry `x` and a later entry
`y`: the later one is not less than the earlier one. -/
def sortedBefore (asc : Bool) (mode : String) (x y : ListItem) : Prop :=
  lessItem asc mode y x = false

/-- The number of snapshots the reader takes from the private queue before the
delivery of the step. -/
def MonitorStep.taken : MonitorStep → Nat
  | .tick taken _ => taken
  | .cancel taken => taken

/-- The snapshot a step of `MonitorJob` brings to the label `SendInfo`, with the
state after the calls made on the way. -/
def snapshotOf (job : Job) (step : MonitorStep) (m : MonitorState) : State × JobInfo :=
  match step with
  | .tick _ env => pollSnapshot m.state job m.jobInfo env
  | .cancel _ => (m.state, { m.jobInfo with Error := job.Description ++ " cancelled" })

/-- The message of the failure met in a round of polls, if one is met: that of
the `/job/status` request, else of the decoding of its answer, else of the
`/core/stats` request, else of the decoding of its answer. -/
def PollEnv.failure (env : PollEnv) (jobInfo : JobInfo) : Option String :=
  match env.statusRequest with
  | some e => some e
  | none =>
    match (env.statusDecode jobInfo).2 with
    | some e => some e
    | none =>
      match env.statsRequest with
      | some e => some e
      | none => env.statsDecode

/-- The action is a poll: a call to `/job/status` or to `/core/stats`. -/
def Event.isPoll : Event → Bool
  | .send endpoint _ => endpoint = "/job/status" || endpoint = "/core/stats"
  | _ => false

/-- The number of polls in a trace. -/
def pollsIssued (tr : List Event) : Nat := (tr.filter Event.isPoll).length

/-- A round of polls in which the `/job/status` request is refused. -/
def refusedEnv : PollEnv :=
  { statusRequest := some "connection refused", statusDecode := fun i => (i, none),
    statsRequest := none, statsDecode := none }

/-- A monitor about to start its first round for `demoJob0` in `demoState`, the
private queue being empty. -/
def demoMonitor : MonitorState :=
  { state := demoState, updates := [], jobInfo := JobInfo.zero, exited := false }

/-- A terminal snapshot whose error message holds a percent sign. -/
def percentSnapshot : JobInfo :=
  { JobInfo.zero with Error := "disk 100% full", Finished := true }

/-- Registered jobs of different categories carry different contexts, as jobs
made by `NewJob` do. -/
def OwnContexts (s : State) : Prop :=
  ∀ e ∈ s.jobQueue, ∀ e' ∈ s.jobQueue, e.1 ≠ e'.1 →
    ∀ f ∈ e.2, ∀ f' ∈ e'.2, f.2.Context ≠ f'.2.Context

/-- The snapshots offered to the broadcast queue in a trace, oldest first. -/
def offeredSnapshots (tr : List Event) : List JobInfo :=
  tr.filterMap (fun ev =>
    match ev with
    | Event.offer info => some info
    | _ => none)

/-- A pane showing an empty directory of `r:` whose private queue is full. -/
def fullPane : Pane :=
  { FS := "r:", Path := "", items := [], sortMode := "size", sortAsc := true,
    refreshChan := List.replicate 10 JobInfo.zero }

/-- As `succeedingEnv`, with the parent's context already cancelled when each
item is reached. -/
def cancelledEnv (size : Int) : Nat → ItemRun := fun i =>
  { succeedingEnv size i with cancelled := true }

/-- Entry `x` is not above entry `y` in the key of the sort mode: `Size` for
`size`, `ModifiedTimeUnix` for `modified`, `Name` otherwise. -/
def keyLE (mode : String) (x y : ListItem) : Prop :=
  if mode = "size" then x.Size ≤ y.Size
  else if mode = "modified" then x.ModifiedTimeUnix ≤ y.ModifiedTimeUnix
  else x.Name ≤ y.Name

/-- A pane showing directory `ab` of a remote that reports no IDs: both cached
entries have the empty ID. -/
def localPane : Pane :=
  { FS := "r:", Path := "ab", items := [demoEntry "" "a.txt" 1, demoEntry "" "m.txt" 5],
    sortMode := "size", sortAsc := true, refreshChan := [] }

/-- The `float64` 7.5, as the rational 15/2. -/
def sevenAndHalf : ℚ := ⟨15, 2, by decide, by decide⟩

/-- The value is one `ShowRemotes` gives the `FS` of a pane, and a refresh record
copies from a pane: `/` for the local file system, or the name of a remote, which
holds neither `:` nor `/`, followed by `:`. -/
def PaneFS (fs : String) : Prop :=
  fs = "/" ∨ ∃ remote : String, fs = remote ++ ":" ∧ ':' ∉ remote.toList ∧ '/' ∉ remote.toList

/-! ## Lemmas on the primitives -/

theorem wrapInt64_of_range (x : Int) (h1 : minInt64 ≤ x) (h2 : x ≤ maxInt64) :
    wrapInt64 x = x := by
  unfold wrapInt64; unfold minInt64 at h1; unfold maxInt64 at h2; omega

theorem wrapInt64_add_wrap (x y : Int) : wrapInt64 (wrapInt64 x + y) = wrapInt64 (x + y) := by
  unfold wrapInt64; omega

theorem wrapInt64_sub_wrap (x y : Int) : wrapInt64 (wrapInt64 x - y) = wrapInt64 (x - y) := by
  unfold wrapInt64; omega

namespace GoMap

variable {κ ν : Type} [DecidableEq κ]

theorem load_nil (k : κ) : load ([] : GoMap κ ν) k = none := rfl

theorem load_cons (k' : κ) (v : ν) (m : GoMap κ ν) (k : κ) :
    load ((k', v) :: m) k = if k' = k then some v else load m k := rfl

theorem delete_cons (e : κ × ν) (m : GoMap κ ν) (k : κ) :
    delete (e :: m) k = if e.1 = k then delete m k else e :: delete m k := by
  unfold delete
  by_cases h : e.1 = k <;> simp [List.filter_cons, h]

theorem load_delete_self (m : GoMap κ ν) (k : κ) : load (delete m k) k = none := by
  induction m with
  | nil => rfl
  | cons e m ih =>
    obtain ⟨k', v⟩ := e
    rw [delete_cons]
    by_cases h : k' = k
    · simp [h, ih]
    · simp [h, load_cons, ih]

theorem load_delete_ne (m : GoMap κ ν) {k k' : κ} (h : k' ≠ k) :
    load (delete m k) k' = load m k' := by
  induction m with
  | nil => rfl
  | cons e m ih =>
    obtain ⟨k0, v⟩ := e
    rw [delete_cons]
    by_cases h0 : k0 = k
    · have hk : ¬ k = k' := fun h1 => h h1.symm
      simp [h0, load_cons, ih, hk]
    · simp [h0, load_cons, ih]

theorem load_store_self (m : GoMap κ ν) (k : κ) (v : ν) : load (store m k v) k = some v := by
  simp [store, load_cons]

theorem load_store_ne (m : GoMap κ ν) {k k' : κ} (v : ν) (h : k' ≠ k) :
    load (store m k v) k' = load m k' := by
  have : k ≠ k' := fun h1 => h h1.symm
  simp [store, load_cons, this, load_delete_ne m h]

theorem keys_delete (m : GoMap κ ν) (k : κ) :
    keys (delete m k) = (keys m).filter (fun x => decide (x ≠ k)) := by
  induction m with
  | nil => rfl
  | cons e m ih =>
    rw [delete_cons]
    by_cases h : e.1 = k
    · simp [keys, h] at ih ⊢; exact ih
    · simp [keys, h] at ih ⊢; exact ih

theorem mem_keys_delete (m : GoMap κ ν) (k x : κ) :
    x ∈ keys (delete m k) ↔ x ∈ keys m ∧ x ≠ k := by
  rw [keys_delete]; simp

theorem mem_keys_store (m : GoMap κ ν) (k x : κ) (v : ν) :
    x ∈ keys (store m k v) ↔ x = k ∨ x ∈ keys m := by
  have h := mem_keys_delete m k x
  simp only [store, keys, List.map_cons, List.mem_cons] at h ⊢
  rw [h]
  by_cases hx : x = k <;> simp [hx]

theorem load_eq_none_iff (m : GoMap κ ν) (k : κ) : load m k = none ↔ k ∉ keys m := by
  induction m with
  | nil => simp [load_nil, keys]
  | cons e m ih =>
    obtain ⟨k0, v⟩ := e
    by_cases h : k0 = k
    · simp [load_cons, keys, h]
    · have h' : ¬ k = k0 := fun h1 => h h1.symm
      simp [load_cons, keys, h, h'] at ih ⊢
      exact ih

theorem load_isSome_of_mem_keys (m : GoMap κ ν) (k : κ) (h : k ∈ keys m) :
    ∃ v, load m k = some v := by
  cases hl : load m k with
  | none => exact absurd h ((load_eq_none_iff m k).1 hl)
  | some v => exact ⟨v, rfl⟩

theorem mem_of_load (m : GoMap κ ν) (k : κ) (v : ν) (h : load m k = some v) : (k, v) ∈ m := by
  induction m with
  | nil => simp [load_nil] at h
  | cons e m ih =>
    obtain ⟨k0, v0⟩ := e
    rw [load_cons] at h
    by_cases h0 : k0 = k
    · simp [h0] at h; simp [h0, h]
    · simp [h0] at h; exact List.mem_cons_of_mem _ (ih h)

end GoMap

/-! ## The registry: ids -/

theorem sorted_le_getLast (l : List Int) (hs : l.Sorted (fun a b => a ≤ b)) (m : Int)
    (hm : l.getLast? = some m) : ∀ x ∈ l, x ≤ m := by
  induction l with
  | nil => intro x hx; cases hx
  | cons a l ih =>
    intro x hx
    have hs' := List.sorted_cons.1 hs
    cases l with
    | nil =>
      simp at hm hx
      omega
    | cons b l =>
      have hm' : (b :: l).getLast? = some m := by
        simpa [List.getLast?_cons_cons] using hm
      have hmem : m ∈ b :: l := List.mem_of_getLast?_eq_some hm'
      rcases List.mem_cons.1 hx with h | h
      · rw [h]; exact hs'.1 m hmem
      · exact ih hs'.2 hm' x h

theorem sortIds_getLast (l : List Int) (hne : l ≠ []) :
    ∃ m, (sortIds l).getLast? = some m ∧ m ∈ l ∧ ∀ k ∈ l, k ≤ m := by
  have hperm : (sortIds l).Perm l := List.perm_insertionSort _ l
  have hsorted : (sortIds l).Sorted (fun a b => a ≤ b) := List.sorted_insertionSort _ l
  cases hl : (sortIds l).getLast? with
  | none =>
    have : sortIds l = [] := List.getLast?_eq_none_iff.1 hl
    rw [this] at hperm
    exact absurd (List.Perm.eq_nil hperm.symm) hne
  | some m =>
    refine ⟨m, rfl, ?_, ?_⟩
    · exact hperm.mem_iff.1 (List.mem_of_getLast?_eq_some hl)
    · intro k hk
      exact sorted_le_getLast _ hsorted m hl k (hperm.mem_iff.2 hk)

theorem getJobTypeInfo_absent (s : State) (c : String) (h : s.jobQueue.load c = none) :
    getJobTypeInfo s c = (none, -1) := by
  simp [getJobTypeInfo, h]

theorem getJobTypeInfo_empty (s : State) (c : String) (h : s.jobQueue.load c = some []) :
    getJobTypeInfo s c = (none, -1) := by
  simp [getJobTypeInfo, h, GoMap.keys, sortIds]

theorem getJobTypeInfo_nonempty (s : State) (c : String) (b : GoMap Int Job)
    (h : s.jobQueue.load c = some b) (hne : b ≠ []) :
    ∃ m, getJobTypeInfo s c = (some b, m) ∧ m ∈ b.keys ∧ ∀ k ∈ b.keys, k ≤ m := by
  have hk : b.keys ≠ [] := by
    intro h0
    exact hne (List.map_eq_nil_iff.1 h0)
  obtain ⟨m, h1, h2, h3⟩ := sortIds_getLast b.keys hk
  exact ⟨m, by simp [getJobTypeInfo, h, h1], h2, h3⟩

theorem bucketIds_eq_nil_iff (s : State) (c : String) :
    bucketIds s c = [] ↔ s.jobQueue.load c = none ∨ s.jobQueue.load c = some [] := by
  unfold bucketIds
  cases h : s.jobQueue.load c with
  | none => simp
  | some b => simp [GoMap.keys]

/-- The greatest id of a non-empty bucket exists and is unique. -/
theorem bucketIds_greatest (s : State) (c : String) (hne : bucketIds s c ≠ []) :
    ∃ m, m ∈ bucketIds s c ∧ ∀ k ∈ bucketIds s c, k ≤ m := by
  obtain ⟨m, _, h2, h3⟩ := sortIds_getLast (bucketIds s c) hne
  exact ⟨m, h2, h3⟩

theorem getJobTypeInfo_of_greatest (s : State) (c : String) (m : Int)
    (hm : m ∈ bucketIds s c) (hmax : ∀ k ∈ bucketIds s c, k ≤ m) :
    ∃ b, s.jobQueue.load c = some b ∧ getJobTypeInfo s c = (some b, m) := by
  unfold bucketIds at hm hmax
  cases h : s.jobQueue.load c with
  | none => simp [h] at hm
  | some b =>
    simp only [h] at hm hmax
    have hne : b ≠ [] := by
      intro h0; rw [h0] at hm; simp [GoMap.keys] at hm
    obtain ⟨m', h1, h2, h3⟩ := getJobTypeInfo_nonempty s c b h hne
    have : m' = m := le_antisymm (hmax m' h2) (h3 m hm)
    exact ⟨b, rfl, by rw [h1, this]⟩

theorem GetNewJobID_of_greatest (s : State) (c : String) (m : Int)
    (hm : m ∈ bucketIds s c) (hmax : ∀ k ∈ bucketIds s c, k ≤ m) :
    GetNewJobID s c = addInt64 m 1 := by
  obtain ⟨b, _, h2⟩ := getJobTypeInfo_of_greatest s c m hm hmax
  unfold GetNewJobID
  rw [h2]
  by_cases h : m = -1
  · subst h; simp [addInt64, wrapInt64]
  · simp [h]

theorem addInt64_one_of_lt (m : Int) (h1 : minInt64 ≤ m) (h2 : m < maxInt64) :
    addInt64 m 1 = m + 1 := by
  unfold addInt64
  apply wrapInt64_of_range
  · unfold minInt64 at *; omega
  · unfold maxInt64 at *; omega

/-- C1. `GetNewJobID(c)` is 0 when category `c` has no bucket or an empty one;
otherwise the bucket has a greatest id and, with `m` that id, the result is
`m + 1` computed in `int64`, which is the integer `m + 1` for every `int64` id
`m` below the largest one. -/
theorem GetNewJobID_spec (s : State) (c : String) :
    (bucketIds s c = [] → GetNewJobID s c = 0) ∧
    (bucketIds s c ≠ [] → ∃ m, m ∈ bucketIds s c ∧ ∀ k ∈ bucketIds s c, k ≤ m) ∧
    (∀ m, m ∈ bucketIds s c → (∀ k ∈ bucketIds s c, k ≤ m) →
      GetNewJobID s c = addInt64 m 1 ∧
      (minInt64 ≤ m → m < maxInt64 → GetNewJobID s c = m + 1)) := by
  refine ⟨?_, bucketIds_greatest s c, ?_⟩
  · intro h
    rcases (bucketIds_eq_nil_iff s c).1 h with h | h
    · simp [GetNewJobID, getJobTypeInfo_absent s c h]
    · simp [GetNewJobID, getJobTypeInfo_empty s c h]
  · intro m hm hmax
    have h := GetNewJobID_of_greatest s c m hm hmax
    exact ⟨h, fun h1 h2 => by rw [h, addInt64_one_of_lt m h1 h2]⟩

/-- With `Copy` jobs 0 and 1 registered the next `Copy` id is 2. -/
theorem GetNewJobID_spec_witness : GetNewJobID demoState "Copy" = 1 + 1 :=
  ((GetNewJobID_spec demoState "Copy").2.2 1 (by decide) (by decide)).2
    (by decide) (by decide)

theorem lookupJob_keyed (s : State) (hk : KeyedByID s) (c : String) (k : Int) (j : Job)
    (h : lookupJob s c k = some j) : j.ID = k ∧ j.Type_ = c := by
  unfold lookupJob at h
  cases hb : s.jobQueue.load c with
  | none => simp [hb] at h
  | some b =>
    simp only [hb] at h
    exact hk (c, b) (GoMap.mem_of_load _ _ _ hb) (k, j) (GoMap.mem_of_load _ _ _ h)

theorem GetLatestJob_of_greatest (lib : GoLib) (s : State) (c : String) (m : Int)
    (hm : m ∈ bucketIds s c) (hmax : ∀ k ∈ bucketIds s c, k ≤ m) :
    GetLatestJob lib s c = (lookupJob s c m, none) ∧ ∃ j, lookupJob s c m = some j := by
  obtain ⟨b, h1, h2⟩ := getJobTypeInfo_of_greatest s c m hm hmax
  have hm' : m ∈ b.keys := by simpa [bucketIds, h1] using hm
  obtain ⟨j, hj⟩ := GoMap.load_isSome_of_mem_keys b m hm'
  constructor
  · simp [GetLatestJob, h2, lookupJob, h1]
  · exact ⟨j, by simp [lookupJob, h1, hj]⟩

theorem mem_bucketIds_of_lookupJob (s : State) (c : String) (k : Int) (j : Job)
    (h : lookupJob s c k = some j) : k ∈ bucketIds s c := by
  unfold lookupJob at h
  unfold bucketIds
  cases hb : s.jobQueue.load c with
  | none => simp [hb] at h
  | some b =>
    simp only [hb] at h ⊢
    by_contra hn
    rw [(GoMap.load_eq_none_iff b k).2 hn] at h
    cases h

/-- C2. When category `c` has no bucket or an empty one, `GetLatestJob(c)` returns
no job and a non-nil error. Otherwise the bucket has a greatest id `m`, and
`GetLatestJob(c)` returns, with a nil error, the job registered under `m`; in a
registry where every job is filed under its own id, that job has id `m` and no
job of the category has a greater id. -/
theorem GetLatestJob_spec (lib : GoLib) (s : State) (c : String) :
    (bucketIds s c = [] → GetLatestJob lib s c =
      (none, some (lib.Errorf ("Cannot get job information for " ++ c)))) ∧
    (bucketIds s c ≠ [] → ∃ m, m ∈ bucketIds s c ∧ ∀ k ∈ bucketIds s c, k ≤ m) ∧
    (∀ m, m ∈ bucketIds s c → (∀ k ∈ bucketIds s c, k ≤ m) →
      ∃ j, GetLatestJob lib s c = (some j, none) ∧ lookupJob s c m = some j ∧
        (KeyedByID s → j.ID = m ∧
          ∀ k j', lookupJob s c k = some j' → j'.ID ≤ j.ID)) := by
  refine ⟨?_, bucketIds_greatest s c, ?_⟩
  · intro h
    rcases (bucketIds_eq_nil_iff s c).1 h with h | h
    · simp [GetLatestJob, getJobTypeInfo_absent s c h]
    · simp [GetLatestJob, getJobTypeInfo_empty s c h]
  · intro m hm hmax
    obtain ⟨h1, j, hj⟩ := GetLatestJob_of_greatest lib s c m hm hmax
    refine ⟨j, by rw [h1, hj], hj, ?_⟩
    intro hk
    have hid := (lookupJob_keyed s hk c m j hj).1
    refine ⟨hid, ?_⟩
    intro k j' hj'
    rw [hid, (lookupJob_keyed s hk c k j' hj').1]
    exact hmax k (mem_bucketIds_of_lookupJob s c k j' hj')

/-- The latest `Copy` job of `demoState` is the one with id 1. -/
theorem GetLatestJob_spec_witness :
    ∃ j, GetLatestJob plainLib demoState "Copy" = (some j, none) ∧ j.ID = 1 := by
  obtain ⟨j, h1, _, h3⟩ :=
    (GetLatestJob_spec plainLib demoState "Copy").2.2 1 (by decide) (by decide)
  exact ⟨j, h1, (h3 (by decide)).1⟩

/-! ## The registry: registering -/

theorem modifyJobCount_jobQueue (s : State) (c : String) (inc : Bool) :
    (modifyJobCount s c inc).2.jobQueue = s.jobQueue := by
  unfold modifyJobCount
  split <;> rfl

theorem AddJobToQueue_jobQueue (s : State) (j : Job) (nm : Bool) :
    (AddJobToQueue s j nm).jobQueue =
      s.jobQueue.store j.Type_
        (GoMap.store (match s.jobQueue.load j.Type_ with
          | some m => m
          | none => []) j.ID j) := by
  unfold AddJobToQueue
  cases nm <;> simp [modifyJobCount_jobQueue]

theorem lookupJob_AddJobToQueue_self (s : State) (j : Job) (nm : Bool) :
    lookupJob (AddJobToQueue s j nm) j.Type_ j.ID = some j := by
  simp [lookupJob, AddJobToQueue_jobQueue, GoMap.load_store_self]

theorem lookupJob_AddJobToQueue_other (s : State) (j : Job) (nm : Bool) (c : String)
    (k : Int) (h : ¬ (c = j.Type_ ∧ k = j.ID)) :
    lookupJob (AddJobToQueue s j nm) c k = lookupJob s c k := by
  unfold lookupJob
  rw [AddJobToQueue_jobQueue]
  by_cases hc : c = j.Type_
  · subst hc
    have hk : k ≠ j.ID := fun h0 => h ⟨rfl, h0⟩
    rw [GoMap.load_store_self]
    simp only [GoMap.load_store_ne _ _ hk]
    cases s.jobQueue.load j.Type_ <;> rfl
  · rw [GoMap.load_store_ne _ _ hc]

theorem mem_bucketIds_AddJobToQueue (s : State) (j : Job) (nm : Bool) (x : Int) :
    x ∈ bucketIds (AddJobToQueue s j nm) j.Type_ ↔ x = j.ID ∨ x ∈ bucketIds s j.Type_ := by
  unfold bucketIds
  rw [AddJobToQueue_jobQueue, GoMap.load_store_self]
  simp only [GoMap.mem_keys_store]
  cases s.jobQueue.load j.Type_ <;> simp [GoMap.keys]

theorem greatest_AddJobToQueue (s : State) (j : Job) (nm : Bool) (m : Int)
    (hm : m ∈ bucketIds s j.Type_) (hmax : ∀ k ∈ bucketIds s j.Type_, k ≤ m) :
    max m j.ID ∈ bucketIds (AddJobToQueue s j nm) j.Type_ ∧
      ∀ k ∈ bucketIds (AddJobToQueue s j nm) j.Type_, k ≤ max m j.ID := by
  constructor
  · rw [mem_bucketIds_AddJobToQueue]
    rcases le_total m j.ID with h | h
    · left; exact max_eq_right h
    · right; rw [max_eq_left h]; exact hm
  · intro k hk
    rcases (mem_bucketIds_AddJobToQueue s j nm k).1 hk with h | h
    · rw [h]; exact le_max_right _ _
    · exact le_trans (hmax k h) (le_max_left _ _)

theorem greatest_AddJobToQueue_fresh (s : State) (j : Job) (nm : Bool)
    (h0 : bucketIds s j.Type_ = []) :
    j.ID ∈ bucketIds (AddJobToQueue s j nm) j.Type_ ∧
      ∀ k ∈ bucketIds (AddJobToQueue s j nm) j.Type_, k ≤ j.ID := by
  constructor
  · rw [mem_bucketIds_AddJobToQueue]; left; rfl
  · intro k hk
    rcases (mem_bucketIds_AddJobToQueue s j nm k).1 hk with h | h
    · rw [h]
    · rw [h0] at h; cases h

/-- C3. After `AddJobToQueue(j)` the registry maps `(j.Type, j.ID)` to `j` and
every other `(category, id)` to what it held before. If the bucket of `j.Type`
was empty or absent, `GetLatestJob(j.Type)` is `j` and `GetNewJobID(j.Type)` is
`j.ID + 1` (in `int64`); if its greatest id was `m`, `GetLatestJob(j.Type)` is
the job registered under `max m j.ID`, whose id is that value when jobs are
filed under their own ids, and `GetNewJobID(j.Type)` is `max m j.ID + 1` (in
`int64`). In particular, from the empty registry the next `Copy` id is 0, after
registering a `Copy` job with id 0 the latest `Copy` job has id 0, and after
also registering one with id 1 the next `Copy` id is 2. -/
theorem AddJobToQueue_spec (lib : GoLib) (s : State) (j : Job) (nm : Bool) :
    lookupJob (AddJobToQueue s j nm) j.Type_ j.ID = some j ∧
    (∀ c k, ¬ (c = j.Type_ ∧ k = j.ID) →
      lookupJob (AddJobToQueue s j nm) c k = lookupJob s c k) ∧
    (bucketIds s j.Type_ = [] →
      GetLatestJob lib (AddJobToQueue s j nm) j.Type_ = (some j, none) ∧
      GetNewJobID (AddJobToQueue s j nm) j.Type_ = addInt64 j.ID 1) ∧
    (∀ m, m ∈ bucketIds s j.Type_ → (∀ k ∈ bucketIds s j.Type_, k ≤ m) →
      (∃ j', GetLatestJob lib (AddJobToQueue s j nm) j.Type_ = (some j', none) ∧
        lookupJob (AddJobToQueue s j nm) j.Type_ (max m j.ID) = some j' ∧
        (KeyedByID s → j'.ID = max m j.ID)) ∧
      GetNewJobID (AddJobToQueue s j nm) j.Type_ = addInt64 (max m j.ID) 1) ∧
    (∀ j0 j1 : Job, j0.Type_ = "Copy" → j0.ID = 0 → j1.Type_ = "Copy" → j1.ID = 1 →
      GetNewJobID State.init "Copy" = 0 ∧
      (∃ l, GetLatestJob lib (AddJobToQueue State.init j0 nm) "Copy" = (some l, none) ∧
        l.ID = 0) ∧
      GetNewJobID (AddJobToQueue (AddJobToQueue State.init j0 nm) j1 nm) "Copy" = 2) := by
  refine ⟨lookupJob_AddJobToQueue_self s j nm, lookupJob_AddJobToQueue_other s j nm,
    ?_, ?_, ?_⟩
  · intro h0
    obtain ⟨h1, h2⟩ := greatest_AddJobToQueue_fresh s j nm h0
    obtain ⟨h3, _⟩ := GetLatestJob_of_greatest lib _ _ _ h1 h2
    exact ⟨by rw [h3, lookupJob_AddJobToQueue_self],
      GetNewJobID_of_greatest _ _ _ h1 h2⟩
  · intro m hm hmax
    obtain ⟨h1, h2⟩ := greatest_AddJobToQueue s j nm m hm hmax
    obtain ⟨h3, j', hj'⟩ := GetLatestJob_of_greatest lib _ _ _ h1 h2
    refine ⟨⟨j', by rw [h3, hj'], hj', ?_⟩, GetNewJobID_of_greatest _ _ _ h1 h2⟩
    intro hk
    by_cases hid : max m j.ID = j.ID
    · rw [hid, lookupJob_AddJobToQueue_self] at hj'
      cases hj'; exact hid.symm
    · rw [lookupJob_AddJobToQueue_other s j nm _ _ (fun h => hid h.2)] at hj'
      exact (lookupJob_keyed s hk _ _ _ hj').1
  · intro j0 j1 ht0 hi0 ht1 hi1
    have e0 : bucketIds State.init j0.Type_ = [] := rfl
    obtain ⟨a1, a2⟩ := greatest_AddJobToQueue_fresh State.init j0 nm e0
    obtain ⟨a3, _⟩ := GetLatestJob_of_greatest lib _ _ _ a1 a2
    rw [lookupJob_AddJobToQueue_self, ht0] at a3
    rw [ht0, hi0] at a1 a2
    rw [← ht1] at a1 a2
    obtain ⟨b1, b2⟩ := greatest_AddJobToQueue _ j1 nm 0 a1 a2
    have b3 := GetNewJobID_of_greatest _ _ _ b1 b2
    rw [ht1, hi1] at b3
    refine ⟨by decide, ⟨j0, a3, hi0⟩, ?_⟩
    rw [b3]; decide

/-- Registering a `Copy` job with id 5 next to `Copy` jobs 0 and 1, and the
scenario from the empty registry. -/
theorem AddJobToQueue_spec_witness :
    GetNewJobID (AddJobToQueue demoState (NewJob "Copy" "Copying" 5 none 3) true) "Copy"
        = addInt64 (max 1 5) 1 ∧
      GetNewJobID (AddJobToQueue (AddJobToQueue State.init demoJob0 true) demoJob1 true)
        "Copy" = 2 :=
  ⟨((AddJobToQueue_spec plainLib demoState (NewJob "Copy" "Copying" 5 none 3) true).2.2.2.1
      1 (by decide) (by decide)).2,
   ((AddJobToQueue_spec plainLib State.init demoJob0 true).2.2.2.2 demoJob0 demoJob1
      rfl rfl rfl rfl).2.2⟩

/-! ## The registry: removing -/

theorem offerBroadcast_jobQueue (s : State) (info : JobInfo) :
    (offerBroadcast s info).jobQueue = s.jobQueue := by
  simp only [offerBroadcast]
  split <;> rfl

theorem offerBroadcast_jobTotal (s : State) (info : JobInfo) :
    (offerBroadcast s info).jobTotal = s.jobTotal := by
  simp only [offerBroadcast]
  split <;> rfl

theorem modifyJobCount_jobTotal (s : State) (c : String) (inc : Bool) :
    (modifyJobCount s c inc).2.jobTotal =
      if isInternal c then s.jobTotal
      else if inc then addInt64 s.jobTotal 1 else subInt64 s.jobTotal 1 := by
  unfold modifyJobCount
  split <;> rfl

theorem StopJob_jobQueue_force (s : State) (j : Job) (err : String) :
    (StopJob s j err true).jobQueue = s.jobQueue.delete j.Type_ := by
  simp [StopJob, offerBroadcast_jobQueue, modifyJobCount_jobQueue]

theorem StopJob_jobQueue (s : State) (j : Job) (err : String) :
    (StopJob s j err false).jobQueue =
      match s.jobQueue.load j.Type_ with
      | some jobMap =>
        if (jobMap.delete j.ID).len = 0 then s.jobQueue.delete j.Type_
        else s.jobQueue.store j.Type_ (jobMap.delete j.ID)
      | none => s.jobQueue := by
  simp only [StopJob, offerBroadcast_jobQueue, modifyJobCount_jobQueue, SendCommand]
  cases s.jobQueue.load j.Type_ with
  | none => simp
  | some b =>
    simp only [Bool.false_eq_true, if_false]
    split <;> rfl

theorem StopJob_jobTotal (s : State) (j : Job) (err : String) (force : Bool) :
    (StopJob s j err force).jobTotal =
      if isInternal j.Type_ then s.jobTotal else subInt64 s.jobTotal 1 := by
  have h : ∀ s' : State, s'.jobTotal = s.jobTotal →
      (offerBroadcast (modifyJobCount s' j.Type_ false).2
        { ID := j.ID, Type_ := j.Type_, Description := j.Description,
          JobCount := (modifyJobCount s' j.Type_ false).1, Error := err, Finished := true,
          RefreshItems := j.RefreshItems, Group := "", Success := false }).jobTotal =
      if isInternal j.Type_ then s.jobTotal else subInt64 s.jobTotal 1 := by
    intro s' hs'
    rw [offerBroadcast_jobTotal, modifyJobCount_jobTotal, hs']
    simp
  unfold StopJob
  apply h
  cases force
  · simp only [Bool.false_eq_true, if_false, SendCommand]
    cases s.jobQueue.load j.Type_ with
    | none => rfl
    | some b => simp only []; split <;> rfl
  · rfl

theorem AddJobToQueue_jobTotal (s : State) (j : Job) (nm : Bool) :
    (AddJobToQueue s j nm).jobTotal =
      if isInternal j.Type_ then s.jobTotal else addInt64 s.jobTotal 1 := by
  unfold AddJobToQueue
  cases nm <;> simp [modifyJobCount_jobTotal]

theorem lookupJob_StopJob_self (s : State) (j : Job) (err : String) (force : Bool) :
    lookupJob (StopJob s j err force) j.Type_ j.ID = none := by
  unfold lookupJob
  cases force
  · rw [StopJob_jobQueue]
    cases hb : s.jobQueue.load j.Type_ with
    | none => simp [hb]
    | some b =>
      simp only [hb]
      by_cases hl : (b.delete j.ID).len = 0
      · simp only [hl, if_true]
        rw [GoMap.load_delete_self]
      · simp only [hl, if_false]
        rw [GoMap.load_store_self]; exact GoMap.load_delete_self b j.ID
  · rw [StopJob_jobQueue_force, GoMap.load_delete_self]

/-- C4. After `StopJob(j, err)`, forced or not, the bucket of category `j.Type`,
if the registry still has one, does not contain the id `j.ID`; looking the pair
`(j.Type, j.ID)` up finds nothing. This holds for every state and job, registered
or not. -/
theorem StopJob_removes (s : State) (j : Job) (err : String) (force : Bool) :
    (∀ b, (StopJob s j err force).jobQueue.load j.Type_ = some b → j.ID ∉ b.keys) ∧
    lookupJob (StopJob s j err force) j.Type_ j.ID = none := by
  refine ⟨?_, lookupJob_StopJob_self s j err force⟩
  intro b hb
  have h := lookupJob_StopJob_self s j err force
  unfold lookupJob at h
  rw [hb] at h
  exact (GoMap.load_eq_none_iff b j.ID).1 h

/-! ## The running-job counter -/

namespace GoMap

variable {κ ν : Type} [DecidableEq κ]

theorem delete_of_not_mem (m : GoMap κ ν) (k : κ) (h : k ∉ keys m) : delete m k = m := by
  unfold delete
  rw [List.filter_eq_self]
  intro e he
  have : e.1 ∈ keys m := List.mem_map_of_mem Prod.fst he
  simp only [decide_eq_true_eq]
  intro h0
  exact h (h0 ▸ this)

theorem load_of_mem_nodup (m : GoMap κ ν) (hn : (keys m).Nodup) (k : κ) (v : ν)
    (h : (k, v) ∈ m) : load m k = some v := by
  induction m with
  | nil => cases h
  | cons e m ih =>
    obtain ⟨k0, v0⟩ := e
    have hn' := List.nodup_cons.1 hn
    rcases List.mem_cons.1 h with h | h
    · cases h; simp [load_cons]
    · have : k0 ≠ k := by
        intro h0
        apply hn'.1
        rw [h0]
        have hmem : (k, v).1 ∈ keys m := List.mem_map_of_mem Prod.fst h
        exact hmem
      simp [load_cons, this, ih hn'.2 h]

theorem nodup_keys_delete (m : GoMap κ ν) (k : κ) (hn : (keys m).Nodup) :
    (keys (delete m k)).Nodup := by
  rw [keys_delete]; exact hn.filter _

theorem nodup_keys_store (m : GoMap κ ν) (k : κ) (v : ν) (hn : (keys m).Nodup) :
    (keys (store m k v)).Nodup := by
  have h1 : k ∉ keys (delete m k) := fun h => ((mem_keys_delete m k k).1 h).2 rfl
  have h2 := nodup_keys_delete m k hn
  simp only [store, keys, List.map_cons] at h1 h2 ⊢
  exact List.nodup_cons.2 ⟨h1, h2⟩

theorem mem_delete (m : GoMap κ ν) (k : κ) (e : κ × ν) (h : e ∈ delete m k) : e ∈ m :=
  (List.mem_filter.1 h).1

theorem length_delete (m : GoMap κ ν) (k : κ) (hn : (keys m).Nodup) (hk : k ∈ keys m) :
    (delete m k).length + 1 = m.length := by
  induction m with
  | nil => simp [keys] at hk
  | cons e m ih =>
    have hn' := List.nodup_cons.1 hn
    rw [delete_cons]
    by_cases h : e.1 = k
    · have : k ∉ keys m := by rw [← h]; exact hn'.1
      simp [h, delete_of_not_mem m k this]
    · have hk' : k ∈ keys m := by
        rcases List.mem_cons.1 hk with h0 | h0
        · exact absurd h0.symm h
        · exact h0
      simp [h, ih hn'.2 hk']

end GoMap

theorem sizeSum_delete (q : GoMap String (GoMap Int Job)) (c : String) (b : GoMap Int Job)
    (hn : q.keys.Nodup) (h : q.load c = some b) :
    sizeSum q = (if isInternal c then 0 else b.length) + sizeSum (q.delete c) := by
  induction q with
  | nil => simp [GoMap.load_nil] at h
  | cons e q ih =>
    obtain ⟨c0, b0⟩ := e
    have hn' := List.nodup_cons.1 hn
    rw [GoMap.delete_cons]
    by_cases h0 : c0 = c
    · subst h0
      simp [GoMap.load_cons] at h
      subst h
      simp [GoMap.delete_of_not_mem q c0 hn'.1, sizeSum]
    · simp [GoMap.load_cons, h0] at h
      simp [h0, sizeSum, ih hn'.2 h]
      omega

theorem sizeSum_store (q : GoMap String (GoMap Int Job)) (c : String) (b : GoMap Int Job) :
    sizeSum (q.store c b) = (if isInternal c then 0 else b.length) + sizeSum (q.delete c) :=
  rfl

theorem NodupKeys_delete (q : GoMap String (GoMap Int Job)) (c : String) (h : NodupKeys q) :
    NodupKeys (q.delete c) :=
  ⟨GoMap.nodup_keys_delete q c h.1, fun e he => h.2 e (GoMap.mem_delete q c e he)⟩

theorem NodupKeys_store (q : GoMap String (GoMap Int Job)) (c : String) (b : GoMap Int Job)
    (h : NodupKeys q) (hb : b.keys.Nodup) : NodupKeys (q.store c b) := by
  refine ⟨GoMap.nodup_keys_store q c b h.1, ?_⟩
  intro e he
  rcases List.mem_cons.1 he with h0 | h0
  · rw [h0]; exact hb
  · exact h.2 e (GoMap.mem_delete q c e h0)

theorem nonInternalCount_eq_sizeSum (s : State) (h : NodupKeys s.jobQueue) :
    nonInternalCount s = sizeSum s.jobQueue := by
  have key : ∀ l : GoMap String (GoMap Int Job), (∀ e ∈ l, e ∈ s.jobQueue) →
      ((l.keys.filter (fun c => !isInternal c)).map
        (fun c => (bucketIds s c).dedup.length)).sum = sizeSum l := by
    intro l
    induction l with
    | nil => intro _; rfl
    | cons e l ih =>
      intro hl
      obtain ⟨c, b⟩ := e
      have hmem : (c, b) ∈ s.jobQueue := hl (c, b) (List.mem_cons_self _ _)
      have hload := GoMap.load_of_mem_nodup s.jobQueue h.1 c b hmem
      have hb : (bucketIds s c).dedup.length = b.length := by
        simp only [bucketIds, hload]
        rw [(h.2 (c, b) hmem).dedup]
        simp [GoMap.keys]
      have ih' := ih (fun e he => hl e (List.mem_cons_of_mem _ he))
      cases hc : isInternal c
      · simp only [GoMap.keys] at ih' ⊢
        simp [List.filter_cons, hc, sizeSum, hb, ih']
      · simp only [GoMap.keys] at ih' ⊢
        simp [List.filter_cons, hc, sizeSum, ih']
  unfold nonInternalCount
  rw [h.1.dedup]
  exact key s.jobQueue (fun e he => he)

theorem AddJobToQueue_fresh_sizeSum (s : State) (j : Job) (nm : Bool)
    (hn : NodupKeys s.jobQueue) (hf : lookupJob s j.Type_ j.ID = none) :
    NodupKeys (AddJobToQueue s j nm).jobQueue ∧
      sizeSum (AddJobToQueue s j nm).jobQueue =
        sizeSum s.jobQueue + (if isInternal j.Type_ then 0 else 1) := by
  rw [AddJobToQueue_jobQueue]
  unfold lookupJob at hf
  cases hb : s.jobQueue.load j.Type_ with
  | none =>
    have hnot : j.Type_ ∉ GoMap.keys s.jobQueue := (GoMap.load_eq_none_iff _ _).1 hb
    refine ⟨NodupKeys_store _ _ _ hn (by simp [GoMap.store, GoMap.delete, GoMap.keys]), ?_⟩
    rw [sizeSum_store, GoMap.delete_of_not_mem _ _ hnot]
    simp only [GoMap.store, GoMap.delete, List.filter_nil, List.length_singleton]
    omega
  | some b =>
    rw [hb] at hf
    have hnot : j.ID ∉ GoMap.keys b := (GoMap.load_eq_none_iff _ _).1 hf
    have hbn : (GoMap.keys b).Nodup := hn.2 (j.Type_, b) (GoMap.mem_of_load _ _ _ hb)
    refine ⟨NodupKeys_store _ _ _ hn (GoMap.nodup_keys_store b j.ID j hbn), ?_⟩
    rw [sizeSum_store, sizeSum_delete _ _ _ hn.1 hb]
    simp only [GoMap.store, GoMap.delete_of_not_mem b j.ID hnot, List.length_cons]
    split <;> omega

theorem StopJob_sizeSum (s : State) (j : Job) (err : String)
    (hn : NodupKeys s.jobQueue) (hr : lookupJob s j.Type_ j.ID = some j) :
    NodupKeys (StopJob s j err false).jobQueue ∧
      sizeSum (StopJob s j err false).jobQueue + (if isInternal j.Type_ then 0 else 1) =
        sizeSum s.jobQueue := by
  rw [StopJob_jobQueue]
  unfold lookupJob at hr
  cases hb : s.jobQueue.load j.Type_ with
  | none => rw [hb] at hr; cases hr
  | some b =>
    rw [hb] at hr
    simp only [] at hr
    have hbn : (GoMap.keys b).Nodup := hn.2 (j.Type_, b) (GoMap.mem_of_load _ _ _ hb)
    have hk : j.ID ∈ GoMap.keys b := by
      by_contra h0
      rw [(GoMap.load_eq_none_iff b j.ID).2 h0] at hr
      cases hr
    have hlen := GoMap.length_delete b j.ID hbn hk
    simp only []
    by_cases hl : (GoMap.delete b j.ID).len = 0
    · simp only [hl, if_true]
      refine ⟨NodupKeys_delete _ _ hn, ?_⟩
      rw [sizeSum_delete _ _ _ hn.1 hb]
      unfold GoMap.len at hl
      split <;> omega
    · simp only [hl, if_false]
      refine ⟨NodupKeys_store _ _ _ hn (GoMap.nodup_keys_delete b j.ID hbn), ?_⟩
      rw [sizeSum_store, sizeSum_delete _ _ _ hn.1 hb]
      split <;> omega

theorem StopJob_force_last_sizeSum (s : State) (j : Job) (err : String)
    (hn : NodupKeys s.jobQueue) (hl : bucketIds s j.Type_ = [j.ID]) :
    NodupKeys (StopJob s j err true).jobQueue ∧
      sizeSum (StopJob s j err true).jobQueue + (if isInternal j.Type_ then 0 else 1) =
        sizeSum s.jobQueue := by
  rw [StopJob_jobQueue_force]
  refine ⟨NodupKeys_delete _ _ hn, ?_⟩
  unfold bucketIds at hl
  cases hb : s.jobQueue.load j.Type_ with
  | none => rw [hb] at hl; cases hl
  | some b =>
    rw [hb] at hl
    have hlen : b.length = 1 := by
      have := congrArg List.length hl
      simpa [GoMap.keys] using this
    rw [sizeSum_delete _ _ _ hn.1 hb, hlen]
    omega

/-- The invariant kept along `ReachableFresh`: no key is listed twice and the
counter is the `int64` image of the number of counted jobs. -/
theorem ReachableFresh_inv (s : State) (h : ReachableFresh s) :
    NodupKeys s.jobQueue ∧ s.jobTotal = wrapInt64 (sizeSum s.jobQueue) := by
  induction h with
  | init =>
    refine ⟨⟨List.nodup_nil, fun e he => by cases he⟩, ?_⟩
    decide
  | add s j nm _ hf ih =>
    obtain ⟨h1, h2⟩ := AddJobToQueue_fresh_sizeSum s j nm ih.1 hf
    refine ⟨h1, ?_⟩
    rw [AddJobToQueue_jobTotal, h2, ih.2]
    by_cases hi : isInternal j.Type_
    · simp [hi]
    · simp only [hi, Bool.false_eq_true, if_false, addInt64, wrapInt64_add_wrap]
      push_cast; rfl
  | stop s j err _ hr ih =>
    obtain ⟨h1, h2⟩ := StopJob_sizeSum s j err ih.1 hr
    refine ⟨h1, ?_⟩
    rw [StopJob_jobTotal, ih.2, ← h2]
    by_cases hi : isInternal j.Type_
    · simp [hi]
    · simp only [hi, Bool.false_eq_true, if_false, subInt64, wrapInt64_sub_wrap]
      push_cast; congr 1; omega
  | stopLast s j err _ _ hl ih =>
    obtain ⟨h1, h2⟩ := StopJob_force_last_sizeSum s j err ih.1 hl
    refine ⟨h1, ?_⟩
    rw [StopJob_jobTotal, ih.2, ← h2]
    by_cases hi : isInternal j.Type_
    · simp [hi]
    · simp only [hi, Bool.false_eq_true, if_false, subInt64, wrapInt64_sub_wrap]
      push_cast; congr 1; omega

/-- C5, as amended. In every state reached from the empty registry with counter
0 by registering jobs whose `(Type, ID)` is not registered at that moment, by
stopping registered jobs without `force`, and by stopping with `force` a
registered job that is the only one of its category, `jobTotal` is the number of
registered jobs of non-internal categories, taken as an `int64`; it is that
number itself as long as the number fits an `int64`. -/
theorem jobTotal_counts (s : State) (h : ReachableFresh s) :
    s.jobTotal = wrapInt64 (nonInternalCount s) ∧
    ((nonInternalCount s : Int) ≤ maxInt64 → s.jobTotal = nonInternalCount s) := by
  obtain ⟨h1, h2⟩ := ReachableFresh_inv s h
  rw [nonInternalCount_eq_sizeSum s h1]
  refine ⟨h2, ?_⟩
  intro hle
  rw [h2]
  apply wrapInt64_of_range _ _ hle
  unfold minInt64; omega

/-- After registering `Copy`/0, `UI:Mounts`/7 and `Copy`/1 and stopping `Copy`/0
the counter is 1, the number of registered non-internal jobs. -/
theorem jobTotal_counts_witness :
    (StopJob demoState demoJob0 "" false).jobTotal =
      nonInternalCount (StopJob demoState demoJob0 "" false) :=
  (jobTotal_counts (StopJob demoState demoJob0 "" false)
    (ReachableFresh.stop _ _ _
      (ReachableFresh.add _ _ _
        (ReachableFresh.add _ _ _
          (ReachableFresh.add _ _ _ ReachableFresh.init (by decide)) (by decide))
        (by decide))
      (by decide))).2 (by decide)

/-- C5, as stated, fails: registering the same job twice leaves one registered
job and a counter of 2. -/
theorem jobTotal_counts_fails :
    Reachable (AddJobToQueue (AddJobToQueue State.init demoJob0 true) demoJob0 true) ∧
    (AddJobToQueue (AddJobToQueue State.init demoJob0 true) demoJob0 true).jobTotal = 2 ∧
    nonInternalCount (AddJobToQueue (AddJobToQueue State.init demoJob0 true) demoJob0 true)
      = 1 :=
  ⟨Reachable.add _ _ _ (Reachable.add _ _ _ Reachable.init), by decide, by decide⟩

/-! ## Removal and the other jobs -/

/-- Without `force`, `StopJob` leaves every other `(category, id)` entry as it
was, and the bucket of `j.Type` is gone afterwards exactly when it held no id
other than `j.ID`. -/
theorem StopJob_frame (s : State) (j : Job) (err : String) :
    (∀ c k, ¬ (c = j.Type_ ∧ k = j.ID) →
      lookupJob (StopJob s j err false) c k = lookupJob s c k) ∧
    ((StopJob s j err false).jobQueue.load j.Type_ = none ↔
      ∀ k ∈ bucketIds s j.Type_, k = j.ID) := by
  rw [StopJob_jobQueue]
  unfold lookupJob bucketIds
  constructor
  · intro c k h
    rw [StopJob_jobQueue]
    cases hb : s.jobQueue.load j.Type_ with
    | none => rfl
    | some b =>
      simp only []
      by_cases hc : c = j.Type_
      · subst hc
        have hk : k ≠ j.ID := fun h0 => h ⟨rfl, h0⟩
        have hd := GoMap.load_delete_ne b hk
        by_cases hl : (GoMap.delete b j.ID).len = 0
        · simp only [hl, if_true, GoMap.load_delete_self, hb]
          have : GoMap.delete b j.ID = [] := List.length_eq_zero.1 hl
          rw [this] at hd
          rw [← hd]; rfl
        · simp only [hl, if_false, GoMap.load_store_self, hb, hd]
      · by_cases hl : (GoMap.delete b j.ID).len = 0
        · simp only [hl, if_true, GoMap.load_delete_ne _ hc]
        · simp only [hl, if_false, GoMap.load_store_ne _ _ hc]
  · cases hb : s.jobQueue.load j.Type_ with
    | none => simp [hb]
    | some b =>
      simp only []
      by_cases hl : (GoMap.delete b j.ID).len = 0
      · simp only [hl, if_true, GoMap.load_delete_self, true_iff]
        intro k hk
        by_contra hne
        have : k ∈ GoMap.keys (GoMap.delete b j.ID) :=
          (GoMap.mem_keys_delete b j.ID k).2 ⟨hk, hne⟩
        rw [List.length_eq_zero.1 hl] at this
        cases this
      · simp only [hl, if_false, GoMap.load_store_self]
        refine ⟨fun h0 => (by cases h0), fun hall => ?_⟩
        exfalso
        apply hl
        have : GoMap.keys (GoMap.delete b j.ID) = [] := by
          apply List.eq_nil_iff_forall_not_mem.2
          intro k hk
          have h2 := (GoMap.mem_keys_delete b j.ID k).1 hk
          exact h2.2 (hall k h2.1)
        unfold GoMap.len
        rw [← List.length_map, ← GoMap.keys, this]; rfl

/-- C6, evaluated where it fails. With `Copy` jobs 0 and 1 registered, stopping
job 0 with `force` also unregisters job 1 (and the one counter decrement leaves
the counter at 1 with no counted job registered); without `force` job 1 stays. -/
theorem StopJob_force_drops_bucket :
    lookupJob demoState "Copy" 0 = some demoJob0 ∧
    lookupJob demoState "Copy" 1 = some demoJob1 ∧
    lookupJob (StopJob demoState demoJob0 "" true) "Copy" 1 = none ∧
    (StopJob demoState demoJob0 "" true).jobTotal = 1 ∧
    nonInternalCount (StopJob demoState demoJob0 "" true) = 0 ∧
    lookupJob (StopJob demoState demoJob0 "" false) "Copy" 1 = some demoJob1 := by
  decide

/-! ## Internal categories -/

/-- C7. For a job of an internal category (`isInternal`, the prefix test of
`modifyJobCount`), `modifyJobCount` returns -1 and changes nothing, registering
files the job under `(Type, ID)` and stopping removes that entry, and both leave
`jobTotal` as it was. For any other category `modifyJobCount` returns the new
counter, which is the old one plus 1 on register and minus 1 on remove, in
`int64`; these are the integers `jobTotal + 1` and `jobTotal - 1` whenever they
fit an `int64`. -/
theorem modifyJobCount_spec (s : State) (j : Job) (err : String) (force nm : Bool) :
    (isInternal j.Type_ = true →
      (∀ inc, modifyJobCount s j.Type_ inc = (-1, s)) ∧
      lookupJob (AddJobToQueue s j nm) j.Type_ j.ID = some j ∧
      (AddJobToQueue s j nm).jobTotal = s.jobTotal ∧
      lookupJob (StopJob s j err force) j.Type_ j.ID = none ∧
      (StopJob s j err force).jobTotal = s.jobTotal) ∧
    (isInternal j.Type_ = false →
      (∀ inc, (modifyJobCount s j.Type_ inc).1 = (modifyJobCount s j.Type_ inc).2.jobTotal) ∧
      (AddJobToQueue s j nm).jobTotal = addInt64 s.jobTotal 1 ∧
      (StopJob s j err force).jobTotal = subInt64 s.jobTotal 1 ∧
      (minInt64 ≤ s.jobTotal → s.jobTotal < maxInt64 →
        (AddJobToQueue s j nm).jobTotal = s.jobTotal + 1) ∧
      (minInt64 < s.jobTotal → s.jobTotal ≤ maxInt64 →
        (StopJob s j err force).jobTotal = s.jobTotal - 1)) := by
  constructor
  · intro hi
    refine ⟨?_, lookupJob_AddJobToQueue_self s j nm, ?_, lookupJob_StopJob_self s j err force, ?_⟩
    · intro inc; simp [modifyJobCount, hi]
    · rw [AddJobToQueue_jobTotal]; simp [hi]
    · rw [StopJob_jobTotal]; simp [hi]
  · intro hi
    have h1 : (AddJobToQueue s j nm).jobTotal = addInt64 s.jobTotal 1 := by
      rw [AddJobToQueue_jobTotal]; simp [hi]
    have h2 : (StopJob s j err force).jobTotal = subInt64 s.jobTotal 1 := by
      rw [StopJob_jobTotal]; simp [hi]
    refine ⟨?_, h1, h2, ?_, ?_⟩
    · intro inc; simp [modifyJobCount, hi]
    · intro a b
      rw [h1]; exact addInt64_one_of_lt _ a b
    · intro a b
      rw [h2]; unfold subInt64
      apply wrapInt64_of_range
      · unfold minInt64 at *; omega
      · unfold maxInt64 at *; omega

/-- A `UI:Mounts` job leaves the counter of `demoState` at 2; a `Copy` job moves
it to 3 on register and to 1 on remove. -/
theorem modifyJobCount_spec_witness :
    (AddJobToQueue demoState (NewJob "UI:Mounts" "Mounting remote" 8 none 4) true).jobTotal
        = demoState.jobTotal ∧
      (AddJobToQueue demoState (NewJob "Copy" "Copying" 2 none 4) true).jobTotal
        = demoState.jobTotal + 1 ∧
      (StopJob demoState demoJob1 "" false).jobTotal = demoState.jobTotal - 1 :=
  ⟨((modifyJobCount_spec demoState (NewJob "UI:Mounts" "Mounting remote" 8 none 4) ""
      false true).1 (by decide)).2.2.1,
   ((modifyJobCount_spec demoState (NewJob "Copy" "Copying" 2 none 4) ""
      false true).2 (by decide)).2.2.2.1 (by decide) (by decide),
   ((modifyJobCount_spec demoState demoJob1 "" false true).2 (by decide)).2.2.2.2
      (by decide) (by decide)⟩

/-! ## The batch sequencer: traces -/

theorem SendCommandAsync_noqueue (lib : GoLib) (s : State) (jt jd : String) (cmd : Command)
    (ep : String) (resp : Except String Command) (ctx : Nat) :
    SendCommandAsync lib s jt jd cmd ep true resp ctx =
      (match dispatchResult lib resp with
        | .error e => .error e
        | .ok id => .ok (NewJob jt jd id none ctx),
       SendCommand s (cmd.store "_async" (JVal.bool true)) ep) := by
  unfold dispatchResult SendCommandAsync
  cases resp with
  | error e => rfl
  | ok obj =>
    cases h1 : GoMap.load obj "error" with
    | none =>
      cases h2 : GoMap.load obj "jobid" with
      | none => simp [h1, h2]
      | some v => cases v <;> simp [h1, h2, NewJob]
    | some v =>
      cases v with
      | str e => first | rfl | simp [h1]
      | num n =>
        cases h2 : GoMap.load obj "jobid" with
        | none => simp [h1, h2]
        | some v => cases v <;> simp [h1, h2, NewJob]
      | float f =>
        cases h2 : GoMap.load obj "jobid" with
        | none => simp [h1, h2]
        | some v => cases v <;> simp [h1, h2, NewJob]
      | bool b =>
        cases h2 : GoMap.load obj "jobid" with
        | none => simp [h1, h2]
        | some v => cases v <;> simp [h1, h2, NewJob]
      | null =>
        cases h2 : GoMap.load obj "jobid" with
        | none => simp [h1, h2]
        | some v => cases v <;> simp [h1, h2, NewJob]

theorem GetJobReply_terminal (lib : GoLib) (l : List JobInfo) (info : JobInfo)
    (err : Option String) (h : GetJobReply lib l = some (info, err)) :
    (info.Error ≠ "" ∨ info.Finished = true) ∧ (err.isSome = true ↔ info.Error ≠ "") := by
  induction l with
  | nil => simp [GetJobReply] at h
  | cons a l ih =>
    unfold GetJobReply at h
    by_cases h1 : a.Error ≠ ""
    · rw [if_pos h1] at h
      simp only [Option.some.injEq, Prod.mk.injEq] at h
      obtain ⟨rfl, rfl⟩ := h
      exact ⟨Or.inl h1, by simp [h1]⟩
    · rw [if_neg h1] at h
      by_cases h2 : a.Finished = true
      · rw [if_pos h2] at h
        simp only [Option.some.injEq, Prod.mk.injEq] at h
        obtain ⟨rfl, rfl⟩ := h
        exact ⟨Or.inr h2, by simpa using h1⟩
      · rw [if_neg h2] at h
        exact ih h

theorem offerBroadcast_trace (s : State) (info : JobInfo) :
    (offerBroadcast s info).trace = s.trace ++ [Event.offer info] := by
  simp only [offerBroadcast]
  split <;> rfl

theorem modifyJobCount_trace (s : State) (c : String) (inc : Bool) :
    (modifyJobCount s c inc).2.trace = s.trace := by
  unfold modifyJobCount
  split <;> rfl

theorem modifyJobCount_fst (s : State) (c : String) (inc : Bool) :
    (modifyJobCount s c inc).1 =
      if isInternal c then -1
      else if inc then addInt64 s.jobTotal 1 else subInt64 s.jobTotal 1 := by
  unfold modifyJobCount
  split <;> rfl

theorem StopJob_trace_force (s : State) (j : Job) (err : String) :
    (StopJob s j err true).trace = s.trace ++ [Event.offer (jobFinished s j err)] := by
  simp only [StopJob, offerBroadcast_trace, modifyJobCount_trace, if_true,
    modifyJobCount_fst, jobFinished]
  simp

theorem StopJob_trace (s : State) (j : Job) (err : String) :
    (StopJob s j err false).trace =
      s.trace ++ [Event.send "/job/stop" [("_async", JVal.bool true), ("jobid", JVal.num j.ID)],
        Event.offer (jobFinished s j err)] := by
  simp only [StopJob, offerBroadcast_trace, modifyJobCount_trace, SendCommand,
    Bool.false_eq_true, if_false, modifyJobCount_fst, jobFinished]
  cases s.jobQueue.load j.Type_ with
  | none => simp; rfl
  | some b =>
    simp only []
    split <;> (simp; rfl)

/-- The trace one iteration of the loop adds, case by case: the dispatch, then
nothing (rejected), the monitor start (never answered), the monitor start and
the reply (sub-job error), or these two and the wrap-up (success). -/
theorem batchItem_shape (lib : GoLib) (name desc dstFs dstRemote : String)
    (eps : String × String) (n : Nat) (mainJob : Job) (ctx : Nat) (run : ItemRun) (i : Nat)
    (item : ListItem) (s : State) (cmd : Command)
    (hcmd : batchCommand lib name dstFs dstRemote item = some cmd) :
    ∃ tail,
      (batchItem lib name desc dstFs dstRemote eps n mainJob ctx run i item s).1.trace =
        s.trace ++ Event.send (if item.IsDir then eps.1 else eps.2)
          (GoMap.store (GoMap.store cmd "_group" (JVal.str mainJob.Group))
            "_async" (JVal.bool true)) :: tail ∧
      ((∃ e, dispatchResult lib run.response = .error e ∧ tail = [] ∧
          (batchItem lib name desc dstFs dstRemote eps n mainJob ctx run i item s).2 =
            some (LoopExit.done e)) ∨
       (∃ id, dispatchResult lib run.response = .ok id ∧
          GetJobReply lib run.updates = none ∧
          tail = [Event.monitor
            (subJob lib name desc dstFs dstRemote n mainJob ctx i item id) true] ∧
          (batchItem lib name desc dstFs dstRemote eps n mainJob ctx run i item s).2 =
            some LoopExit.blocked) ∨
       (∃ id info err, dispatchResult lib run.response = .ok id ∧
          GetJobReply lib run.updates = some (info, err) ∧ info.Error ≠ "" ∧
          tail = [Event.monitor
              (subJob lib name desc dstFs dstRemote n mainJob ctx i item id) true,
            Event.reply (subJob lib name desc dstFs dstRemote n mainJob ctx i item id) info] ∧
          (batchItem lib name desc dstFs dstRemote eps n mainJob ctx run i item s).2 =
            some (LoopExit.done "")) ∨
       (∃ id info rest, dispatchResult lib run.response = .ok id ∧
          GetJobReply lib run.updates = some (info, none) ∧ info.Error = "" ∧
          tail = Event.monitor
              (subJob lib name desc dstFs dstRemote n mainJob ctx i item id) true ::
            Event.reply (subJob lib name desc dstFs dstRemote n mainJob ctx i item id) info ::
            rest ∧
          (∀ ev ∈ rest, Event.isWrapUp ("_" ++ name) ev = true) ∧
          (batchItem lib name desc dstFs dstRemote eps n mainJob ctx run i item s).2 =
            none)) := by
  have hc : (match run.cancelled with
      | true => s
      | false => s) = s := by cases run.cancelled <;> rfl
  unfold batchItem
  simp only [hcmd, SendCommandAsync_noqueue, hc]
  cases hd : dispatchResult lib run.response with
  | error e =>
    exact ⟨[], by simp [SendCommand], Or.inl ⟨e, rfl, rfl, by simp⟩⟩
  | ok id =>
    cases hg : GetJobReply lib run.updates with
    | none =>
      exact ⟨_, by simp [SendCommand, subJob], Or.inr (Or.inl ⟨id, rfl, rfl, rfl, by simp⟩)⟩
    | some r =>
      obtain ⟨info, err⟩ := r
      have hterm := GetJobReply_terminal lib run.updates info err hg
      by_cases he : info.Error = ""
      · have herr : err = none := by
          cases err with
          | none => rfl
          | some e => exact absurd he (hterm.2.1 rfl)
        subst herr
        have hsz : ∀ b : Bool,
            (if name = "Delete" ∨ name = "Move"
              then { item with RefreshAddItem := b } else item).Size = item.Size := by
          intro b; split <;> rfl
        by_cases h1 : name = "Copy" ∨ name = "Move"
        · by_cases h2 : item.Size = -1
          · have hsz2 : ∀ b : Bool,
                (if name = "Delete" ∨ name = "Move"
                  then { item with RefreshAddItem := b } else item).Size = -1 := by
              intro b; rw [hsz b]; exact h2
            cases hs : run.statResult with
            | error e =>
              simp [h1, he, hsz2, hs, stat, StopJob_trace, SendCommand]
              refine ⟨_, ⟨rfl, rfl⟩, ?_⟩
              simp [Event.isWrapUp, jobFinished, NewJob]
            | ok listItem =>
              simp [h1, he, hsz2, hs, stat, StopJob_trace, SendCommand]
              refine ⟨_, ⟨rfl, rfl⟩, ?_⟩
              simp [Event.isWrapUp, jobFinished, NewJob]
          · simp [h1, he, h2, hsz, StopJob_trace, SendCommand]
            refine ⟨_, ⟨rfl, rfl⟩, ?_⟩
            simp [Event.isWrapUp, jobFinished, NewJob]
        · simp [h1, he, StopJob_trace, SendCommand]
          refine ⟨_, ⟨rfl, rfl⟩, ?_⟩
          simp [Event.isWrapUp, jobFinished, NewJob]
      · have herr : err.isSome = true := hterm.2.2 he
        simp [he, herr, SendCommand]
        rfl

/-! ## The batch sequencer: requests -/

theorem operationRequests_append (eps : String × String) (a b : List Event) :
    operationRequests eps (a ++ b) = operationRequests eps a ++ operationRequests eps b := by
  simp [operationRequests, List.filterMap_append]

theorem operationRequests_wrapUp (eps : String × String) (hok : EndpointsOK eps) (c : String)
    (l : List Event) (h : ∀ ev ∈ l, Event.isWrapUp c ev = true) :
    operationRequests eps l = [] := by
  induction l with
  | nil => rfl
  | cons ev l ih =>
    have h1 := h ev (List.mem_cons_self _ _)
    have h2 := ih (fun e he => h e (List.mem_cons_of_mem _ he))
    obtain ⟨o1, o2, o3, o4⟩ := hok
    cases ev with
    | send ep cmd =>
      simp only [Event.isWrapUp, decide_eq_true_eq] at h1
      have n1 : ¬ (ep = eps.1 ∨ ep = eps.2) := by
        rintro (h0 | h0) <;> rcases h1 with h1 | h1 <;> simp_all
      simp only [operationRequests, List.filterMap_cons, n1, if_false] at h2 ⊢
      exact h2
    | offer info => simpa [operationRequests] using h2
    | monitor j b => simp [Event.isWrapUp] at h1
    | reply j info => simp [Event.isWrapUp] at h1

theorem batchCommand_isSome (lib : GoLib) (name dstFs dstRemote : String) (item : ListItem)
    (hname : name = "Copy" ∨ name = "Move" ∨ name = "Delete") :
    ∃ cmd, batchCommand lib name dstFs dstRemote item = some cmd := by
  unfold batchCommand
  rcases hname with h | h | h <;> subst h <;> cases item.IsDir <;> simp

/-- What one iteration adds to the operation requests, and how it ends. -/
theorem batchItem_requests (lib : GoLib) (name desc dstFs dstRemote : String)
    (eps : String × String) (n : Nat) (mainJob : Job) (ctx : Nat) (run : ItemRun) (i : Nat)
    (item : ListItem) (s : State)
    (hname : name = "Copy" ∨ name = "Move" ∨ name = "Delete") (hok : EndpointsOK eps) :
    operationRequests eps
        (batchItem lib name desc dstFs dstRemote eps n mainJob ctx run i item s).1.trace =
      operationRequests eps s.trace ++
        [itemRequest lib name dstFs dstRemote eps mainJob.Group item] ∧
    (run.succeeds lib →
      (batchItem lib name desc dstFs dstRemote eps n mainJob ctx run i item s).2 = none) ∧
    (∀ e, run.rejected lib e →
      (batchItem lib name desc dstFs dstRemote eps n mainJob ctx run i item s).2 =
        some (LoopExit.done e)) ∧
    (∀ e, run.subJobFails lib e →
      (batchItem lib name desc dstFs dstRemote eps n mainJob ctx run i item s).2 =
        some (LoopExit.done "")) := by
  obtain ⟨cmd, hcmd⟩ := batchCommand_isSome lib name dstFs dstRemote item hname
  obtain ⟨tail, htr, hcases⟩ :=
    batchItem_shape lib name desc dstFs dstRemote eps n mainJob ctx run i item s cmd hcmd
  have hreq : operationRequests eps
      [Event.send (if item.IsDir then eps.1 else eps.2)
        (GoMap.store (GoMap.store cmd "_group" (JVal.str mainJob.Group))
          "_async" (JVal.bool true))] =
      [itemRequest lib name dstFs dstRemote eps mainJob.Group item] := by
    cases hdir : item.IsDir <;> simp [operationRequests, itemRequest, hcmd, hdir]
  have hsplit : ∀ tl : List Event, operationRequests eps tl = [] →
      operationRequests eps (s.trace ++
        Event.send (if item.IsDir then eps.1 else eps.2)
          (GoMap.store (GoMap.store cmd "_group" (JVal.str mainJob.Group))
            "_async" (JVal.bool true)) :: tl) =
      operationRequests eps s.trace ++
        [itemRequest lib name dstFs dstRemote eps mainJob.Group item] := by
    intro tl htl
    have : ∀ (x : Event), x :: tl = [x] ++ tl := fun _ => rfl
    rw [operationRequests_append, this, operationRequests_append, hreq, htl]
    rfl
  rw [htr]
  rcases hcases with ⟨e, hd, ht, hx⟩ | ⟨id, hd, hg, ht, hx⟩ | ⟨id, info, err, hd, hg, he, ht, hx⟩ |
    ⟨id, info, rest, hd, hg, he, ht, hw, hx⟩
  · refine ⟨hsplit tail (by rw [ht]; rfl), ?_, ?_, ?_⟩
    · rintro ⟨⟨id, h1⟩, _⟩; rw [hd] at h1; cases h1
    · intro e' h1
      unfold ItemRun.rejected at h1
      rw [hd] at h1; cases h1; exact hx
    · rintro e' ⟨⟨id, h1⟩, _⟩; rw [hd] at h1; cases h1
  · refine ⟨hsplit tail (by rw [ht]; rfl), ?_, ?_, ?_⟩
    · rintro ⟨_, info, h1, _⟩; rw [hg] at h1; cases h1
    · intro e' h1
      unfold ItemRun.rejected at h1
      rw [hd] at h1; cases h1
    · rintro e' ⟨_, info, err, h1, _⟩; rw [hg] at h1; cases h1
  · refine ⟨hsplit tail (by rw [ht]; rfl), ?_, ?_, ?_⟩
    · rintro ⟨_, info', h1, h2⟩
      rw [hg] at h1; cases h1; exact absurd h2 he
    · intro e' h1
      unfold ItemRun.rejected at h1
      rw [hd] at h1; cases h1
    · intro e' _; exact hx
  · refine ⟨hsplit tail ?_, ?_, ?_, ?_⟩
    · rw [ht]
      have : operationRequests eps rest = [] :=
        operationRequests_wrapUp eps hok _ rest hw
      simpa [operationRequests] using this
    · intro _; exact hx
    · intro e' h1
      unfold ItemRun.rejected at h1
      rw [hd] at h1; cases h1
    · rintro e' ⟨_, info', err, h1, h2, h3⟩
      rw [hg] at h1; cases h1
      exact absurd he (h2 ▸ h3)

/-- The loop when items `i .. i + k - 1` succeed and item `i + k` fails: it ends
with `jobErr = e'`, the message of a rejected dispatch or the empty string after
a sub-job error, having sent the requests of the first `k + 1` items. -/
theorem batchLoop_fail (lib : GoLib) (name desc dstFs dstRemote : String)
    (eps : String × String) (n : Nat) (mainJob : Job) (ctx : Nat) (env : Nat → ItemRun)
    (hname : name = "Copy" ∨ name = "Move" ∨ name = "Delete") (hok : EndpointsOK eps)
    (e' : String) :
    ∀ (l : List ListItem) (i : Nat) (s : State) (k : Nat), k < l.length →
      (∀ m, m < k → (env (i + m)).succeeds lib) →
      ((env (i + k)).rejected lib e' ∨ (e' = "" ∧ ∃ e, (env (i + k)).subJobFails lib e)) →
      (batchLoop lib name desc dstFs dstRemote eps n mainJob ctx env i l s).2 =
          LoopExit.done e' ∧
        operationRequests eps
            (batchLoop lib name desc dstFs dstRemote eps n mainJob ctx env i l s).1.trace =
          operationRequests eps s.trace ++
            (l.take (k + 1)).map (itemRequest lib name dstFs dstRemote eps mainJob.Group) := by
  intro l
  induction l with
  | nil => intro i s k hk; cases hk
  | cons item rest ih =>
    intro i s k hk hs hf
    obtain ⟨h1, h2, h3, h4⟩ := batchItem_requests lib name desc dstFs dstRemote eps n mainJob
      (ctx + 1 + i) (env i) i item s hname hok
    simp only [batchLoop]
    generalize batchItem lib name desc dstFs dstRemote eps n mainJob (ctx + 1 + i) (env i) i
      item s = r at h1 h2 h3 h4
    obtain ⟨s1, ex⟩ := r
    simp only at h1 h2 h3 h4
    cases k with
    | zero =>
      have hex : ex = some (LoopExit.done e') := by
        rcases hf with hf | ⟨he, e, hf⟩
        · exact h3 e' hf
        · rw [he]; exact h4 e hf
      subst hex
      exact ⟨rfl, by simpa using h1⟩
    | succ k =>
      have hex : ex = none := h2 (hs 0 (Nat.succ_pos k))
      subst hex
      have hk' : k < rest.length := by simpa using hk
      have hs' : ∀ m, m < k → (env (i + 1 + m)).succeeds lib := by
        intro m hm
        have : i + 1 + m = i + (m + 1) := by omega
        rw [this]; exact hs (m + 1) (by omega)
      have hf' : (env (i + 1 + k)).rejected lib e' ∨
          (e' = "" ∧ ∃ e, (env (i + 1 + k)).subJobFails lib e) := by
        have : i + 1 + k = i + (k + 1) := by omega
        rw [this]; exact hf
      obtain ⟨a1, a2⟩ := ih (i + 1) s1 k hk' hs' hf'
      refine ⟨a1, ?_⟩
      simp only at a2 ⊢
      rw [a2, h1, List.take_succ_cons, List.map_cons, List.append_assoc]
      rfl

theorem AddJobToQueue_trace (s : State) (j : Job) :
    (AddJobToQueue s j true).trace = s.trace := by
  simp [AddJobToQueue, modifyJobCount_trace]

theorem BatchOperation_some (lib : GoLib) (s : State) (name desc dstFs dstRemote : String)
    (eps : String × String) (items : List ListItem) (ctx : Nat) (env : Nat → ItemRun) :
    BatchOperation lib s name desc dstFs dstRemote eps (some items) ctx env =
      match batchLoop lib name desc dstFs dstRemote eps items.length
          (parentJob s name desc ctx) ctx env 0 items
          (AddJobToQueue s (parentJob s name desc ctx) true) with
      | (s', LoopExit.done jobErr) => StopJob s' (parentJob s name desc ctx) jobErr true
      | (s', _) => s' := rfl

/-- The batch when items 1 .. k-1 succeed and item k fails: the requests sent and
the last event of the trace. -/
theorem BatchOperation_fail (lib : GoLib) (s : State) (name desc dstFs dstRemote : String)
    (eps : String × String) (items : List ListItem) (ctx : Nat) (env : Nat → ItemRun)
    (hname : name = "Copy" ∨ name = "Move" ∨ name = "Delete") (hok : EndpointsOK eps)
    (e' : String) (k : Nat) (hk1 : 1 ≤ k) (hk : k ≤ items.length)
    (hs : ∀ i, i + 1 < k → (env i).succeeds lib)
    (hf : (env (k - 1)).rejected lib e' ∨ (e' = "" ∧ ∃ e, (env (k - 1)).subJobFails lib e)) :
    operationRequests eps
        (BatchOperation lib s name desc dstFs dstRemote eps (some items) ctx env).trace =
      operationRequests eps s.trace ++
        (items.take k).map (itemRequest lib name dstFs dstRemote eps
          (name ++ "/" ++ toString (GetNewJobID s name))) ∧
    ∃ n', (BatchOperation lib s name desc dstFs dstRemote eps (some items) ctx env).trace.getLast?
      = some (Event.offer
          { ID := GetNewJobID s name, Type_ := name, Description := desc, JobCount := n',
            Error := e', Finished := true, RefreshItems := none, Group := "",
            Success := false }) := by
  obtain ⟨k, rfl⟩ : ∃ k', k = k' + 1 := ⟨k - 1, by omega⟩
  have hs' : ∀ m, m < k → (env (0 + m)).succeeds lib := by
    intro m hm; rw [Nat.zero_add]; exact hs m (by omega)
  have hf' : (env (0 + k)).rejected lib e' ∨
      (e' = "" ∧ ∃ e, (env (0 + k)).subJobFails lib e) := by
    rw [Nat.zero_add]; simpa using hf
  obtain ⟨a1, a2⟩ := batchLoop_fail lib name desc dstFs dstRemote eps items.length
    (parentJob s name desc ctx) ctx env hname hok e' items 0
    (AddJobToQueue s (parentJob s name desc ctx) true) k (by omega) hs' hf'
  rw [BatchOperation_some]
  generalize batchLoop lib name desc dstFs dstRemote eps items.length
    (parentJob s name desc ctx) ctx env 0 items
    (AddJobToQueue s (parentJob s name desc ctx) true) = r at a1 a2
  obtain ⟨s', ex⟩ := r
  simp only at a1 a2
  subst a1
  simp only [StopJob_trace_force]
  constructor
  · rw [operationRequests_append, a2, AddJobToQueue_trace]
    simp [operationRequests, parentJob, NewJob]
  · exact ⟨if isInternal name then -1 else subInt64 s'.jobTotal 1,
      by simp [jobFinished, parentJob, NewJob]⟩

theorem BatchKind.run_eq (kind : BatchKind) (lib : GoLib) (s : State)
    (items : Option (List ListItem)) (dstFs dstRemote : String) (ctx : Nat)
    (env : Nat → ItemRun) :
    kind.run lib s items dstFs dstRemote ctx env =
      BatchOperation lib s kind.name kind.desc
        (if kind = BatchKind.delete then "" else dstFs)
        (if kind = BatchKind.delete then "" else dstRemote) kind.endpoints items ctx env := by
  cases kind <;> rfl

theorem BatchKind.name_cases (kind : BatchKind) :
    kind.name = "Copy" ∨ kind.name = "Move" ∨ kind.name = "Delete" := by
  cases kind <;> simp [BatchKind.name]

theorem BatchKind.endpointsOK (kind : BatchKind) : EndpointsOK kind.endpoints := by
  cases kind <;> (unfold EndpointsOK BatchKind.endpoints; decide)

theorem itemRequest_delete (lib : GoLib) (dstFs dstRemote : String) (eps : String × String)
    (group : String) :
    itemRequest lib "Delete" dstFs dstRemote eps group =
      itemRequest lib "Delete" "" "" eps group := by
  funext item
  simp [itemRequest, batchCommand]

theorem itemRequest_kind (kind : BatchKind) (lib : GoLib) (dstFs dstRemote : String)
    (group : String) :
    itemRequest lib kind.name (if kind = BatchKind.delete then "" else dstFs)
        (if kind = BatchKind.delete then "" else dstRemote) kind.endpoints group =
      itemRequest lib kind.name dstFs dstRemote kind.endpoints group := by
  cases kind
  · rfl
  · rfl
  · exact (itemRequest_delete lib dstFs dstRemote _ group).symm

/-- C8. For each batch kind, an item list of length at least `k` and `k ≥ 1`: if
items 1 .. k-1 are dispatched and their sub-jobs end without error, and item `k`
fails (its dispatch is rejected or the terminal snapshot of its sub-job carries
an error), then the per-item operation requests the batch issues are exactly
those of items 1 .. k, in order; there are `k` of them. -/
theorem BatchOperation_requests_until_failure (kind : BatchKind) (lib : GoLib) (s : State)
    (items : List ListItem) (dstFs dstRemote : String) (ctx : Nat) (env : Nat → ItemRun)
    (k : Nat) (hk1 : 1 ≤ k) (hk : k ≤ items.length)
    (hs : ∀ i, i + 1 < k → (env i).succeeds lib)
    (hf : (∃ e, (env (k - 1)).rejected lib e) ∨ ∃ e, (env (k - 1)).subJobFails lib e) :
    operationRequests kind.endpoints
        (kind.run lib s (some items) dstFs dstRemote ctx env).trace =
      operationRequests kind.endpoints s.trace ++
        (items.take k).map (itemRequest lib kind.name dstFs dstRemote kind.endpoints
          (kind.name ++ "/" ++ toString (GetNewJobID s kind.name))) ∧
    (operationRequests kind.endpoints
        (kind.run lib s (some items) dstFs dstRemote ctx env).trace).length =
      (operationRequests kind.endpoints s.trace).length + k := by
  have hmain : operationRequests kind.endpoints
        (kind.run lib s (some items) dstFs dstRemote ctx env).trace =
      operationRequests kind.endpoints s.trace ++
        (items.take k).map (itemRequest lib kind.name dstFs dstRemote kind.endpoints
          (kind.name ++ "/" ++ toString (GetNewJobID s kind.name))) := by
    rw [BatchKind.run_eq, ← itemRequest_kind]
    rcases hf with ⟨e, hf⟩ | ⟨e, hf⟩
    · exact (BatchOperation_fail lib s _ _ _ _ _ items ctx env kind.name_cases
        kind.endpointsOK e k hk1 hk hs (Or.inl hf)).1
    · exact (BatchOperation_fail lib s _ _ _ _ _ items ctx env kind.name_cases
        kind.endpointsOK "" k hk1 hk hs (Or.inr ⟨rfl, e, hf⟩)).1
  refine ⟨hmain, ?_⟩
  rw [hmain, List.length_append, List.length_map, List.length_take, Nat.min_eq_left hk]

/-- Batch Delete of `a.txt`, `b.txt` where deleting `a.txt` fails remotely: one
delete request, for `a.txt`. -/
theorem BatchOperation_requests_until_failure_witness :
    operationRequests BatchKind.delete.endpoints
        (BatchKind.delete.run plainLib State.init (some [demoFile "a.txt", demoFile "b.txt"])
          "" "" 0 failingEnv).trace =
      [("/operations/deletefile",
        [("_async", JVal.bool true), ("_group", JVal.str "Delete/0"),
         ("fs", JVal.str "r:"), ("remote", JVal.str "a.txt")])] :=
  (BatchOperation_requests_until_failure BatchKind.delete plainLib State.init
    [demoFile "a.txt", demoFile "b.txt"] "" "" 0 failingEnv 1 (by decide) (by decide)
    (fun i hi => absurd hi (by omega))
    (Or.inr ⟨"object not found", ⟨7, rfl⟩, _, _, rfl, rfl, by decide⟩)).1

/-- C9, on the code. When items 1 .. k-1 succeed and item `k` fails, the last
event of the batch is the parent's final snapshot. If the dispatch of item `k`
was rejected with message `e`, its `Error` is `e`; if instead the sub-job of item
`k` ended with the error `e`, its `Error` is the empty string, not `e`. -/
theorem BatchOperation_parent_error (kind : BatchKind) (lib : GoLib) (s : State)
    (items : List ListItem) (dstFs dstRemote : String) (ctx : Nat) (env : Nat → ItemRun)
    (k : Nat) (hk1 : 1 ≤ k) (hk : k ≤ items.length)
    (hs : ∀ i, i + 1 < k → (env i).succeeds lib) :
    (∀ e, (env (k - 1)).rejected lib e →
      ∃ n', (kind.run lib s (some items) dstFs dstRemote ctx env).trace.getLast? =
        some (Event.offer
          { ID := GetNewJobID s kind.name, Type_ := kind.name, Description := kind.desc,
            JobCount := n', Error := e, Finished := true, RefreshItems := none,
            Group := "", Success := false })) ∧
    (∀ e, (env (k - 1)).subJobFails lib e →
      e ≠ "" ∧
      ∃ n', (kind.run lib s (some items) dstFs dstRemote ctx env).trace.getLast? =
        some (Event.offer
          { ID := GetNewJobID s kind.name, Type_ := kind.name, Description := kind.desc,
            JobCount := n', Error := "", Finished := true, RefreshItems := none,
            Group := "", Success := false })) := by
  rw [BatchKind.run_eq]
  constructor
  · intro e hf
    exact (BatchOperation_fail lib s _ _ _ _ _ items ctx env kind.name_cases
      kind.endpointsOK e k hk1 hk hs (Or.inl hf)).2
  · intro e hf
    refine ⟨?_, (BatchOperation_fail lib s _ _ _ _ _ items ctx env kind.name_cases
      kind.endpointsOK "" k hk1 hk hs (Or.inr ⟨rfl, e, hf⟩)).2⟩
    obtain ⟨_, _, _, _, _, h⟩ := hf
    exact h

/-- Batch Delete of `a.txt`, `b.txt` where deleting `a.txt` fails remotely with
`object not found`: the parent's final snapshot has an empty `Error`. -/
theorem BatchOperation_parent_error_witness :
    ∃ n', (BatchKind.delete.run plainLib State.init
        (some [demoFile "a.txt", demoFile "b.txt"]) "" "" 0 failingEnv).trace.getLast? =
      some (Event.offer
        { ID := 0, Type_ := "Delete", Description := "Deleting", JobCount := n',
          Error := "", Finished := true, RefreshItems := none, Group := "",
          Success := false }) :=
  ((BatchOperation_parent_error BatchKind.delete plainLib State.init
    [demoFile "a.txt", demoFile "b.txt"] "" "" 0 failingEnv 1 (by decide) (by decide)
    (fun i hi => absurd hi (by omega))).2 "object not found"
    ⟨⟨7, rfl⟩, _, _, rfl, rfl, by decide⟩).2

/-! ## The batch sequencer: one sub-job at a time -/

theorem flight_append (eps : String × String) (x y : List Event) (p : Phase) :
    flight eps p (x ++ y) = (flight eps p x).bind (fun q => flight eps q y) := by
  induction x generalizing p with
  | nil => rfl
  | cons ev x ih =>
    simp only [List.cons_append, flight]
    split
    · split
      · exact ih _
      · rfl
    · split
      · split
        · exact ih _
        · rfl
      · split
        · split
          · exact ih _
          · rfl
        · exact ih p

theorem flight_wrapUp (eps : String × String) (hok : EndpointsOK eps) (c : String)
    (l : List Event) (h : ∀ ev ∈ l, Event.isWrapUp c ev = true) (p : Phase) :
    flight eps p l = some p := by
  induction l with
  | nil => rfl
  | cons ev l ih =>
    have h1 := h ev (List.mem_cons_self _ _)
    have h2 := ih (fun e he => h e (List.mem_cons_of_mem _ he))
    obtain ⟨o1, o2, o3, o4⟩ := hok
    cases ev with
    | send ep cmd =>
      simp only [Event.isWrapUp, decide_eq_true_eq] at h1
      have n1 : ¬ (ep = eps.1 ∨ ep = eps.2) := by
        rintro (h0 | h0) <;> rcases h1 with h1 | h1 <;> simp_all
      simp [flight, Event.isRequest, Event.isStart, Event.isEnd, n1, h2]
    | offer info => simp [flight, Event.isRequest, Event.isStart, Event.isEnd, h2]
    | monitor j b => simp [Event.isWrapUp] at h1
    | reply j info => simp [Event.isWrapUp] at h1

theorem flight_cons (eps : String × String) (p p' : Phase) (e : Event) (tr : List Event)
    (h : flight eps p (e :: tr) = some p') :
    ∃ q, flight eps q tr = some p' ∧
      (if e.isRequest eps then 1 else 0) + p.unstarted =
        (if e.isStart then 1 else 0) + q.unstarted ∧
      (if e.isStart then 1 else 0) + p.inFlight = (if e.isEnd then 1 else 0) + q.inFlight ∧
      (e.isRequest eps = true → p = Phase.idle) := by
  cases e with
  | send ep cmd =>
    by_cases hr : (ep = eps.1 ∨ ep = eps.2)
    · cases p
      · simp [flight, Event.isRequest, hr] at h
        exact ⟨Phase.requested, h,
          by simp [Event.isRequest, Event.isStart, hr, Phase.unstarted],
          by simp [Event.isStart, Event.isEnd, Phase.inFlight], fun _ => rfl⟩
      · simp [flight, Event.isRequest, hr] at h
      · simp [flight, Event.isRequest, hr] at h
    · simp [flight, Event.isRequest, hr, Event.isStart, Event.isEnd] at h
      exact ⟨p, h, by simp [Event.isRequest, Event.isStart, hr],
        by simp [Event.isStart, Event.isEnd], by simp [Event.isRequest, hr]⟩
  | offer info =>
    simp [flight, Event.isRequest, Event.isStart, Event.isEnd] at h
    exact ⟨p, h, by simp [Event.isRequest, Event.isStart],
      by simp [Event.isStart, Event.isEnd], by simp [Event.isRequest]⟩
  | monitor j nostop =>
    cases p
    · simp [flight, Event.isRequest, Event.isStart] at h
    · simp [flight, Event.isRequest, Event.isStart] at h
      exact ⟨Phase.running, h, by simp [Event.isRequest, Event.isStart, Phase.unstarted],
        by simp [Event.isStart, Event.isEnd, Phase.inFlight], by simp [Event.isRequest]⟩
    · simp [flight, Event.isRequest, Event.isStart] at h
  | reply j info =>
    by_cases ht : ¬info.Error = "" ∨ info.Finished = true
    · cases p
      · simp [flight, Event.isRequest, Event.isStart, Event.isEnd, ht] at h
      · simp [flight, Event.isRequest, Event.isStart, Event.isEnd, ht] at h
      · simp [flight, Event.isRequest, Event.isStart, Event.isEnd, ht] at h
        exact ⟨Phase.idle, h, by simp [Event.isRequest, Event.isStart, Phase.unstarted],
          by simp [Event.isStart, Event.isEnd, ht, Phase.inFlight],
          by simp [Event.isRequest]⟩
    · simp [flight, Event.isRequest, Event.isStart, Event.isEnd, ht] at h
      exact ⟨p, h, by simp [Event.isRequest, Event.isStart],
        by simp [Event.isStart, Event.isEnd, ht], by simp [Event.isRequest]⟩

theorem requestsIssued_cons (eps : String × String) (e : Event) (l : List Event) :
    requestsIssued eps (e :: l) = requestsIssued eps l + (if e.isRequest eps then 1 else 0) := by
  simp [requestsIssued, List.countP_cons]

theorem subJobsStarted_cons (e : Event) (l : List Event) :
    subJobsStarted (e :: l) = subJobsStarted l + (if e.isStart then 1 else 0) := by
  simp [subJobsStarted, List.countP_cons]

theorem subJobsEnded_cons (e : Event) (l : List Event) :
    subJobsEnded (e :: l) = subJobsEnded l + (if e.isEnd then 1 else 0) := by
  simp [subJobsEnded, List.countP_cons]

/-- A trace that `flight` accepts from phase `p`. Up to any point, and counting
what phase `p` carries over, at most one request has no started sub-job and at
most one started sub-job has not ended; and when a request is issued, every
earlier request has a sub-job that was started and has ended. -/
theorem flight_sound (eps : String × String) (tr : List Event) :
    ∀ p p', flight eps p tr = some p' →
      (∀ pre ev post, tr = pre ++ ev :: post → ev.isRequest eps = true →
        requestsIssued eps pre + p.unstarted = subJobsStarted pre ∧
        subJobsStarted pre + p.inFlight = subJobsEnded pre) ∧
      (∀ pre post, tr = pre ++ post →
        subJobsStarted pre ≤ requestsIssued eps pre + p.unstarted ∧
        requestsIssued eps pre + p.unstarted ≤ subJobsStarted pre + 1 ∧
        subJobsEnded pre ≤ subJobsStarted pre + p.inFlight ∧
        subJobsStarted pre + p.inFlight ≤ subJobsEnded pre + 1) := by
  induction tr with
  | nil =>
    intro p p' _
    constructor
    · intro pre ev post h; simp at h
    · intro pre post h
      have : pre = [] := by
        cases pre with
        | nil => rfl
        | cons a l => simp at h
      subst this
      cases p <;> simp [subJobsStarted, subJobsEnded, requestsIssued, Phase.unstarted,
        Phase.inFlight]
  | cons e tr ih =>
    intro p p' h
    obtain ⟨q, h2, hc1, hc2, hfree⟩ := flight_cons eps p p' e tr h
    obtain ⟨ih1, ih2⟩ := ih q p' h2
    constructor
    · intro pre ev post hsplit hev
      cases pre with
      | nil =>
        simp only [List.nil_append, List.cons.injEq] at hsplit
        rw [← hsplit.1] at hev
        rw [hfree hev]
        simp [subJobsStarted, subJobsEnded, requestsIssued, Phase.unstarted, Phase.inFlight]
      | cons a pre =>
        simp only [List.cons_append, List.cons.injEq] at hsplit
        obtain ⟨rfl, hrest⟩ := hsplit
        have := ih1 pre ev post hrest hev
        rw [subJobsStarted_cons, subJobsEnded_cons, requestsIssued_cons]
        omega
    · intro pre post hsplit
      cases pre with
      | nil =>
        cases p <;> simp [subJobsStarted, subJobsEnded, requestsIssued, Phase.unstarted,
          Phase.inFlight]
      | cons a pre =>
        simp only [List.cons_append, List.cons.injEq] at hsplit
        obtain ⟨rfl, hrest⟩ := hsplit
        have := ih2 pre post hrest
        rw [subJobsStarted_cons, subJobsEnded_cons, requestsIssued_cons]
        omega

/-- One iteration of the loop, started idle, follows request, start, end, and is
idle again when the loop goes on. -/
theorem batchItem_flight (lib : GoLib) (name desc dstFs dstRemote : String)
    (eps : String × String) (n : Nat) (mainJob : Job) (ctx : Nat) (run : ItemRun) (i : Nat)
    (item : ListItem) (s : State)
    (hname : name = "Copy" ∨ name = "Move" ∨ name = "Delete") (hok : EndpointsOK eps) :
    ∃ blk q,
      (batchItem lib name desc dstFs dstRemote eps n mainJob ctx run i item s).1.trace =
        s.trace ++ blk ∧
      flight eps Phase.idle blk = some q ∧
      ((batchItem lib name desc dstFs dstRemote eps n mainJob ctx run i item s).2 = none →
        q = Phase.idle) := by
  obtain ⟨cmd, hcmd⟩ := batchCommand_isSome lib name dstFs dstRemote item hname
  obtain ⟨tail, htr, hcases⟩ :=
    batchItem_shape lib name desc dstFs dstRemote eps n mainJob ctx run i item s cmd hcmd
  have hreq : ∀ c : Command,
      (Event.send (if item.IsDir then eps.1 else eps.2) c).isRequest eps = true := by
    intro c; cases item.IsDir <;> simp [Event.isRequest]
  have hhead : ∀ (c : Command) (tl : List Event),
      flight eps Phase.idle (Event.send (if item.IsDir then eps.1 else eps.2) c :: tl) =
        flight eps Phase.requested tl := by
    intro c tl
    simp only [flight, hreq c, if_true]
  rcases hcases with ⟨e, _, ht, hx⟩ | ⟨id, _, _, ht, hx⟩ | ⟨id, info, err, _, _, he, ht, hx⟩ |
    ⟨id, info, rest, _, hg, he, ht, hw, _⟩
  · refine ⟨_, Phase.requested, htr, ?_, ?_⟩
    · rw [hhead, ht]; rfl
    · intro h0; rw [hx] at h0; cases h0
  · refine ⟨_, Phase.running, htr, ?_, ?_⟩
    · rw [hhead, ht]; rfl
    · intro h0; rw [hx] at h0; cases h0
  · refine ⟨_, Phase.idle, htr, ?_, fun _ => rfl⟩
    rw [hhead, ht]
    simp [flight, Event.isRequest, Event.isStart, Event.isEnd, he]
  · refine ⟨_, Phase.idle, htr, ?_, fun _ => rfl⟩
    have hfin : info.Finished = true := by
      rcases (GetJobReply_terminal lib run.updates info none hg).1 with h0 | h0
      · exact absurd he h0
      · exact h0
    have hrest := flight_wrapUp eps hok _ rest hw Phase.idle
    rw [hhead, ht]
    simp [flight, Event.isRequest, Event.isStart, Event.isEnd, hfin, hrest]

/-- The loop, for any behaviour of the environment: the requests it adds are
those of the first `m` remaining items, in order, and the trace it adds follows
request, start, end. -/
theorem batchLoop_any (lib : GoLib) (name desc dstFs dstRemote : String)
    (eps : String × String) (n : Nat) (mainJob : Job) (ctx : Nat) (env : Nat → ItemRun)
    (hname : name = "Copy" ∨ name = "Move" ∨ name = "Delete") (hok : EndpointsOK eps) :
    ∀ (l : List ListItem) (i : Nat) (s : State), ∃ blk m q,
      (batchLoop lib name desc dstFs dstRemote eps n mainJob ctx env i l s).1.trace =
        s.trace ++ blk ∧
      m ≤ l.length ∧
      operationRequests eps blk =
        (l.take m).map (itemRequest lib name dstFs dstRemote eps mainJob.Group) ∧
      flight eps Phase.idle blk = some q := by
  intro l
  induction l with
  | nil =>
    intro i s
    exact ⟨[], 0, Phase.idle, by simp [batchLoop], Nat.le_refl _, rfl, rfl⟩
  | cons item rest ih =>
    intro i s
    obtain ⟨h1, _⟩ := batchItem_requests lib name desc dstFs dstRemote eps n mainJob
      (ctx + 1 + i) (env i) i item s hname hok
    obtain ⟨blk, b1, h2, h3, h4⟩ := batchItem_flight lib name desc dstFs dstRemote eps n mainJob
      (ctx + 1 + i) (env i) i item s hname hok
    simp only [batchLoop]
    generalize batchItem lib name desc dstFs dstRemote eps n mainJob (ctx + 1 + i) (env i) i
      item s = r at h1 h2 h4
    obtain ⟨s1, ex⟩ := r
    simp only at h1 h2 h4
    have hblk : operationRequests eps blk =
        [itemRequest lib name dstFs dstRemote eps mainJob.Group item] := by
      rw [h2, operationRequests_append] at h1
      exact List.append_cancel_left h1
    cases ex with
    | some exit =>
      exact ⟨blk, 1, b1, h2, by simp, by simpa using hblk, h3⟩
    | none =>
      obtain ⟨blk2, m, b2, a1, a2, a3, a4⟩ := ih (i + 1) s1
      have hb1 : b1 = Phase.idle := h4 rfl
      subst hb1
      refine ⟨blk ++ blk2, m + 1, b2, ?_, by simpa using a2, ?_, ?_⟩
      · simp only at a1 ⊢
        rw [a1, h2, List.append_assoc]
      · rw [operationRequests_append, hblk, a3, List.take_succ_cons, List.map_cons]
        rfl
      · rw [flight_append, h3]
        exact a4

theorem flight_offer (eps : String × String) (p : Phase) (info : JobInfo) :
    flight eps p [Event.offer info] = some p := by
  simp [flight, Event.isRequest, Event.isStart, Event.isEnd]

/-- The trace a batch adds, for any behaviour of the environment. -/
theorem BatchOperation_flight (lib : GoLib) (s : State) (name desc dstFs dstRemote : String)
    (eps : String × String) (items : Option (List ListItem)) (ctx : Nat)
    (env : Nat → ItemRun)
    (hname : name = "Copy" ∨ name = "Move" ∨ name = "Delete") (hok : EndpointsOK eps) :
    ∃ blk m q,
      (BatchOperation lib s name desc dstFs dstRemote eps items ctx env).trace =
        s.trace ++ blk ∧
      m ≤ (items.getD []).length ∧
      operationRequests eps blk =
        ((items.getD []).take m).map (itemRequest lib name dstFs dstRemote eps
          (name ++ "/" ++ toString (GetNewJobID s name))) ∧
      flight eps Phase.idle blk = some q := by
  cases items with
  | none => exact ⟨[], 0, Phase.idle, by simp [BatchOperation], Nat.zero_le _, rfl, rfl⟩
  | some items =>
    obtain ⟨blk, m, q, a1, a2, a3, a4⟩ := batchLoop_any lib name desc dstFs dstRemote eps
      items.length (parentJob s name desc ctx) ctx env hname hok items 0
      (AddJobToQueue s (parentJob s name desc ctx) true)
    rw [BatchOperation_some]
    generalize batchLoop lib name desc dstFs dstRemote eps items.length
      (parentJob s name desc ctx) ctx env 0 items
      (AddJobToQueue s (parentJob s name desc ctx) true) = r at a1
    obtain ⟨s', ex⟩ := r
    simp only at a1
    rw [AddJobToQueue_trace] at a1
    have hgroup : (parentJob s name desc ctx).Group =
        name ++ "/" ++ toString (GetNewJobID s name) := rfl
    rw [hgroup] at a3
    cases ex with
    | done e =>
      refine ⟨blk ++ [Event.offer (jobFinished s' (parentJob s name desc ctx) e)], m, q, ?_,
        a2, ?_, ?_⟩
      · simp only [StopJob_trace_force, a1, List.append_assoc]
      · rw [operationRequests_append, a3]
        simp [operationRequests]
      · rw [flight_append, a4]
        exact flight_offer eps q _
    | blocked => exact ⟨blk, m, q, a1, a2, a3, a4⟩
    | nilMap => exact ⟨blk, m, q, a1, a2, a3, a4⟩

/-- C10. For every batch kind, item list and behaviour of the environment, the
per-item operation requests the batch issues are those of a prefix of the items
in the caller's order. Whenever a request is issued, every request before it has
had its sub-job started and that sub-job has delivered its terminal snapshot to
`GetJobReply`; and at every point of the trace at most one started sub-job has
not yet delivered its terminal snapshot. -/
theorem BatchOperation_sequential (kind : BatchKind) (lib : GoLib) (s : State)
    (items : Option (List ListItem)) (dstFs dstRemote : String) (ctx : Nat)
    (env : Nat → ItemRun) :
    ∃ blk, (kind.run lib s items dstFs dstRemote ctx env).trace = s.trace ++ blk ∧
      (∃ m, m ≤ (items.getD []).length ∧
        operationRequests kind.endpoints blk =
          ((items.getD []).take m).map (itemRequest lib kind.name dstFs dstRemote
            kind.endpoints (kind.name ++ "/" ++ toString (GetNewJobID s kind.name)))) ∧
      (∀ pre ev post, blk = pre ++ ev :: post → ev.isRequest kind.endpoints = true →
        requestsIssued kind.endpoints pre = subJobsStarted pre ∧
        subJobsStarted pre = subJobsEnded pre) ∧
      (∀ pre post, blk = pre ++ post →
        subJobsEnded pre ≤ subJobsStarted pre ∧
        subJobsStarted pre ≤ subJobsEnded pre + 1 ∧
        subJobsStarted pre ≤ requestsIssued kind.endpoints pre) := by
  obtain ⟨blk, m, q, a1, a2, a3, a4⟩ := BatchOperation_flight lib s kind.name kind.desc
    (if kind = BatchKind.delete then "" else dstFs)
    (if kind = BatchKind.delete then "" else dstRemote) kind.endpoints items ctx env
    kind.name_cases kind.endpointsOK
  obtain ⟨b1, b2⟩ := flight_sound kind.endpoints blk Phase.idle q a4
  rw [itemRequest_kind] at a3
  refine ⟨blk, by rw [BatchKind.run_eq, a1], ⟨m, a2, a3⟩, ?_, ?_⟩
  · intro pre ev post h1 h2
    simpa [Phase.unstarted, Phase.inFlight] using b1 pre ev post h1 h2
  · intro pre post h1
    have := b2 pre post h1
    simp only [Phase.unstarted, Phase.inFlight, Nat.add_zero] at this
    exact ⟨this.2.2.1, this.2.2.2, this.1⟩

/-! ## The batch sequencer: refresh payloads -/

/-- The trace of one iteration whose dispatch is accepted as job `id` and whose
sub-job ends with the error-free snapshot `info`, case by case: no destination
record (Delete), destination record of known size, size resolved by `stat`, and
failed `stat`. -/
theorem batchItem_success (lib : GoLib) (name desc dstFs dstRemote : String)
    (eps : String × String) (n : Nat) (mainJob : Job) (ctx : Nat) (run : ItemRun) (i : Nat)
    (item : ListItem) (s : State) (cmd : Command)
    (hcmd : batchCommand lib name dstFs dstRemote item = some cmd)
    (id : Int) (hd : dispatchResult lib run.response = .ok id)
    (info : JobInfo) (hg : GetJobReply lib run.updates = some (info, none))
    (he : info.Error = "") :
    (¬ (name = "Copy" ∨ name = "Move") →
      (batchItem lib name desc dstFs dstRemote eps n mainJob ctx run i item s).1.trace =
        s.trace ++
          [Event.send (if item.IsDir then eps.1 else eps.2)
             (GoMap.store (GoMap.store cmd "_group" (JVal.str mainJob.Group))
               "_async" (JVal.bool true)),
           Event.monitor (subJob lib name desc dstFs dstRemote n mainJob ctx i item id) true,
           Event.reply (subJob lib name desc dstFs dstRemote n mainJob ctx i item id) info,
           Event.send "/job/stop" [("_async", JVal.bool true), ("jobid", JVal.num id)],
           Event.offer (jobFinished s
             { subJob lib name desc dstFs dstRemote n mainJob ctx i item id with
               RefreshItems := some
                 (if name = "Delete" ∨ name = "Move"
                  then [{ item with RefreshAddItem := false }] else []) } "")]) ∧
    ((name = "Copy" ∨ name = "Move") → item.Size ≠ -1 →
      (batchItem lib name desc dstFs dstRemote eps n mainJob ctx run i item s).1.trace =
        s.trace ++
          [Event.send (if item.IsDir then eps.1 else eps.2)
             (GoMap.store (GoMap.store cmd "_group" (JVal.str mainJob.Group))
               "_async" (JVal.bool true)),
           Event.monitor (subJob lib name desc dstFs dstRemote n mainJob ctx i item id) true,
           Event.reply (subJob lib name desc dstFs dstRemote n mainJob ctx i item id) info,
           Event.send "/job/stop" [("_async", JVal.bool true), ("jobid", JVal.num id)],
           Event.offer (jobFinished s
             { subJob lib name desc dstFs dstRemote n mainJob ctx i item id with
               RefreshItems := some
                 ((if name = "Delete" ∨ name = "Move"
                   then [{ item with RefreshAddItem := false }] else []) ++
                  [{ item with FS := dstFs, Path := lib.Join dstRemote item.Name, RefreshAddItem := true }]) } "")]) ∧
    ((name = "Copy" ∨ name = "Move") → item.Size = -1 →
      ∀ listItem, run.statResult = .ok listItem →
      (batchItem lib name desc dstFs dstRemote eps n mainJob ctx run i item s).1.trace =
        s.trace ++
          [Event.send (if item.IsDir then eps.1 else eps.2)
             (GoMap.store (GoMap.store cmd "_group" (JVal.str mainJob.Group))
               "_async" (JVal.bool true)),
           Event.monitor (subJob lib name desc dstFs dstRemote n mainJob ctx i item id) true,
           Event.reply (subJob lib name desc dstFs dstRemote n mainJob ctx i item id) info,
           Event.send "/operations/stat"
             [("fs", JVal.str dstFs), ("remote", JVal.str (lib.Join dstRemote item.Name))],
           Event.send "/job/stop" [("_async", JVal.bool true), ("jobid", JVal.num id)],
           Event.offer (jobFinished s
             { subJob lib name desc dstFs dstRemote n mainJob ctx i item id with
               RefreshItems := some
                 ((if name = "Delete" ∨ name = "Move"
                   then [{ item with RefreshAddItem := false }] else []) ++
                  [{ item with FS := dstFs, Path := lib.Join dstRemote item.Name,
                               RefreshAddItem := true, Size := listItem.Size,
                               ISize := if listItem.Size > 0
                                 then lib.ByteSize listItem.Size else item.ISize }]) } "")]) ∧
    ((name = "Copy" ∨ name = "Move") → item.Size = -1 →
      ∀ e, run.statResult = .error e →
      (batchItem lib name desc dstFs dstRemote eps n mainJob ctx run i item s).1.trace =
        s.trace ++
          [Event.send (if item.IsDir then eps.1 else eps.2)
             (GoMap.store (GoMap.store cmd "_group" (JVal.str mainJob.Group))
               "_async" (JVal.bool true)),
           Event.monitor (subJob lib name desc dstFs dstRemote n mainJob ctx i item id) true,
           Event.reply (subJob lib name desc dstFs dstRemote n mainJob ctx i item id) info,
           Event.send "/operations/stat"
             [("fs", JVal.str dstFs), ("remote", JVal.str (lib.Join dstRemote item.Name))]]) := by
  have hc : (match run.cancelled with
      | true => s
      | false => s) = s := by cases run.cancelled <;> rfl
  have hsz : ∀ b : Bool,
      (if name = "Delete" ∨ name = "Move"
        then { item with RefreshAddItem := b } else item).Size = item.Size := by
    intro b; split <;> rfl
  have hnm : ∀ b : Bool,
      (if name = "Delete" ∨ name = "Move"
        then { item with RefreshAddItem := b } else item).Name = item.Name := by
    intro b; split <;> rfl
  unfold batchItem
  simp only [hcmd, SendCommandAsync_noqueue, hc, hd, hg]
  refine ⟨?_, ?_, ?_, ?_⟩
  · intro h1
    by_cases hdm : name = "Delete" ∨ name = "Move" <;>
      simp [h1, hdm, he, StopJob_trace, SendCommand, subJob, jobFinished, NewJob]
  · intro h1 h2
    by_cases hdm : name = "Delete" ∨ name = "Move" <;>
      simp [h1, hdm, he, h2, StopJob_trace, SendCommand, subJob, jobFinished, NewJob]
  · intro h1 h2 listItem hs
    have hsz2 : ∀ b : Bool,
        (if name = "Delete" ∨ name = "Move"
          then { item with RefreshAddItem := b } else item).Size = -1 := by
      intro b; rw [hsz b]; exact h2
    by_cases hdm : name = "Delete" ∨ name = "Move" <;>
      by_cases hpos : listItem.Size > 0 <;>
      simp [h1, hdm, he, h2, hs, hpos, stat, StopJob_trace, SendCommand, subJob, jobFinished,
        NewJob]
  · intro h1 h2 e hs
    by_cases hdm : name = "Delete" ∨ name = "Move" <;>
      simp [h1, hdm, he, h2, hs, stat, StopJob_trace, SendCommand, subJob, jobFinished, NewJob]

/-- When the items before item `k` succeed, the loop runs the body on item `k`, and
what the body adds stays in the trace. -/
theorem batchLoop_reaches (lib : GoLib) (name desc dstFs dstRemote : String)
    (eps : String × String) (n : Nat) (mainJob : Job) (ctx : Nat) (env : Nat → ItemRun)
    (hname : name = "Copy" ∨ name = "Move" ∨ name = "Delete") (hok : EndpointsOK eps) :
    ∀ (l : List ListItem) (i : Nat) (s : State) (k : Nat) (item : ListItem),
      l[k]? = some item → (∀ m, m < k → (env (i + m)).succeeds lib) →
      ∃ sk post,
        (batchLoop lib name desc dstFs dstRemote eps n mainJob ctx env i l s).1.trace =
          (batchItem lib name desc dstFs dstRemote eps n mainJob (ctx + 1 + (i + k))
            (env (i + k)) (i + k) item sk).1.trace ++ post := by
  intro l
  induction l with
  | nil => intro i s k item h; simp at h
  | cons x rest ih =>
    intro i s k item hitem hs
    obtain ⟨_, h2, _, _⟩ := batchItem_requests lib name desc dstFs dstRemote eps n mainJob
      (ctx + 1 + i) (env i) i x s hname hok
    cases k with
    | zero =>
      simp only [List.getElem?_cons_zero, Option.some.injEq] at hitem
      subst hitem
      refine ⟨s, ?_⟩
      simp only [batchLoop, Nat.add_zero]
      generalize batchItem lib name desc dstFs dstRemote eps n mainJob (ctx + 1 + i) (env i) i
        x s = r
      obtain ⟨s1, ex⟩ := r
      cases ex with
      | some exit => exact ⟨[], by simp⟩
      | none =>
        obtain ⟨blk, _, _, a1, _⟩ := batchLoop_any lib name desc dstFs dstRemote eps n mainJob
          ctx env hname hok rest (i + 1) s1
        exact ⟨blk, a1⟩
    | succ k =>
      have hex := h2 (by simpa using hs 0 (Nat.succ_pos k))
      simp only [List.getElem?_cons_succ] at hitem
      have hs' : ∀ m, m < k → (env (i + 1 + m)).succeeds lib := by
        intro m hm
        have : i + 1 + m = i + (m + 1) := by omega
        rw [this]; exact hs (m + 1) (by omega)
      simp only [batchLoop]
      generalize batchItem lib name desc dstFs dstRemote eps n mainJob (ctx + 1 + i) (env i) i
        x s = r at hex
      obtain ⟨s1, ex⟩ := r
      simp only at hex
      subst hex
      obtain ⟨sk, post, a⟩ := ih (i + 1) s1 k item hitem hs'
      have e1 : i + 1 + k = i + (k + 1) := by omega
      rw [e1] at a
      exact ⟨sk, post, a⟩

theorem BatchOperation_reaches (lib : GoLib) (s : State) (name desc dstFs dstRemote : String)
    (eps : String × String) (items : List ListItem) (ctx : Nat) (env : Nat → ItemRun)
    (hname : name = "Copy" ∨ name = "Move" ∨ name = "Delete") (hok : EndpointsOK eps)
    (k : Nat) (item : ListItem) (hitem : items[k]? = some item)
    (hs : ∀ m, m < k → (env m).succeeds lib) :
    ∃ sk post,
      (BatchOperation lib s name desc dstFs dstRemote eps (some items) ctx env).trace =
        (batchItem lib name desc dstFs dstRemote eps items.length (parentJob s name desc ctx)
          (ctx + 1 + k) (env k) k item sk).1.trace ++ post := by
  have hs' : ∀ m, m < k → (env (0 + m)).succeeds lib := by
    intro m hm; rw [Nat.zero_add]; exact hs m hm
  obtain ⟨sk, post, a⟩ := batchLoop_reaches lib name desc dstFs dstRemote eps items.length
    (parentJob s name desc ctx) ctx env hname hok items 0
    (AddJobToQueue s (parentJob s name desc ctx) true) k item hitem hs'
  rw [Nat.zero_add] at a
  rw [BatchOperation_some]
  generalize batchLoop lib name desc dstFs dstRemote eps items.length
    (parentJob s name desc ctx) ctx env 0 items
    (AddJobToQueue s (parentJob s name desc ctx) true) = r at a
  obtain ⟨s', ex⟩ := r
  simp only at a
  cases ex with
  | done e =>
    refine ⟨sk, post ++ [Event.offer (jobFinished s' (parentJob s name desc ctx) e)], ?_⟩
    simp only [StopJob_trace_force, a, List.append_assoc]
  | blocked => exact ⟨sk, post, a⟩
  | nilMap => exact ⟨sk, post, a⟩

/-- C11. In a batch whose items before item `k` succeed, if item `k` is
dispatched, its sub-job ends without error and its size is known, then the final
snapshot of that sub-job (category `_` + kind, the id the daemon gave) is offered
with the refresh payload attached to the sub-job: for Delete the item with
`RefreshAddItem = false`; for Copy the item with `FS = dstFs`,
`Path = Join(dstRemote, Name)` and `RefreshAddItem = true`; for Move these two
records, the removal record first and with the item's own `FS` and `Path`. -/
theorem BatchOperation_refresh_payload (kind : BatchKind) (lib : GoLib) (s : State)
    (items : List ListItem) (dstFs dstRemote : String) (ctx : Nat) (env : Nat → ItemRun)
    (k : Nat) (item : ListItem) (hitem : items[k]? = some item)
    (hprev : ∀ m, m < k → (env m).succeeds lib) (hk : (env k).succeeds lib)
    (hsize : item.Size ≠ -1) :
    ∃ id snap, dispatchResult lib (env k).response = .ok id ∧
      Event.offer snap ∈ (kind.run lib s (some items) dstFs dstRemote ctx env).trace ∧
      snap.ID = id ∧ snap.Type_ = "_" ++ kind.name ∧ snap.Finished = true ∧
      snap.Error = "" ∧
      snap.RefreshItems = some
        (match kind with
         | .delete => [{ item with RefreshAddItem := false }]
         | .copy => [{ item with FS := dstFs, Path := lib.Join dstRemote item.Name, RefreshAddItem := true }]
         | .move => [{ item with RefreshAddItem := false },
                     { item with FS := dstFs, Path := lib.Join dstRemote item.Name, RefreshAddItem := true }]) := by
  obtain ⟨⟨id, hd⟩, info, hg, he⟩ := hk
  rw [BatchKind.run_eq]
  obtain ⟨sk, post, hreach⟩ := BatchOperation_reaches lib s kind.name kind.desc
    (if kind = BatchKind.delete then "" else dstFs)
    (if kind = BatchKind.delete then "" else dstRemote) kind.endpoints items ctx env
    kind.name_cases kind.endpointsOK k item hitem hprev
  obtain ⟨cmd, hcmd⟩ := batchCommand_isSome lib kind.name
    (if kind = BatchKind.delete then "" else dstFs)
    (if kind = BatchKind.delete then "" else dstRemote) item kind.name_cases
  obtain ⟨b1, b2, _, _⟩ := batchItem_success lib kind.name kind.desc
    (if kind = BatchKind.delete then "" else dstFs)
    (if kind = BatchKind.delete then "" else dstRemote) kind.endpoints items.length
    (parentJob s kind.name kind.desc ctx) (ctx + 1 + k) (env k) k item sk cmd hcmd id hd
    info hg he
  refine ⟨id, ?_⟩
  cases kind with
  | copy =>
    have h := b2 (Or.inl rfl) hsize
    rw [hreach, h]
    exact ⟨_, hd, List.mem_append_left _ (List.mem_append_right _
      (List.mem_cons_of_mem _ (List.mem_cons_of_mem _ (List.mem_cons_of_mem _
        (List.mem_cons_of_mem _ (List.mem_cons_self _ _)))))),
      by simp [jobFinished, subJob, NewJob, BatchKind.name]⟩
  | move =>
    have h := b2 (Or.inr rfl) hsize
    rw [hreach, h]
    exact ⟨_, hd, List.mem_append_left _ (List.mem_append_right _
      (List.mem_cons_of_mem _ (List.mem_cons_of_mem _ (List.mem_cons_of_mem _
        (List.mem_cons_of_mem _ (List.mem_cons_self _ _)))))),
      by simp [jobFinished, subJob, NewJob, BatchKind.name]⟩
  | delete =>
    have h := b1 (by simp [BatchKind.name])
    rw [hreach, h]
    exact ⟨_, hd, List.mem_append_left _ (List.mem_append_right _
      (List.mem_cons_of_mem _ (List.mem_cons_of_mem _ (List.mem_cons_of_mem _
        (List.mem_cons_of_mem _ (List.mem_cons_self _ _)))))),
      by simp [jobFinished, subJob, NewJob, BatchKind.name]⟩

/-- Move of `a.txt` to `d:x`, the sub-job succeeding: the payload is the removal
of `r:a.txt` followed by the insertion of `d:x/a.txt`. -/
theorem BatchOperation_refresh_payload_witness :
    ∃ id snap, dispatchResult plainLib (succeedingEnv 5 0).response = .ok id ∧
      Event.offer snap ∈ (BatchKind.move.run plainLib State.init (some [demoFile "a.txt"])
        "d:" "x" 0 (succeedingEnv 5)).trace ∧
      snap.ID = id ∧ snap.Type_ = "_" ++ BatchKind.move.name ∧ snap.Finished = true ∧
      snap.Error = "" ∧
      snap.RefreshItems = some
        [{ demoFile "a.txt" with RefreshAddItem := false },
         { demoFile "a.txt" with FS := "d:", Path := plainLib.Join "x" (demoFile "a.txt").Name, RefreshAddItem := true }] :=
  BatchOperation_refresh_payload BatchKind.move plainLib State.init [demoFile "a.txt"]
    "d:" "x" 0 (succeedingEnv 5) 0 (demoFile "a.txt") rfl (fun m hm => absurd hm (by omega))
    ⟨⟨7, rfl⟩, doneSnapshot, rfl, rfl⟩ (by decide)

/-- C12, as amended. In a Copy batch whose items before item `k` succeed, if
item `k` is dispatched and its sub-job ends without error: when its `Size` is
-1, the stat request for `(dstFs, Join(dstRemote, Name))` is issued right after
the sub-job's reply and, if `stat` returns an item, the sub-job's final snapshot
follows with the insert record carrying the returned size; when its `Size` is
not -1, the `/job/stop` request and the final snapshot follow the reply
directly, without a stat request, and the insert record keeps the item's
size. -/
theorem Copy_stat_size (lib : GoLib) (s : State) (items : List ListItem)
    (dstFs dstRemote : String) (ctx : Nat) (env : Nat → ItemRun) (k : Nat) (item : ListItem)
    (hitem : items[k]? = some item) (hprev : ∀ m, m < k → (env m).succeeds lib)
    (hk : (env k).succeeds lib) :
    (item.Size = -1 →
      (∃ pre post sj info,
        (Copy lib s (some items) dstFs dstRemote ctx env).trace =
          pre ++
            [Event.send
               (itemRequest lib "Copy" dstFs dstRemote ("/sync/copy", "/operations/copyfile")
                 ("Copy/" ++ toString (GetNewJobID s "Copy")) item).1
               (itemRequest lib "Copy" dstFs dstRemote ("/sync/copy", "/operations/copyfile")
                 ("Copy/" ++ toString (GetNewJobID s "Copy")) item).2,
             Event.monitor sj true, Event.reply sj info,
             Event.send "/operations/stat"
               [("fs", JVal.str dstFs), ("remote", JVal.str (lib.Join dstRemote item.Name))]]
            ++ post) ∧
      ∀ listItem, (env k).statResult = .ok listItem →
        ∃ pre post sj info snap,
          (Copy lib s (some items) dstFs dstRemote ctx env).trace =
            pre ++
              [Event.send
                 (itemRequest lib "Copy" dstFs dstRemote
                   ("/sync/copy", "/operations/copyfile")
                   ("Copy/" ++ toString (GetNewJobID s "Copy")) item).1
                 (itemRequest lib "Copy" dstFs dstRemote
                   ("/sync/copy", "/operations/copyfile")
                   ("Copy/" ++ toString (GetNewJobID s "Copy")) item).2,
               Event.monitor sj true, Event.reply sj info,
               Event.send "/operations/stat"
                 [("fs", JVal.str dstFs),
                  ("remote", JVal.str (lib.Join dstRemote item.Name))],
               Event.send "/job/stop"
                 [("_async", JVal.bool true), ("jobid", JVal.num sj.ID)],
               Event.offer snap]
              ++ post ∧
          snap.Type_ = "_Copy" ∧ snap.ID = sj.ID ∧
          snap.RefreshItems = some
            [{ item with FS := dstFs, Path := lib.Join dstRemote item.Name,
                         RefreshAddItem := true, Size := listItem.Size,
                         ISize := if listItem.Size > 0
                           then lib.ByteSize listItem.Size else item.ISize }]) ∧
    (item.Size ≠ -1 →
      ∃ pre post sj info snap,
        (Copy lib s (some items) dstFs dstRemote ctx env).trace =
          pre ++
            [Event.send
               (itemRequest lib "Copy" dstFs dstRemote ("/sync/copy", "/operations/copyfile")
                 ("Copy/" ++ toString (GetNewJobID s "Copy")) item).1
               (itemRequest lib "Copy" dstFs dstRemote ("/sync/copy", "/operations/copyfile")
                 ("Copy/" ++ toString (GetNewJobID s "Copy")) item).2,
             Event.monitor sj true, Event.reply sj info,
             Event.send "/job/stop" [("_async", JVal.bool true), ("jobid", JVal.num sj.ID)],
             Event.offer snap]
            ++ post ∧
        snap.Type_ = "_Copy" ∧ snap.ID = sj.ID ∧
        snap.RefreshItems = some
          [{ item with FS := dstFs, Path := lib.Join dstRemote item.Name, RefreshAddItem := true }]) := by
  obtain ⟨⟨id, hd⟩, info, hg, he⟩ := hk
  have hok : EndpointsOK ("/sync/copy", "/operations/copyfile") := BatchKind.copy.endpointsOK
  obtain ⟨sk, post, hreach⟩ := BatchOperation_reaches lib s "Copy" "Copying" dstFs dstRemote
    ("/sync/copy", "/operations/copyfile") items ctx env (Or.inl rfl) hok k item hitem hprev
  obtain ⟨cmd, hcmd⟩ := batchCommand_isSome lib "Copy" dstFs dstRemote item (Or.inl rfl)
  obtain ⟨_, b2, b3, b4⟩ := batchItem_success lib "Copy" "Copying" dstFs dstRemote
    ("/sync/copy", "/operations/copyfile") items.length (parentJob s "Copy" "Copying" ctx)
    (ctx + 1 + k) (env k) k item sk cmd hcmd id hd info hg he
  have hreq : itemRequest lib "Copy" dstFs dstRemote ("/sync/copy", "/operations/copyfile")
      ("Copy/" ++ toString (GetNewJobID s "Copy")) item =
      (if item.IsDir then "/sync/copy" else "/operations/copyfile",
       GoMap.store (GoMap.store cmd "_group"
         (JVal.str (parentJob s "Copy" "Copying" ctx).Group)) "_async" (JVal.bool true)) := by
    simp [itemRequest, hcmd, parentJob, NewJob]
  unfold Copy
  rw [hreach, hreq]
  refine ⟨fun hsize => ⟨?_, ?_⟩, fun hsize => ?_⟩
  · cases hst : (env k).statResult with
    | error e =>
      rw [b4 (Or.inl rfl) hsize e hst]
      exact ⟨sk.trace, post, _, info, rfl⟩
    | ok listItem =>
      have hsplit : ∀ (p : List Event) (a b c d x y : Event) (q : List Event),
          p ++ [a, b, c, d, x, y] ++ q = p ++ [a, b, c, d] ++ (x :: y :: q) := by
        intros; simp
      rw [b3 (Or.inl rfl) hsize listItem hst, hsplit]
      exact ⟨sk.trace, _, _, info, rfl⟩
  · intro listItem hst
    rw [b3 (Or.inl rfl) hsize listItem hst]
    exact ⟨sk.trace, post, _, info, _, rfl, by simp [jobFinished, subJob, NewJob]⟩
  · rw [b2 (Or.inl rfl) hsize]
    exact ⟨sk.trace, post, _, info, _, rfl, by simp [jobFinished, subJob, NewJob]⟩

/-- Copy of the directory `docs` of unknown size to `d:x`, `stat` reporting 4096:
the insert record offered carries the size 4096. -/
theorem Copy_stat_size_witness :
    ∃ snap, Event.offer snap ∈
        (Copy plainLib State.init (some [demoDir "docs"]) "d:" "x" 0 (succeedingEnv 4096)).trace ∧
      snap.RefreshItems = some
        [{ demoDir "docs" with FS := "d:", Path := "x/docs", RefreshAddItem := true,
                               Size := 4096, ISize := "4096B" }] := by
  obtain ⟨pre, post, sj, info, snap, htr, _, _, hp⟩ :=
    ((Copy_stat_size plainLib State.init [demoDir "docs"] "d:" "x" 0 (succeedingEnv 4096) 0
      (demoDir "docs") rfl (fun m hm => absurd hm (by omega))
      ⟨⟨7, rfl⟩, doneSnapshot, rfl, rfl⟩).1 rfl).2 { demoDir "" with Size := 4096 } rfl
  refine ⟨snap, ?_, ?_⟩
  · rw [htr]; simp
  · rw [hp]; decide

/-- C12, as stated, fails: Copy of the directory `docs` of unknown size whose
sub-job succeeds and whose `stat` call fails. The stat request is issued, and no
snapshot offered carries a refresh payload: no insert record is attached. -/
theorem Copy_stat_failure_no_record :
    (demoDir "docs").Size = -1 ∧ (statFailEnv 0).succeeds plainLib ∧
    Event.send "/operations/stat" [("fs", JVal.str "d:"), ("remote", JVal.str "x/docs")] ∈
      (Copy plainLib State.init (some [demoDir "docs"]) "d:" "x" 0 statFailEnv).trace ∧
    refreshPayloads
      (Copy plainLib State.init (some [demoDir "docs"]) "d:" "x" 0 statFailEnv).trace = [] :=
  ⟨by decide, ⟨⟨7, rfl⟩, doneSnapshot, rfl, rfl⟩, by decide, by decide⟩

/-! ## The pane listing -/

theorem scanItems_no_match (item : ListItem) (l : List ListItem)
    (h : ∀ y ∈ l, matchesRecord item y = false) : scanItems item l = (l, false) := by
  induction l with
  | nil => rfl
  | cons x l ih =>
    have hx := h x (List.mem_cons_self _ _)
    have ih' := ih (fun y hy => h y (List.mem_cons_of_mem _ hy))
    simp [scanItems, hx, ih']

theorem scanItems_first_match (item : ListItem) (pre : List ListItem) (x : ListItem)
    (post : List ListItem) (hpre : ∀ y ∈ pre, matchesRecord item y = false)
    (hx : matchesRecord item x = true) :
    scanItems item (pre ++ x :: post) =
      if item.RefreshAddItem
      then (pre ++ { x with Size := item.Size, ISize := item.ISize } :: post, true)
      else (pre ++ post, false) := by
  induction pre with
  | nil => simp [scanItems, hx]
  | cons a pre ih =>
    have ha := hpre a (List.mem_cons_self _ _)
    have ih' := ih (fun y hy => hpre y (List.mem_cons_of_mem _ hy))
    have hstep : scanItems item (a :: (pre ++ x :: post)) =
        (a :: (scanItems item (pre ++ x :: post)).1, (scanItems item (pre ++ x :: post)).2) := by
      simp [scanItems, ha]
    rw [List.cons_append, hstep, ih']
    split <;> rfl

theorem exists_first_match (item : ListItem) (l : List ListItem)
    (h : ∃ y ∈ l, matchesRecord item y = true) :
    ∃ pre x post, l = pre ++ x :: post ∧ (∀ y ∈ pre, matchesRecord item y = false) ∧
      matchesRecord item x = true := by
  induction l with
  | nil => obtain ⟨y, hy, _⟩ := h; cases hy
  | cons a l ih =>
    by_cases ha : matchesRecord item a = true
    · exact ⟨[], a, l, rfl, (fun y hy => absurd hy (List.not_mem_nil y)), ha⟩
    · have hl : ∃ y ∈ l, matchesRecord item y = true := by
        obtain ⟨y, hy, hm⟩ := h
        rcases List.mem_cons.1 hy with h0 | h0
        · rw [h0] at hm; exact absurd hm ha
        · exact ⟨y, h0, hm⟩
      obtain ⟨pre, x, post, h1, h2, h3⟩ := ih hl
      refine ⟨a :: pre, x, post, by rw [h1]; rfl, ?_, h3⟩
      intro y hy
      rcases List.mem_cons.1 hy with h0 | h0
      · rw [h0]; simpa using ha
      · exact h2 y h0

theorem matchesRecord_iff (item y : ListItem) :
    matchesRecord item y = true ↔ (y.ID = item.ID ∨ y.Name = item.Name) := by
  simp [matchesRecord]

theorem matchesRecord_false_iff (item y : ListItem) :
    matchesRecord item y = false ↔ ¬ (y.ID = item.ID ∨ y.Name = item.Name) := by
  simp [matchesRecord]

theorem watchRecord_skip (lib : GoLib) (p : Pane) (item : ListItem)
    (h : p.FS ++ p.Path ≠ item.FS ++ recordDir lib item) : watchRecord lib p item = p := by
  unfold recordDir at h
  simp [watchRecord, h]

theorem watchRecord_apply (lib : GoLib) (p : Pane) (item : ListItem)
    (h : p.FS ++ p.Path = item.FS ++ recordDir lib item) :
    watchRecord lib p item =
      if (!(scanItems item p.items).2 && item.RefreshAddItem) = true
      then { p with items := sortList ((scanItems item p.items).1 ++ [item]) p.sortAsc p.sortMode }
      else { p with items := (scanItems item p.items).1 } := by
  unfold recordDir at h
  simp [watchRecord, h]

theorem lessItem_eq (asc : Bool) (mode : String) (x y : ListItem) :
    lessItem asc mode x y =
      if x.IsDir ≠ y.IsDir then x.IsDir
      else if mode = "size" then
        (if asc then decide (x.Size < y.Size) else decide (y.Size < x.Size))
      else if mode = "modified" then
        (if asc then decide (x.ModifiedTimeUnix < y.ModifiedTimeUnix)
         else decide (y.ModifiedTimeUnix < x.ModifiedTimeUnix))
      else (if asc then decide (x.Name < y.Name) else decide (y.Name < x.Name)) := by
  unfold lessItem
  cases asc <;> rfl

theorem lessItem_total (asc : Bool) (mode : String) (x y : ListItem) :
    lessItem asc mode y x = false ∨ lessItem asc mode x y = false := by
  rw [lessItem_eq, lessItem_eq]
  cases hx : x.IsDir <;> cases hy : y.IsDir <;>
    simp only [ne_eq, not_true_eq_false, not_false_eq_true, if_false, if_true,
      Bool.false_eq_true, reduceCtorEq, or_true, true_or, or_false, false_or] <;>
    split_ifs <;>
    simp only [decide_eq_false_iff_not, not_lt] <;>
    exact le_total _ _

theorem lessItem_trans (asc : Bool) (mode : String) (x y z : ListItem)
    (h1 : lessItem asc mode y x = false) (h2 : lessItem asc mode z y = false) :
    lessItem asc mode z x = false := by
  rw [lessItem_eq] at h1 h2 ⊢
  cases hx : x.IsDir <;> cases hy : y.IsDir <;> cases hz : z.IsDir <;>
    simp only [hx, hy, hz, ne_eq, not_true_eq_false, not_false_eq_true, if_false, if_true,
      Bool.false_eq_true, reduceCtorEq] at h1 h2 ⊢ <;>
    split_ifs at h1 h2 ⊢ <;>
    simp only [decide_eq_false_iff_not, not_lt] at h1 h2 ⊢ <;>
    first
      | exact le_trans h1 h2
      | exact le_trans h2 h1

theorem sortList_perm (l : List ListItem) (asc : Bool) (mode : String) :
    (sortList l asc mode).Perm l :=
  List.perm_insertionSort _ l

theorem sortList_sorted (l : List ListItem) (asc : Bool) (mode : String) :
    (sortList l asc mode).Pairwise (sortedBefore asc mode) := by
  haveI : IsTotal ListItem (fun x y => lessItem asc mode y x = false) :=
    ⟨fun x y => lessItem_total asc mode x y⟩
  haveI : IsTrans ListItem (fun x y => lessItem asc mode y x = false) :=
    ⟨fun x y z h1 h2 => lessItem_trans asc mode x y z h1 h2⟩
  exact List.sorted_insertionSort (fun x y => lessItem asc mode y x = false) l

theorem colon_split (n1 : List Char) :
    ∀ (n2 x y : List Char), ':' ∉ n1 → ':' ∉ n2 → n1 ++ ':' :: x = n2 ++ ':' :: y →
      n1 = n2 ∧ x = y := by
  induction n1 with
  | nil =>
    intro n2 x y _ h2 h
    cases n2 with
    | nil => simpa using h
    | cons c r =>
      simp only [List.nil_append, List.cons_append, List.cons.injEq] at h
      exact absurd (h.1 ▸ List.mem_cons_self _ _) h2
  | cons c r ih =>
    intro n2 x y h1 h2 h
    cases n2 with
    | nil =>
      simp only [List.nil_append, List.cons_append, List.cons.injEq] at h
      exact absurd (h.1 ▸ List.mem_cons_self _ _) h1
    | cons c' r' =>
      simp only [List.cons_append, List.cons.injEq] at h
      obtain ⟨h3, h4⟩ := ih r' x y (fun hm => h1 (List.mem_cons_of_mem _ hm))
        (fun hm => h2 (List.mem_cons_of_mem _ hm)) h.2
      exact ⟨by rw [h.1, h3], h4⟩

theorem PaneFS_append_inj (a b x y : String) (ha : PaneFS a) (hb : PaneFS b)
    (h : a ++ x = b ++ y) : a = b ∧ x = y := by
  have hd : a.data ++ x.data = b.data ++ y.data := by
    have := congrArg String.data h
    simpa [String.data_append] using this
  rcases ha with rfl | ⟨n1, rfl, c1, s1⟩ <;> rcases hb with rfl | ⟨n2, rfl, c2, s2⟩
  · have : x.data = y.data := by simpa using hd
    exact ⟨rfl, String.ext this⟩
  · exfalso
    simp only [String.data_append] at hd
    have hd' : '/' :: x.data = n2.data ++ ':' :: y.data := by simpa using hd
    cases hn : n2.data with
    | nil => rw [hn] at hd'; simp at hd'
    | cons c r =>
      rw [hn] at hd'
      simp only [List.cons_append, List.cons.injEq] at hd'
      exact s2 (by rw [String.toList, hn, ← hd'.1]; exact List.mem_cons_self _ _)
  · exfalso
    simp only [String.data_append] at hd
    have hd' : n1.data ++ ':' :: x.data = '/' :: y.data := by simpa using hd
    cases hn : n1.data with
    | nil => rw [hn] at hd'; simp at hd'
    | cons c r =>
      rw [hn] at hd'
      simp only [List.cons_append, List.cons.injEq] at hd'
      exact s1 (by rw [String.toList, hn, hd'.1]; exact List.mem_cons_self _ _)
  · simp only [String.data_append] at hd
    have hd' : n1.data ++ ':' :: x.data = n2.data ++ ':' :: y.data := by simpa using hd
    obtain ⟨h1, h2⟩ := colon_split n1.data n2.data x.data y.data c1 c2 hd'
    exact ⟨by rw [String.ext h1], String.ext h2⟩

/-- C13. For a pane and a refresh record whose `FS` are values the program gives
them (`/`, or a remote name followed by `:`): `watchItem` changes the cached
listing for the record only if the record's `FS` is the pane's and the record's
directory, `filepath.Dir(item.Path)` with `.` read as the empty path, is the
pane's path; in every other case the pane is left as it is. -/
theorem watchRecord_same_directory (lib : GoLib) (p : Pane) (item : ListItem)
    (hp : PaneFS p.FS) (hi : PaneFS item.FS) :
    ((watchRecord lib p item).items ≠ p.items →
      item.FS = p.FS ∧ recordDir lib item = p.Path) ∧
    (¬ (item.FS = p.FS ∧ recordDir lib item = p.Path) → watchRecord lib p item = p) := by
  have hskip : ¬ (item.FS = p.FS ∧ recordDir lib item = p.Path) →
      watchRecord lib p item = p := by
    intro hne
    apply watchRecord_skip lib p item
    intro heq
    obtain ⟨h1, h2⟩ := PaneFS_append_inj p.FS item.FS p.Path (recordDir lib item) hp hi heq
    exact hne ⟨h1.symm, h2.symm⟩
  refine ⟨?_, hskip⟩
  intro h
  by_contra hne
  exact h (by rw [hskip hne])

/-- A record for `r:zz/new.txt` leaves the pane showing `r:ab` as it is; a record
for `r:ab/new.txt` is inserted. -/
theorem watchRecord_same_directory_witness :
    PaneFS demoPane.FS ∧
    watchRecord plainLib demoPane
      { (demoEntry "id9" "new.txt" 3) with Path := "zz/new.txt", RefreshAddItem := true } =
      demoPane ∧
    (watchRecord plainLib demoPane
      { (demoEntry "id9" "new.txt" 3) with RefreshAddItem := true }).items ≠ demoPane.items :=
  ⟨Or.inr ⟨"r", rfl, by decide, by decide⟩,
   (watchRecord_same_directory plainLib demoPane
     { (demoEntry "id9" "new.txt" 3) with Path := "zz/new.txt", RefreshAddItem := true }
     (Or.inr ⟨"r", rfl, by decide, by decide⟩)
     (Or.inr ⟨"r", rfl, by decide, by decide⟩)).2 (by decide),
   by decide⟩

/-- C14. For a removal record that passes the guard of `watchItem`: if some
cached entry has the record's ID or Name, the listing afterwards is the old one
without the first such entry, the others in their order; if no entry has, the
listing is unchanged. -/
theorem watchRecord_remove (lib : GoLib) (p : Pane) (item : ListItem)
    (happ : p.FS ++ p.Path = item.FS ++ recordDir lib item)
    (hrem : item.RefreshAddItem = false) :
    ((∃ y ∈ p.items, y.ID = item.ID ∨ y.Name = item.Name) →
      ∃ pre x post, p.items = pre ++ x :: post ∧
        (∀ y ∈ pre, ¬ (y.ID = item.ID ∨ y.Name = item.Name)) ∧
        (x.ID = item.ID ∨ x.Name = item.Name) ∧
        (watchRecord lib p item).items = pre ++ post) ∧
    ((∀ y ∈ p.items, ¬ (y.ID = item.ID ∨ y.Name = item.Name)) →
      (watchRecord lib p item).items = p.items) := by
  rw [watchRecord_apply lib p item happ]
  constructor
  · rintro ⟨y, hy, hm⟩
    obtain ⟨pre, x, post, h1, h2, h3⟩ := exists_first_match item p.items
      ⟨y, hy, (matchesRecord_iff item y).2 hm⟩
    refine ⟨pre, x, post, h1, fun z hz => (matchesRecord_false_iff item z).1 (h2 z hz),
      (matchesRecord_iff item x).1 h3, ?_⟩
    rw [h1, scanItems_first_match item pre x post h2 h3]
    simp [hrem]
  · intro h
    rw [scanItems_no_match item p.items
      (fun y hy => (matchesRecord_false_iff item y).2 (h y hy))]
    simp [hrem]

/-- Removing `m.txt` from the pane showing `a.txt`, `m.txt` leaves `a.txt`. -/
theorem watchRecord_remove_witness :
    ∃ pre x post, demoPane.items = pre ++ x :: post ∧
      (∀ y ∈ pre, ¬ (y.ID = "id2" ∨ y.Name = "m.txt")) ∧
      (x.ID = "id2" ∨ x.Name = "m.txt") ∧
      (watchRecord plainLib demoPane (demoEntry "id2" "m.txt" 5)).items = pre ++ post :=
  (watchRecord_remove plainLib demoPane (demoEntry "id2" "m.txt" 5) (by decide) rfl).1
    ⟨demoEntry "id2" "m.txt" 5, by decide, Or.inl rfl⟩

theorem sortList_dirs_first (l : List ListItem) (asc : Bool) (mode : String) :
    (sortList l asc mode).Pairwise (fun x y => ¬ (x.IsDir = false ∧ y.IsDir = true)) := by
  refine (sortList_sorted l asc mode).imp ?_
  intro x y hxy
  unfold sortedBefore at hxy
  rw [lessItem_eq] at hxy
  rintro ⟨hx, hy⟩
  simp [hx, hy] at hxy

theorem sortList_key_order (l : List ListItem) (asc : Bool) (mode : String) :
    (sortList l asc mode).Pairwise
      (fun x y => x.IsDir = y.IsDir → if asc then keyLE mode x y else keyLE mode y x) := by
  refine (sortList_sorted l asc mode).imp ?_
  intro x y hxy hd
  unfold sortedBefore at hxy
  rw [lessItem_eq] at hxy
  have hd' : ¬ (y.IsDir ≠ x.IsDir) := fun hn => hn hd.symm
  rw [if_neg hd'] at hxy
  unfold keyLE
  cases asc <;> simp only [Bool.false_eq_true, if_false, if_true] at hxy ⊢ <;>
    split_ifs at hxy ⊢ <;>
    simpa only [decide_eq_false_iff_not, not_lt] using hxy

/-- C15. For an insert record that passes the guard of `watchItem` and has the ID
and the Name of no cached entry, the listing afterwards is a permutation of the
old entries plus the record, ordered under the pane's `sortMode` and `sortAsc`:
no file comes before a directory and, of two entries that are both directories
or both files, the earlier one is not above the later one in the key of the mode
(`Size`, `ModifiedTimeUnix`, or `Name`) when `sortAsc` is set, and not below it
otherwise; this holds for any two entries and so for consecutive ones. -/
theorem watchRecord_insert (lib : GoLib) (p : Pane) (item : ListItem)
    (happ : p.FS ++ p.Path = item.FS ++ recordDir lib item)
    (hadd : item.RefreshAddItem = true)
    (hno : ∀ y ∈ p.items, ¬ (y.ID = item.ID ∨ y.Name = item.Name)) :
    (watchRecord lib p item).items.Perm (p.items ++ [item]) ∧
    (watchRecord lib p item).items.Pairwise
      (fun x y => ¬ (x.IsDir = false ∧ y.IsDir = true)) ∧
    (watchRecord lib p item).items.Pairwise
      (fun x y => x.IsDir = y.IsDir →
        if p.sortAsc then keyLE p.sortMode x y else keyLE p.sortMode y x) ∧
    (watchRecord lib p item).items.Chain'
      (fun x y => x.IsDir = y.IsDir →
        if p.sortAsc then keyLE p.sortMode x y else keyLE p.sortMode y x) := by
  have h : (watchRecord lib p item).items =
      sortList (p.items ++ [item]) p.sortAsc p.sortMode := by
    rw [watchRecord_apply lib p item happ, scanItems_no_match item p.items
      (fun y hy => (matchesRecord_false_iff item y).2 (hno y hy))]
    simp [hadd]
  rw [h]
  exact ⟨sortList_perm _ _ _, sortList_dirs_first _ _ _, sortList_key_order _ _ _,
    (sortList_key_order _ _ _).chain'⟩

/-- Inserting `c.txt` of size 3 into the pane showing `a.txt` (1) and `m.txt` (5)
by ascending size puts it between the two. -/
theorem watchRecord_insert_witness :
    (watchRecord plainLib demoPane
      { (demoEntry "id3" "c.txt" 3) with RefreshAddItem := true }).items.Pairwise
      (fun x y => x.IsDir = y.IsDir →
        if demoPane.sortAsc then keyLE demoPane.sortMode x y
        else keyLE demoPane.sortMode y x) ∧
    (watchRecord plainLib demoPane
      { (demoEntry "id3" "c.txt" 3) with RefreshAddItem := true }).items.map
        (fun e => (e.Name, e.Size)) = [("a.txt", 1), ("c.txt", 3), ("m.txt", 5)] :=
  ⟨(watchRecord_insert plainLib demoPane
      { (demoEntry "id3" "c.txt" 3) with RefreshAddItem := true }
      (by decide) rfl (by decide)).2.2.1,
   by decide⟩

/-- C16. For an insert record that passes the guard of `watchItem` and has the ID
or the Name of some cached entry, the listing afterwards is the old one with the
`Size` and `ISize` of the first such entry set to the record's: same length and
order, every other field and every other entry as before, nothing appended. -/
theorem watchRecord_patch (lib : GoLib) (p : Pane) (item : ListItem)
    (happ : p.FS ++ p.Path = item.FS ++ recordDir lib item)
    (hadd : item.RefreshAddItem = true)
    (hm : ∃ y ∈ p.items, y.ID = item.ID ∨ y.Name = item.Name) :
    ∃ pre x post, p.items = pre ++ x :: post ∧
      (∀ y ∈ pre, ¬ (y.ID = item.ID ∨ y.Name = item.Name)) ∧
      (x.ID = item.ID ∨ x.Name = item.Name) ∧
      (watchRecord lib p item).items =
        pre ++ { x with Size := item.Size, ISize := item.ISize } :: post ∧
      (watchRecord lib p item).items.length = p.items.length := by
  obtain ⟨y, hy, hmy⟩ := hm
  obtain ⟨pre, x, post, h1, h2, h3⟩ := exists_first_match item p.items
    ⟨y, hy, (matchesRecord_iff item y).2 hmy⟩
  have h : (watchRecord lib p item).items =
      pre ++ { x with Size := item.Size, ISize := item.ISize } :: post := by
    rw [watchRecord_apply lib p item happ, h1, scanItems_first_match item pre x post h2 h3]
    simp [hadd]
  refine ⟨pre, x, post, h1, fun z hz => (matchesRecord_false_iff item z).1 (h2 z hz),
    (matchesRecord_iff item x).1 h3, h, ?_⟩
  rw [h, h1]
  simp

/-- A record for `m.txt` with size 9 patches the second entry of the pane. -/
theorem watchRecord_patch_witness :
    ∃ pre x post, demoPane.items = pre ++ x :: post ∧
      (∀ y ∈ pre, ¬ (y.ID = "id2" ∨ y.Name = "m.txt")) ∧
      (x.ID = "id2" ∨ x.Name = "m.txt") ∧
      (watchRecord plainLib demoPane
        { (demoEntry "id2" "m.txt" 5) with Size := 9, ISize := "9B", RefreshAddItem := true }).items =
        pre ++ { x with Size := 9, ISize := "9B" } :: post ∧
      (watchRecord plainLib demoPane
        { (demoEntry "id2" "m.txt" 5) with Size := 9, ISize := "9B", RefreshAddItem := true }).items.length =
        demoPane.items.length :=
  watchRecord_patch plainLib demoPane
    { (demoEntry "id2" "m.txt" 5) with Size := 9, ISize := "9B", RefreshAddItem := true }
    (by decide) rfl ⟨demoEntry "id2" "m.txt" 5, by decide, Or.inl rfl⟩


/-! ## MonitorJob -/

theorem monitorLoop_exited (job : Job) (nostop : Bool) (steps : List MonitorStep)
    (m : MonitorState) (h : m.exited = true) : monitorLoop job nostop steps m = m := by
  cases steps with
  | nil => rfl
  | cons step rest => simp [monitorLoop, h]

theorem monitorLoop_cons (job : Job) (nostop : Bool) (step : MonitorStep)
    (rest : List MonitorStep) (m : MonitorState) (h : m.exited = false) :
    monitorLoop job nostop (step :: rest) m =
      monitorLoop job nostop rest
        { state := (sendInfo (snapshotOf job step m).1 job nostop
            (m.updates.drop step.taken) (snapshotOf job step m).2).1,
          updates := (sendInfo (snapshotOf job step m).1 job nostop
            (m.updates.drop step.taken) (snapshotOf job step m).2).2.1,
          jobInfo := (snapshotOf job step m).2,
          exited := (sendInfo (snapshotOf job step m).1 job nostop
            (m.updates.drop step.taken) (snapshotOf job step m).2).2.2 } := by
  cases step <;> simp [monitorLoop, h, snapshotOf, MonitorStep.taken]

theorem pollSnapshot_jobQueue (s : State) (job : Job) (jobInfo : JobInfo) (env : PollEnv) :
    (pollSnapshot s job jobInfo env).1.jobQueue = s.jobQueue := by
  unfold pollSnapshot
  split
  · rfl
  · split
    · rfl
    · split <;> rfl

theorem snapshotOf_jobQueue (job : Job) (step : MonitorStep) (m : MonitorState) :
    (snapshotOf job step m).1.jobQueue = m.state.jobQueue := by
  cases step with
  | tick taken env => exact pollSnapshot_jobQueue _ _ _ _
  | cancel taken => rfl

theorem sendInfo_full (s : State) (job : Job) (nostop : Bool) (updates : List JobInfo)
    (jobInfo : JobInfo) (h : ¬ updates.length < 10) :
    sendInfo s job nostop updates jobInfo = (s, updates, false) := by
  simp [sendInfo, h]

theorem sendInfo_accepted (s : State) (job : Job) (nostop : Bool) (updates : List JobInfo)
    (jobInfo : JobInfo) (h : updates.length < 10) :
    sendInfo s job nostop updates jobInfo =
      if jobInfo.Error ≠ "" ∨ jobInfo.Finished = true then
        (if nostop then offerBroadcast s jobInfo
          else StopJob (offerBroadcast s jobInfo) job jobInfo.Error false,
         updates ++ [jobInfo], true)
      else (offerBroadcast s jobInfo, updates ++ [jobInfo], false) := by
  simp [sendInfo, h]

/-- C17. One iteration of `MonitorJob` from a monitor that has not exited, the
reader having taken `step.taken` snapshots from the private queue: the monitor
exits exactly when the queue has room (fewer than 10 pending) and the snapshot
is terminal; when the queue has room the snapshot is appended to it; when the
monitor exits and `nostop` was not given, the job is not in the registry; when
the queue is full the monitor does not exit, nothing is delivered and the
registry is unchanged, so a registered job stays registered. -/
theorem MonitorJob_exit_iff (job : Job) (nostop : Bool) (step : MonitorStep)
    (m : MonitorState) (h : m.exited = false) :
    ((monitorLoop job nostop [step] m).exited = true ↔
      (m.updates.drop step.taken).length < 10 ∧
        ((monitorLoop job nostop [step] m).jobInfo.Error ≠ "" ∨
          (monitorLoop job nostop [step] m).jobInfo.Finished = true)) ∧
    ((m.updates.drop step.taken).length < 10 →
      (monitorLoop job nostop [step] m).updates =
        m.updates.drop step.taken ++ [(monitorLoop job nostop [step] m).jobInfo]) ∧
    ((monitorLoop job nostop [step] m).exited = true → nostop = false →
      lookupJob (monitorLoop job nostop [step] m).state job.Type_ job.ID = none) ∧
    (¬ (m.updates.drop step.taken).length < 10 →
      (monitorLoop job nostop [step] m).exited = false ∧
      (monitorLoop job nostop [step] m).updates = m.updates.drop step.taken ∧
      (monitorLoop job nostop [step] m).state.jobQueue = m.state.jobQueue ∧
      lookupJob (monitorLoop job nostop [step] m).state job.Type_ job.ID =
        lookupJob m.state job.Type_ job.ID) := by
  rw [monitorLoop_cons job nostop step [] m h]
  simp only [monitorLoop]
  by_cases hq : (m.updates.drop step.taken).length < 10
  · rw [sendInfo_accepted _ _ _ _ _ hq]
    by_cases ht : (snapshotOf job step m).2.Error ≠ "" ∨ (snapshotOf job step m).2.Finished = true
    · rw [if_pos ht]
      refine ⟨⟨fun _ => ⟨hq, ht⟩, fun _ => rfl⟩, fun _ => rfl, ?_, fun hn => absurd hq hn⟩
      intro _ hns
      subst hns
      exact lookupJob_StopJob_self _ _ _ _
    · rw [if_neg ht]
      refine ⟨⟨fun hx => ?_, fun hx => absurd hx.2 ht⟩, fun _ => rfl, ?_,
        fun hn => absurd hq hn⟩
      · simp at hx
      · intro hx
        simp at hx
  · rw [sendInfo_full _ _ _ _ _ hq]
    refine ⟨⟨fun hx => ?_, fun hx => absurd hx.1 hq⟩, fun hx => absurd hx hq, ?_, ?_⟩
    · simp at hx
    · intro hx
      simp at hx
    · intro _
      refine ⟨rfl, rfl, snapshotOf_jobQueue job step m, ?_⟩
      unfold lookupJob
      rw [snapshotOf_jobQueue job step m]

/-- The cancelled monitor of `demoJob0` with an empty private queue exits and
`demoJob0` leaves the registry. -/
theorem MonitorJob_exit_iff_witness :
    demoMonitor.exited = false ∧
    (monitorLoop demoJob0 false [MonitorStep.cancel 0] demoMonitor).exited = true ∧
    lookupJob (monitorLoop demoJob0 false [MonitorStep.cancel 0] demoMonitor).state
      "Copy" 0 = none :=
  ⟨rfl,
   (MonitorJob_exit_iff demoJob0 false (MonitorStep.cancel 0) demoMonitor rfl).1.mpr
     ⟨by decide, Or.inl (by decide)⟩,
   (MonitorJob_exit_iff demoJob0 false (MonitorStep.cancel 0) demoMonitor rfl).2.2.1
     ((MonitorJob_exit_iff demoJob0 false (MonitorStep.cancel 0) demoMonitor rfl).1.mpr
       ⟨by decide, Or.inl (by decide)⟩) rfl⟩


theorem pollSnapshot_failure (s : State) (job : Job) (jobInfo : JobInfo) (env : PollEnv)
    (msg : String) (h : env.failure jobInfo = some msg) :
    (pollSnapshot s job jobInfo env).2.Error = msg := by
  unfold PollEnv.failure at h
  unfold pollSnapshot
  cases h1 : env.statusRequest with
  | some e => simp only [h1, Option.some.injEq] at h; simp [h]
  | none =>
    rw [h1] at h
    rcases hd : env.statusDecode jobInfo with ⟨info, r⟩
    rw [hd] at h
    cases r with
    | some e => simp only [Option.some.injEq] at h; simp [h]
    | none =>
      cases h3 : env.statsRequest with
      | some e => simp only [h3, Option.some.injEq] at h; simp [h]
      | none =>
        simp only [h3] at h
        simp [h]

theorem pollsIssued_append (a b : List Event) :
    pollsIssued (a ++ b) = pollsIssued a + pollsIssued b := by
  simp [pollsIssued]

theorem pollsIssued_offerBroadcast (s : State) (info : JobInfo) :
    pollsIssued (offerBroadcast s info).trace = pollsIssued s.trace := by
  rw [offerBroadcast_trace, pollsIssued_append]
  rfl

theorem pollsIssued_StopJob (s : State) (j : Job) (err : String) :
    pollsIssued (StopJob s j err false).trace = pollsIssued s.trace := by
  rw [StopJob_trace, pollsIssued_append]
  have : pollsIssued [Event.send "/job/stop" [("_async", JVal.bool true), ("jobid", JVal.num j.ID)],
      Event.offer (jobFinished s j err)] = 0 := by
    simp [pollsIssued, Event.isPoll]
  rw [this]
  rfl

/-- C18. A tick of `MonitorJob` in which the request or the decoding fails, on
`/job/status` or on `/core/stats`, with the (non-empty) message `msg`: the
snapshot brought to `SendInfo` has `Error = msg` and is terminal; if the private
queue has room, the snapshot is delivered, the monitor exits, and whatever the
ticker or the context do afterwards the trace holds no poll beyond those of
this round. -/
theorem MonitorJob_poll_failure (job : Job) (nostop : Bool) (taken : Nat) (env : PollEnv)
    (rest : List MonitorStep) (m : MonitorState) (msg : String)
    (h : m.exited = false) (hfail : env.failure m.jobInfo = some msg) (hmsg : msg ≠ "") :
    (pollSnapshot m.state job m.jobInfo env).2.Error = msg ∧
    ((pollSnapshot m.state job m.jobInfo env).2.Error ≠ "" ∨
      (pollSnapshot m.state job m.jobInfo env).2.Finished = true) ∧
    ((m.updates.drop taken).length < 10 →
      (monitorLoop job nostop (MonitorStep.tick taken env :: rest) m).exited = true ∧
      (monitorLoop job nostop (MonitorStep.tick taken env :: rest) m).updates =
        m.updates.drop taken ++ [(pollSnapshot m.state job m.jobInfo env).2] ∧
      pollsIssued (monitorLoop job nostop (MonitorStep.tick taken env :: rest) m).state.trace =
        pollsIssued (pollSnapshot m.state job m.jobInfo env).1.trace) := by
  have he := pollSnapshot_failure m.state job m.jobInfo env msg hfail
  have ht : (pollSnapshot m.state job m.jobInfo env).2.Error ≠ "" ∨
      (pollSnapshot m.state job m.jobInfo env).2.Finished = true := Or.inl (he ▸ hmsg)
  refine ⟨he, ht, fun hq => ?_⟩
  rw [monitorLoop_cons job nostop _ rest m h]
  simp only [snapshotOf, MonitorStep.taken]
  rw [sendInfo_accepted _ _ _ _ _ hq, if_pos ht, monitorLoop_exited _ _ _ _ rfl]
  refine ⟨rfl, rfl, ?_⟩
  cases nostop with
  | true => exact pollsIssued_offerBroadcast _ _
  | false =>
    simp only [Bool.false_eq_true, if_false]
    rw [pollsIssued_StopJob, pollsIssued_offerBroadcast]

/-- The first round of the monitor of `demoJob0` is refused by the daemon: the
snapshot carries the message, the monitor exits, and a later tick polls no
more (one poll in all). -/
theorem MonitorJob_poll_failure_witness :
    (MonitorJob demoState demoJob0 false [] refusedEnv
      [MonitorStep.tick 0 refusedEnv]).exited = true ∧
    (MonitorJob demoState demoJob0 false [] refusedEnv
      [MonitorStep.tick 0 refusedEnv]).updates =
        [{ JobInfo.zero with Error := "connection refused" }] ∧
    pollsIssued (MonitorJob demoState demoJob0 false [] refusedEnv
      [MonitorStep.tick 0 refusedEnv]).state.trace = 1 :=
  (MonitorJob_poll_failure demoJob0 false 0 refusedEnv [MonitorStep.tick 0 refusedEnv]
    demoMonitor "connection refused" rfl rfl (by decide)).2.2 (by decide)


/-! ## GetJobReply and SendCommandAsync -/

theorem GetJobReply_first_terminal (lib : GoLib) (pre post : List JobInfo) (x : JobInfo)
    (hpre : ∀ y ∈ pre, y.Error = "" ∧ y.Finished = false)
    (hx : x.Error ≠ "" ∨ x.Finished = true) :
    GetJobReply lib (pre ++ x :: post) =
      some (x, if x.Error ≠ "" then some (lib.Errorf x.Error) else none) := by
  induction pre with
  | nil =>
    simp only [List.nil_append, GetJobReply]
    by_cases h1 : x.Error ≠ ""
    · simp [h1]
    · rcases hx with hx | hx
      · exact absurd hx h1
      · simp [h1, hx]
  | cons a pre ih =>
    have ha := hpre a (List.mem_cons_self _ _)
    simp only [List.cons_append, GetJobReply, ha.1, ha.2]
    simpa using ih (fun y hy => hpre y (List.mem_cons_of_mem _ hy))

/-- C19. The first terminal snapshot on the queue says `disk 100% full`;
`GetJobReply` returns that snapshot, skipping the earlier one, with a non-nil
error, but the error's message is `disk 100%!f(MISSING)ull`, which is not the
snapshot's `Error`: the message is built with `fmt.Errorf(info.Error)`, which
reads the string as a format. -/
theorem GetJobReply_percent_message :
    GetJobReply goLib [JobInfo.zero, percentSnapshot] =
      some (percentSnapshot, some "disk 100%!f(MISSING)ull") ∧
    percentSnapshot.Error = "disk 100% full" ∧
    "disk 100%!f(MISSING)ull" ≠ percentSnapshot.Error := by
  decide

/-- C20, as stated, fails, in two ways. The answer `{"error": null, "jobid": 7}`
holds an `error` entry that is not a string and `SendCommandAsync` returns job 7.
The answer `{"jobid": 7.5}` has a numeric `jobid` and the job returned has the
ID 7, which is not that jobid. -/
theorem SendCommandAsync_counterexamples :
    (GoMap.load ([("error", JVal.null), ("jobid", JVal.float 7)] : Command) "error" ≠ none ∧
      (SendCommandAsync plainLib State.init "Copy" "Copying" [] "/operations/copyfile" true
        (.ok [("error", JVal.null), ("jobid", JVal.float 7)]) 0).1 =
        .ok (NewJob "Copy" "Copying" 7 none 0)) ∧
    ((SendCommandAsync plainLib State.init "Copy" "Copying" [] "/operations/copyfile" true
        (.ok [("jobid", JVal.float sevenAndHalf)]) 0).1 =
        .ok (NewJob "Copy" "Copying" 7 none 0) ∧
      sevenAndHalf ≠ ((7 : Int) : ℚ) ∧ sevenAndHalf.num = 15 ∧ sevenAndHalf.den = 2) :=
  ⟨⟨by decide, rfl⟩, rfl, by decide, rfl, rfl⟩

theorem int64OfFloat_whole (lib : GoLib) (n : Int) (h1 : -9223372036854775808 ≤ n)
    (h2 : n ≤ 9223372036854775807) : int64OfFloat lib (n : ℚ) = n := by
  have hf : Rat.floor (n : ℚ) = n := by
    rw [Rat.floor_def']
    simp
  have hn : -Rat.floor (-(n : ℚ)) = n := by
    have : (-(n : ℚ)) = ((-n : Int) : ℚ) := by push_cast; rfl
    rw [this, Rat.floor_def']
    simp
  unfold int64OfFloat
  simp only [hf, hn, ite_self]
  rw [if_pos ⟨h1, h2⟩]

theorem int64OfFloat_truncates (lib : GoLib) (f : ℚ) (h1 : -9223372036854775809 < f)
    (h2 : f < 9223372036854775808) :
    (0 ≤ f → ((int64OfFloat lib f : Int) : ℚ) ≤ f ∧ f < ((int64OfFloat lib f : Int) : ℚ) + 1) ∧
    (f ≤ 0 → f ≤ ((int64OfFloat lib f : Int) : ℚ) ∧
      ((int64OfFloat lib f : Int) : ℚ) - 1 < f) := by
  have floor_eq : ∀ g : ℚ, Rat.floor g = ⌊g⌋ := fun _ => rfl
  by_cases hf : 0 ≤ f
  · have hn : 0 ≤ f.num := Rat.num_nonneg.2 hf
    have hle : ((⌊f⌋ : Int) : ℚ) ≤ f := Int.floor_le f
    have hlt : f < ((⌊f⌋ : Int) : ℚ) + 1 := Int.lt_floor_add_one f
    have h0 : 0 ≤ ⌊f⌋ := Int.floor_nonneg.2 hf
    have hmax : ⌊f⌋ ≤ 9223372036854775807 := by
      have : ((⌊f⌋ : Int) : ℚ) < ((9223372036854775808 : Int) : ℚ) := by
        push_cast; exact lt_of_le_of_lt hle h2
      have := Int.cast_lt.1 this
      omega
    have hv : int64OfFloat lib f = ⌊f⌋ := by
      unfold int64OfFloat
      simp only [hn, if_true, floor_eq]
      rw [if_pos ⟨by omega, hmax⟩]
    rw [hv]
    refine ⟨fun _ => ⟨hle, hlt⟩, fun h => ?_⟩
    have : f = 0 := le_antisymm h hf
    subst this
    simp
  · have hf' : f < 0 := lt_of_not_ge hf
    have hn : ¬ 0 ≤ f.num := fun h => hf (Rat.num_nonneg.1 h)
    have hle : ((⌊-f⌋ : Int) : ℚ) ≤ -f := Int.floor_le (-f)
    have hlt : -f < ((⌊-f⌋ : Int) : ℚ) + 1 := Int.lt_floor_add_one (-f)
    have h0 : 0 ≤ ⌊-f⌋ := Int.floor_nonneg.2 (by linarith)
    have hmax : ⌊-f⌋ ≤ 9223372036854775808 := by
      have : ((⌊-f⌋ : Int) : ℚ) < ((9223372036854775809 : Int) : ℚ) := by
        push_cast; linarith
      have := Int.cast_lt.1 this
      omega
    have hv : int64OfFloat lib f = -⌊-f⌋ := by
      unfold int64OfFloat
      simp only [hn, if_false, floor_eq]
      rw [if_pos ⟨by omega, by omega⟩]
    rw [hv]
    refine ⟨fun h => absurd h hf, fun _ => ?_⟩
    push_cast
    constructor <;> linarith

/-- C20, amended. On a decoded answer `obj`, `SendCommandAsync` fails exactly when
the `error` entry of `obj` is a string or `obj` has no numeric `jobid`;
otherwise it returns the job `NewJob` makes of the type, the description and
`int64(jobid)`: the job has that Type and Description, and its ID is the jobid
with the fraction discarded, so the jobid itself when it is a whole number that
fits `int64`. In both cases the command dispatched to the endpoint holds
`_async: true`. -/
theorem SendCommandAsync_spec (lib : GoLib) (s : State) (jobType jobDesc : String)
    (command : Command) (endpoint : String) (noqueue : Bool) (obj : Command) (ctx : Nat) :
    ((∃ e, (SendCommandAsync lib s jobType jobDesc command endpoint noqueue (.ok obj) ctx).1 =
        .error e) ↔
      ((∃ msg, obj.load "error" = some (JVal.str msg)) ∨
        ¬ ∃ f, obj.load "jobid" = some (JVal.float f))) ∧
    (∀ job, (SendCommandAsync lib s jobType jobDesc command endpoint noqueue (.ok obj) ctx).1 =
        .ok job →
      ∃ f, obj.load "jobid" = some (JVal.float f) ∧ job.ID = int64OfFloat lib f ∧
        job.Type_ = jobType ∧ job.Description = jobDesc ∧
        job = NewJob jobType jobDesc job.ID none ctx ∧
        (∀ n : Int, -9223372036854775808 ≤ n → n ≤ 9223372036854775807 → f = (n : ℚ) →
          job.ID = n) ∧
        (-9223372036854775809 < f → f < 9223372036854775808 →
          (0 ≤ f → ((job.ID : Int) : ℚ) ≤ f ∧ f < ((job.ID : Int) : ℚ) + 1) ∧
          (f ≤ 0 → f ≤ ((job.ID : Int) : ℚ) ∧ ((job.ID : Int) : ℚ) - 1 < f))) ∧
    (∃ sent, Event.send endpoint sent ∈
        (SendCommandAsync lib s jobType jobDesc command endpoint noqueue (.ok obj) ctx).2.trace ∧
      sent.load "_async" = some (JVal.bool true)) := by
  have hprops : ∀ f : ℚ,
      (∀ n : Int, -9223372036854775808 ≤ n → n ≤ 9223372036854775807 → f = (n : ℚ) →
        int64OfFloat lib f = n) ∧
      (-9223372036854775809 < f → f < 9223372036854775808 →
        (0 ≤ f → ((int64OfFloat lib f : Int) : ℚ) ≤ f ∧
          f < ((int64OfFloat lib f : Int) : ℚ) + 1) ∧
        (f ≤ 0 → f ≤ ((int64OfFloat lib f : Int) : ℚ) ∧
          ((int64OfFloat lib f : Int) : ℚ) - 1 < f)) := by
    intro f
    refine ⟨?_, int64OfFloat_truncates lib f⟩
    intro n h1 h2 hf
    rw [hf]
    exact int64OfFloat_whole lib n h1 h2
  refine ⟨?_, ?_, command.store "_async" (JVal.bool true), ?_, GoMap.load_store_self _ _ _⟩
  · rcases h1 : GoMap.load obj "error" with _ | (e | n | f | b | _) <;>
    rcases h2 : GoMap.load obj "jobid" with _ | (e2 | n2 | f2 | b2 | _) <;>
    cases noqueue <;>
    simp [SendCommandAsync, h1, h2]
  · intro job
    rcases h1 : GoMap.load obj "error" with _ | (e | n | f | b | _) <;>
    rcases h2 : GoMap.load obj "jobid" with _ | (e2 | n2 | f2 | b2 | _) <;>
    cases noqueue <;>
    simp only [SendCommandAsync, h1, h2, Bool.false_eq_true, if_false, if_true,
      Except.ok.injEq, reduceCtorEq, false_implies, Option.some.injEq, JVal.float.injEq,
      exists_eq_left'] <;>
    (intro hj; subst hj; exact ⟨rfl, rfl, rfl, rfl, hprops f2⟩)
  · rcases h1 : GoMap.load obj "error" with _ | (e | n | f | b | _) <;>
    rcases h2 : GoMap.load obj "jobid" with _ | (e2 | n2 | f2 | b2 | _) <;>
    cases noqueue <;>
    simp [SendCommandAsync, h1, h2, SendCommand, AddJobToQueue, modifyJobCount_trace]

/-- Answer `{"jobid": 12}`, registered: the job returned has ID 12 and the
command recorded holds `_async: true`. -/
theorem SendCommandAsync_spec_witness :
    ∃ job, (SendCommandAsync plainLib State.init "Copy" "Copying" [] "/operations/copyfile"
        false (.ok [("jobid", JVal.float 12)]) 0).1 = .ok job ∧ job.ID = 12 :=
  ⟨NewJob "Copy" "Copying" 12 none 0, rfl,
   let ⟨_, hl, _, _, _, _, hw, _⟩ :=
     (SendCommandAsync_spec plainLib State.init "Copy" "Copying" [] "/operations/copyfile"
       false [("jobid", JVal.float 12)] 0).2.1 (NewJob "Copy" "Copying" 12 none 0) rfl
   hw 12 (by decide) (by decide) (by
     have h := Option.some.inj hl.symm
     exact (JVal.float.inj h))⟩

/-! ## StopJobGroup, the monitored group, the final snapshot, the distributor -/

theorem range_StopJobGroup (job : Job) (q : GoMap String (GoMap Int Job)) (acc : List Nat) :
    GoMap.range
      (fun (jobType : String) (jobMap : GoMap Int Job) (cancelled : List Nat) =>
        if jobType ≠ job.Type_ then (cancelled, true)
        else (cancelled ++ jobMap.map (fun e => e.2.Context), false)) q acc =
      acc ++ match q.load job.Type_ with
        | some b => b.map (fun e => e.2.Context)
        | none => [] := by
  induction q with
  | nil => simp [GoMap.range, GoMap.load]
  | cons e rest ih =>
    obtain ⟨c, b⟩ := e
    by_cases h : c = job.Type_
    · have h' : ¬ (c ≠ job.Type_) := fun hn => hn h
      rw [GoMap.range, if_neg h']
      simp [GoMap.load, h]
    · have h' : c ≠ job.Type_ := h
      rw [GoMap.range, if_pos h']
      simp only [GoMap.load, h, if_false]
      exact ih

theorem StopJobGroup_cancelled (s : State) (job : Job) :
    (StopJobGroup s job).2 =
      match s.jobQueue.load job.Type_ with
      | some b => b.map (fun e => e.2.Context)
      | none => [] := by
  exact (range_StopJobGroup job s.jobQueue []).trans (List.nil_append _)

theorem mem_of_lookupJob (s : State) (c : String) (k : Int) (j : Job)
    (h : lookupJob s c k = some j) :
    ∃ b, s.jobQueue.load c = some b ∧ (c, b) ∈ s.jobQueue ∧ (k, j) ∈ b := by
  unfold lookupJob at h
  cases hb : s.jobQueue.load c with
  | none => simp [hb] at h
  | some b =>
    simp only [hb] at h
    exact ⟨b, rfl, GoMap.mem_of_load _ _ _ hb, GoMap.mem_of_load _ _ _ h⟩

/-- C21. After `StopJobGroup(j)`: the context of every job registered under
category `j.Type` has been cancelled; the contexts cancelled are those of the
jobs of that bucket, so that, registered jobs of different categories carrying
different contexts, no job registered under another category has had its
context cancelled; the registry, the counter and the rest of the state are as
before. -/
theorem StopJobGroup_spec (s : State) (j : Job) (hown : OwnContexts s) :
    (∀ k j', lookupJob s j.Type_ k = some j' → j'.Context ∈ (StopJobGroup s j).2) ∧
    (∀ t ∈ (StopJobGroup s j).2,
      ∃ b f, s.jobQueue.load j.Type_ = some b ∧ f ∈ b ∧ f.2.Context = t) ∧
    (∀ c k j', c ≠ j.Type_ → lookupJob s c k = some j' →
      j'.Context ∉ (StopJobGroup s j).2) ∧
    (StopJobGroup s j).1.jobQueue = s.jobQueue ∧
    (StopJobGroup s j).1.jobTotal = s.jobTotal ∧
    (StopJobGroup s j).1 = s := by
  have hin : ∀ t ∈ (StopJobGroup s j).2,
      ∃ b f, s.jobQueue.load j.Type_ = some b ∧ f ∈ b ∧ f.2.Context = t := by
    intro t ht
    rw [StopJobGroup_cancelled] at ht
    cases hb : s.jobQueue.load j.Type_ with
    | none => simp [hb] at ht
    | some b =>
      simp only [hb, List.mem_map] at ht
      obtain ⟨f, hf, rfl⟩ := ht
      exact ⟨b, f, rfl, hf, rfl⟩
  refine ⟨?_, hin, ?_, rfl, rfl, rfl⟩
  · intro k j' h
    obtain ⟨b, hb, _, hm⟩ := mem_of_lookupJob s j.Type_ k j' h
    rw [StopJobGroup_cancelled, hb]
    exact List.mem_map.2 ⟨(k, j'), hm, rfl⟩
  · intro c k j' hc h ht
    obtain ⟨b', _, hb', hm'⟩ := mem_of_lookupJob s c k j' h
    obtain ⟨b, f, hb, hf, hctx⟩ := hin _ ht
    exact hown (j.Type_, b) (GoMap.mem_of_load _ _ _ hb) (c, b') hb' (fun h' => hc h'.symm)
      f hf (k, j') hm' hctx

/-- In `demoState`, `StopJobGroup` on a `Copy` job cancels the contexts 0 and 2 of
the two `Copy` jobs and not the context 1 of the `UI:Mounts` job. -/
theorem StopJobGroup_spec_witness :
    OwnContexts demoState ∧ (0 : Nat) ∈ (StopJobGroup demoState demoJob0).2 ∧
    (2 : Nat) ∈ (StopJobGroup demoState demoJob0).2 ∧
    (1 : Nat) ∉ (StopJobGroup demoState demoJob0).2 :=
  ⟨by unfold OwnContexts; decide,
   (StopJobGroup_spec demoState demoJob0 (by unfold OwnContexts; decide)).1 0 demoJob0
     (by decide),
   (StopJobGroup_spec demoState demoJob0 (by unfold OwnContexts; decide)).1 1 demoJob1
     (by decide),
   (StopJobGroup_spec demoState demoJob0 (by unfold OwnContexts; decide)).2.2.1 "UI:Mounts" 7
     (NewJob "UI:Mounts" "Mounting remote" 7 none 1) (by decide) (by decide)⟩


theorem pollSnapshot_trace (s : State) (job : Job) (jobInfo : JobInfo) (env : PollEnv) :
    ∃ tail, (pollSnapshot s job jobInfo env).1.trace =
        s.trace ++ Event.send "/job/status" (monitorCommand job) :: tail ∧
      ∀ ev ∈ tail, ev = Event.send "/core/stats" (monitorCommand job) := by
  unfold pollSnapshot
  cases env.statusRequest with
  | some e => exact ⟨[], by simp [SendCommand], by simp⟩
  | none =>
    rcases env.statusDecode jobInfo with ⟨info, r⟩
    cases r with
    | some e => exact ⟨[], by simp [SendCommand], by simp⟩
    | none =>
      cases env.statsRequest with
      | some e => exact ⟨[Event.send "/core/stats" (monitorCommand job)],
          by simp [SendCommand], by simp⟩
      | none => exact ⟨[Event.send "/core/stats" (monitorCommand job)],
          by simp [SendCommand], by simp⟩

theorem sendInfo_trace (s : State) (job : Job) (nostop : Bool) (updates : List JobInfo)
    (jobInfo : JobInfo) :
    ∃ tail, (sendInfo s job nostop updates jobInfo).1.trace = s.trace ++ tail ∧
      ∀ ev ∈ tail, Event.isPoll ev = false := by
  by_cases hq : updates.length < 10
  · rw [sendInfo_accepted _ _ _ _ _ hq]
    by_cases ht : jobInfo.Error ≠ "" ∨ jobInfo.Finished = true
    · rw [if_pos ht]
      cases nostop with
      | true =>
        exact ⟨[Event.offer jobInfo], by simp [offerBroadcast_trace], by simp [Event.isPoll]⟩
      | false =>
        refine ⟨[Event.offer jobInfo,
          Event.send "/job/stop" [("_async", JVal.bool true), ("jobid", JVal.num job.ID)],
          Event.offer (jobFinished (offerBroadcast s jobInfo) job jobInfo.Error)], ?_, ?_⟩
        · simp [StopJob_trace, offerBroadcast_trace]
        · simp [Event.isPoll]
    · rw [if_neg ht]
      exact ⟨[Event.offer jobInfo], by simp [offerBroadcast_trace], by simp [Event.isPoll]⟩
  · rw [sendInfo_full _ _ _ _ _ hq]
    exact ⟨[], by simp, by simp⟩

theorem snapshotOf_trace (job : Job) (step : MonitorStep) (m : MonitorState) :
    ∃ tail, (snapshotOf job step m).1.trace = m.state.trace ++ tail ∧
      ∀ ev ∈ tail, Event.isPoll ev = true → ∃ ep, ev = Event.send ep (monitorCommand job) := by
  cases step with
  | tick taken env =>
    obtain ⟨tail, h1, h2⟩ := pollSnapshot_trace m.state job m.jobInfo env
    refine ⟨_, h1, ?_⟩
    intro ev hev _
    rcases List.mem_cons.1 hev with h | h
    · exact ⟨_, h⟩
    · exact ⟨_, h2 ev h⟩
  | cancel taken => exact ⟨[], by simp [snapshotOf], by simp⟩

theorem monitorLoop_trace (job : Job) (nostop : Bool) (steps : List MonitorStep) :
    ∀ m : MonitorState,
      ∃ tail, (monitorLoop job nostop steps m).state.trace = m.state.trace ++ tail ∧
        ∀ ev ∈ tail, Event.isPoll ev = true →
          ∃ ep, ev = Event.send ep (monitorCommand job) := by
  induction steps with
  | nil => intro m; exact ⟨[], by simp [monitorLoop], by simp⟩
  | cons step rest ih =>
    intro m
    by_cases hx : m.exited = true
    · rw [monitorLoop_exited _ _ _ _ hx]
      exact ⟨[], by simp, by simp⟩
    · have hx' : m.exited = false := by simpa using hx
      rw [monitorLoop_cons job nostop step rest m hx']
      obtain ⟨t1, a1, b1⟩ := snapshotOf_trace job step m
      obtain ⟨t2, a2, b2⟩ := sendInfo_trace (snapshotOf job step m).1 job nostop
        (m.updates.drop step.taken) (snapshotOf job step m).2
      obtain ⟨t3, a3, b3⟩ := ih
        { state := (sendInfo (snapshotOf job step m).1 job nostop
            (m.updates.drop step.taken) (snapshotOf job step m).2).1,
          updates := (sendInfo (snapshotOf job step m).1 job nostop
            (m.updates.drop step.taken) (snapshotOf job step m).2).2.1,
          jobInfo := (snapshotOf job step m).2,
          exited := (sendInfo (snapshotOf job step m).1 job nostop
            (m.updates.drop step.taken) (snapshotOf job step m).2).2.2 }
      refine ⟨t1 ++ t2 ++ t3, ?_, ?_⟩
      · rw [a3]
        simp only [a2, a1, List.append_assoc]
      · intro ev hev hp
        simp only [List.mem_append] at hev
        rcases hev with (h | h) | h
        · exact b1 ev h hp
        · rw [b2 ev h] at hp
          exact absurd hp (by simp)
        · exact b3 ev h hp

/-- C22, as stated, fails: the job `Copy`/7 made by `NewJob` without a group is
monitored with the group `job/7`, not `Copy/7`. -/
theorem monitorGroup_not_category :
    monitorGroup (NewJob "Copy" "Copying" 7 none 0) = "job/7" ∧
    monitorGroup (NewJob "Copy" "Copying" 7 none 0) ≠
      (NewJob "Copy" "Copying" 7 none 0).Type_ ++ "/" ++
        toString (NewJob "Copy" "Copying" 7 none 0).ID := by
  decide

/-- C22, amended. For a job made by `NewJob` without a group argument,
`MonitorJob` uses the group `"job/"` followed by the decimal id: the first call
it makes is the `/job/status` request with that `jobid` and that `group`, and
every poll it makes, to `/job/status` or to `/core/stats`, carries the same
command. -/
theorem MonitorJob_group (s : State) (jobType jobDesc : String) (id : Int) (ctx : Nat)
    (nostop : Bool) (updates : List JobInfo) (env : PollEnv) (rest : List MonitorStep) :
    monitorGroup (NewJob jobType jobDesc id none ctx) = "job/" ++ toString id ∧
    ∃ tail,
      (MonitorJob s (NewJob jobType jobDesc id none ctx) nostop updates env rest).state.trace =
        s.trace ++
          Event.send "/job/status"
            [("jobid", JVal.num id), ("group", JVal.str ("job/" ++ toString id))] :: tail ∧
      ∀ ev ∈ tail, Event.isPoll ev = true →
        ∃ ep, ev = Event.send ep
          [("jobid", JVal.num id), ("group", JVal.str ("job/" ++ toString id))] := by
  have hg : monitorGroup (NewJob jobType jobDesc id none ctx) = "job/" ++ toString id := by
    simp [monitorGroup, NewJob]
  have hc : monitorCommand (NewJob jobType jobDesc id none ctx) =
      [("jobid", JVal.num id), ("group", JVal.str ("job/" ++ toString id))] := by
    rw [monitorCommand, hg]
    rfl
  refine ⟨hg, ?_⟩
  unfold MonitorJob
  rw [monitorLoop_cons _ _ _ _ _ rfl]
  simp only [snapshotOf, MonitorStep.taken]
  obtain ⟨t1, a1, b1⟩ := pollSnapshot_trace s (NewJob jobType jobDesc id none ctx)
    JobInfo.zero env
  obtain ⟨t2, a2, b2⟩ := sendInfo_trace
    (pollSnapshot s (NewJob jobType jobDesc id none ctx) JobInfo.zero env).1
    (NewJob jobType jobDesc id none ctx) nostop (List.drop 0 updates)
    (pollSnapshot s (NewJob jobType jobDesc id none ctx) JobInfo.zero env).2
  obtain ⟨t3, a3, b3⟩ := monitorLoop_trace (NewJob jobType jobDesc id none ctx) nostop rest
    { state := (sendInfo
        (pollSnapshot s (NewJob jobType jobDesc id none ctx) JobInfo.zero env).1
        (NewJob jobType jobDesc id none ctx) nostop (List.drop 0 updates)
        (pollSnapshot s (NewJob jobType jobDesc id none ctx) JobInfo.zero env).2).1,
      updates := (sendInfo
        (pollSnapshot s (NewJob jobType jobDesc id none ctx) JobInfo.zero env).1
        (NewJob jobType jobDesc id none ctx) nostop (List.drop 0 updates)
        (pollSnapshot s (NewJob jobType jobDesc id none ctx) JobInfo.zero env).2).2.1,
      jobInfo := (pollSnapshot s (NewJob jobType jobDesc id none ctx) JobInfo.zero env).2,
      exited := (sendInfo
        (pollSnapshot s (NewJob jobType jobDesc id none ctx) JobInfo.zero env).1
        (NewJob jobType jobDesc id none ctx) nostop (List.drop 0 updates)
        (pollSnapshot s (NewJob jobType jobDesc id none ctx) JobInfo.zero env).2).2.2 }
  refine ⟨t1 ++ t2 ++ t3, ?_, ?_⟩
  · rw [a3]
    simp only [a2, a1, hc, List.append_assoc, List.cons_append]
  · intro ev hev hp
    simp only [List.mem_append] at hev
    rw [← hc]
    rcases hev with (h | h) | h
    · exact ⟨_, b1 ev h⟩
    · rw [b2 ev h] at hp
      exact absurd hp (by simp)
    · exact b3 ev h hp


theorem offeredSnapshots_append (a b : List Event) :
    offeredSnapshots (a ++ b) = offeredSnapshots a ++ offeredSnapshots b := by
  simp [offeredSnapshots]

theorem offerBroadcast_JobInfoChan (s : State) (info : JobInfo) :
    (offerBroadcast s info).JobInfoChan =
      if s.JobInfoChan.length < 100 then s.JobInfoChan ++ [info] else s.JobInfoChan := by
  simp only [offerBroadcast]
  split <;> rfl

theorem modifyJobCount_JobInfoChan (s : State) (c : String) (inc : Bool) :
    (modifyJobCount s c inc).2.JobInfoChan = s.JobInfoChan := by
  unfold modifyJobCount
  split <;> rfl

theorem StopJob_JobInfoChan (s : State) (j : Job) (err : String) (force : Bool) :
    (StopJob s j err force).JobInfoChan =
      if s.JobInfoChan.length < 100 then s.JobInfoChan ++ [jobFinished s j err]
      else s.JobInfoChan := by
  cases force with
  | true =>
    simp only [StopJob, if_true, offerBroadcast_JobInfoChan, modifyJobCount_JobInfoChan,
      modifyJobCount_fst, jobFinished]
    rfl
  | false =>
    simp only [StopJob, Bool.false_eq_true, if_false, offerBroadcast_JobInfoChan,
      modifyJobCount_JobInfoChan, modifyJobCount_fst, jobFinished, SendCommand]
    cases s.jobQueue.load j.Type_ with
    | none => rfl
    | some b =>
      simp only []
      split <;> rfl

/-- C23. `StopJob(j, e)`, forced or not, offers one snapshot to the broadcast
queue, after those offered before: it has the ID, Type and Description of `j`,
`Finished = true`, `Error = e`, the refresh payload of `j` and the count that
`modifyJobCount` returned. With fewer than 100 snapshots pending it is appended
to the queue; with 100 it is dropped and the queue is as before. In both cases
`(j.Type, j.ID)` is no longer registered and the counter has gone down by one
(`int64`), unless the category is internal. -/
theorem StopJob_snapshot (s : State) (j : Job) (e : String) (force : Bool) :
    offeredSnapshots (StopJob s j e force).trace =
      offeredSnapshots s.trace ++
        [{ ID := j.ID, Type_ := j.Type_, Description := j.Description,
           JobCount := if isInternal j.Type_ then -1 else subInt64 s.jobTotal 1,
           Error := e, Finished := true, RefreshItems := j.RefreshItems, Group := "",
           Success := false }] ∧
    (s.JobInfoChan.length < 100 →
      (StopJob s j e force).JobInfoChan =
        s.JobInfoChan ++
          [{ ID := j.ID, Type_ := j.Type_, Description := j.Description,
             JobCount := if isInternal j.Type_ then -1 else subInt64 s.jobTotal 1,
             Error := e, Finished := true, RefreshItems := j.RefreshItems, Group := "",
             Success := false }]) ∧
    (100 ≤ s.JobInfoChan.length → (StopJob s j e force).JobInfoChan = s.JobInfoChan) ∧
    lookupJob (StopJob s j e force) j.Type_ j.ID = none ∧
    (StopJob s j e force).jobTotal =
      if isInternal j.Type_ then s.jobTotal else subInt64 s.jobTotal 1 := by
  refine ⟨?_, ?_, ?_, lookupJob_StopJob_self s j e force, StopJob_jobTotal s j e force⟩
  · cases force with
    | true =>
      rw [StopJob_trace_force, offeredSnapshots_append]
      rfl
    | false =>
      rw [StopJob_trace, offeredSnapshots_append]
      rfl
  · intro h
    rw [StopJob_JobInfoChan, if_pos h]
    rfl
  · intro h
    rw [StopJob_JobInfoChan, if_neg (by omega)]

/-- Unforced `StopJob` of `Copy`/0 in `demoState` with the error `boom`: the queue,
empty before, holds the final snapshot of the job. -/
theorem StopJob_snapshot_witness :
    (StopJob demoState demoJob0 "boom" false).JobInfoChan =
      [{ ID := 0, Type_ := "Copy", Description := "Copying", JobCount := 1,
         Error := "boom", Finished := true, RefreshItems := none, Group := "",
         Success := false }] :=
  (StopJob_snapshot demoState demoJob0 "boom" false).2.1 (by decide)

theorem detectPaneRefresh_one (panes : List Pane) (jobInfo : JobInfo) :
    detectPaneRefresh panes [jobInfo] = panes.map (offerRefresh jobInfo) := rfl

/-- C24. `detectPaneRefresh` on one snapshot and any list of panes, empty or not:
the result is defined, has the same panes in the same order, and each pane is
as before except for its private queue, to which the snapshot is appended when
it holds fewer than 10 snapshots and which is unchanged when it holds 10; with
no pane the result is the empty list of panes. -/
theorem detectPaneRefresh_spec (panes : List Pane) (jobInfo : JobInfo) :
    (detectPaneRefresh panes [jobInfo]).length = panes.length ∧
    (∀ (i : Nat) (p : Pane), panes[i]? = some p →
      ∃ p', (detectPaneRefresh panes [jobInfo])[i]? = some p' ∧
        p'.FS = p.FS ∧ p'.Path = p.Path ∧ p'.items = p.items ∧
        p'.sortMode = p.sortMode ∧ p'.sortAsc = p.sortAsc ∧
        (p.refreshChan.length < 10 → p'.refreshChan = p.refreshChan ++ [jobInfo]) ∧
        (10 ≤ p.refreshChan.length → p' = p)) ∧
    detectPaneRefresh [] [jobInfo] = [] := by
  refine ⟨by simp [detectPaneRefresh_one], ?_, rfl⟩
  intro i p hp
  refine ⟨offerRefresh jobInfo p, by simp [detectPaneRefresh_one, hp], ?_⟩
  unfold offerRefresh
  by_cases h : p.refreshChan.length < 10
  · simp [h]
  · rw [if_neg h]
    exact ⟨rfl, rfl, rfl, rfl, rfl, fun hh => absurd hh h, fun _ => rfl⟩

/-- Two panes, the first with room and the second full: the snapshot reaches the
first only. -/
theorem detectPaneRefresh_spec_witness :
    ∃ p', (detectPaneRefresh [demoPane, fullPane] [doneSnapshot])[0]? = some p' ∧
      p'.refreshChan = [doneSnapshot] :=
  let ⟨p', h, _, _, _, _, _, hr, _⟩ :=
    (detectPaneRefresh_spec [demoPane, fullPane] doneSnapshot).2.1 0 demoPane rfl
  ⟨p', h, hr (by decide)⟩


/-! ## The batch sequencer: cancellation check and failed stat -/

theorem batchItem_cancelled (lib : GoLib) (name desc dstFs dstRemote : String)
    (eps : String × String) (n : Nat) (mainJob : Job) (ctx : Nat) (run : ItemRun) (i : Nat)
    (item : ListItem) (s : State) (b : Bool) :
    batchItem lib name desc dstFs dstRemote eps n mainJob ctx { run with cancelled := b } i
        item s =
      batchItem lib name desc dstFs dstRemote eps n mainJob ctx run i item s := by
  obtain ⟨c, r, u, st⟩ := run
  cases c <;> cases b <;> rfl

theorem batchLoop_cancelled (lib : GoLib) (name desc dstFs dstRemote : String)
    (eps : String × String) (n : Nat) (mainJob : Job) (ctx : Nat) (env : Nat → ItemRun)
    (b : Nat → Bool) :
    ∀ (l : List ListItem) (i : Nat) (s : State),
      batchLoop lib name desc dstFs dstRemote eps n mainJob ctx
          (fun m => { env m with cancelled := b m }) i l s =
        batchLoop lib name desc dstFs dstRemote eps n mainJob ctx env i l s := by
  intro l
  induction l with
  | nil => intro i s; rfl
  | cons x rest ih =>
    intro i s
    simp only [batchLoop, batchItem_cancelled]
    generalize batchItem lib name desc dstFs dstRemote eps n mainJob (ctx + 1 + i) (env i) i
      x s = r
    obtain ⟨s1, ex⟩ := r
    cases ex with
    | some exit => rfl
    | none => exact ih (i + 1) s1

theorem BatchOperation_cancelled (lib : GoLib) (s : State) (name desc dstFs dstRemote : String)
    (eps : String × String) (items : Option (List ListItem)) (ctx : Nat)
    (env : Nat → ItemRun) (b : Nat → Bool) :
    BatchOperation lib s name desc dstFs dstRemote eps items ctx
        (fun m => { env m with cancelled := b m }) =
      BatchOperation lib s name desc dstFs dstRemote eps items ctx env := by
  cases items with
  | none => rfl
  | some items => simp only [BatchOperation, batchLoop_cancelled]

theorem batchLoop_trace_ext (lib : GoLib) (name desc dstFs dstRemote : String)
    (eps : String × String) (n : Nat) (mainJob : Job) (ctx : Nat) (env : Nat → ItemRun)
    (hname : name = "Copy" ∨ name = "Move" ∨ name = "Delete") (hok : EndpointsOK eps)
    (l : List ListItem) (i : Nat) (s : State) :
    ∃ blk, (batchLoop lib name desc dstFs dstRemote eps n mainJob ctx env i l s).1.trace =
      s.trace ++ blk := by
  obtain ⟨blk, _, _, h, _⟩ := batchLoop_any lib name desc dstFs dstRemote eps n mainJob ctx env
    hname hok l i s
  exact ⟨blk, h⟩

theorem batchLoop_head (lib : GoLib) (name desc dstFs dstRemote : String)
    (eps : String × String) (n : Nat) (mainJob : Job) (ctx : Nat) (env : Nat → ItemRun)
    (hname : name = "Copy" ∨ name = "Move" ∨ name = "Delete") (hok : EndpointsOK eps)
    (item : ListItem) (rest : List ListItem) (i : Nat) (s : State) :
    ∃ tail,
      (batchLoop lib name desc dstFs dstRemote eps n mainJob ctx env i (item :: rest) s).1.trace =
        s.trace ++
          Event.send (itemRequest lib name dstFs dstRemote eps mainJob.Group item).1
            (itemRequest lib name dstFs dstRemote eps mainJob.Group item).2 :: tail := by
  obtain ⟨cmd, hcmd⟩ := batchCommand_isSome lib name dstFs dstRemote item hname
  obtain ⟨tail, ht, _⟩ := batchItem_shape lib name desc dstFs dstRemote eps n mainJob
    (ctx + 1 + i) (env i) i item s cmd hcmd
  have hreq : itemRequest lib name dstFs dstRemote eps mainJob.Group item =
      (if item.IsDir then eps.1 else eps.2,
       GoMap.store (GoMap.store cmd "_group" (JVal.str mainJob.Group)) "_async"
         (JVal.bool true)) := by
    simp [itemRequest, hcmd]
  rw [hreq]
  simp only [batchLoop]
  generalize batchItem lib name desc dstFs dstRemote eps n mainJob (ctx + 1 + i) (env i) i
    item s = r at ht
  obtain ⟨s1, ex⟩ := r
  simp only at ht
  cases ex with
  | some exit => exact ⟨tail, ht⟩
  | none =>
    obtain ⟨blk, hb⟩ := batchLoop_trace_ext lib name desc dstFs dstRemote eps n mainJob ctx env
      hname hok rest (i + 1) s1
    refine ⟨tail ++ blk, ?_⟩
    simp only [hb, ht, List.append_assoc, List.cons_append]

theorem batchLoop_drop (lib : GoLib) (name desc dstFs dstRemote : String)
    (eps : String × String) (n : Nat) (mainJob : Job) (ctx : Nat) (env : Nat → ItemRun)
    (hname : name = "Copy" ∨ name = "Move" ∨ name = "Delete") (hok : EndpointsOK eps) :
    ∀ (l : List ListItem) (i : Nat) (s : State) (k : Nat), k ≤ l.length →
      (∀ m, m < k → (env (i + m)).succeeds lib) →
      ∃ sk,
        batchLoop lib name desc dstFs dstRemote eps n mainJob ctx env i l s =
          batchLoop lib name desc dstFs dstRemote eps n mainJob ctx env (i + k) (l.drop k)
            sk := by
  intro l
  induction l with
  | nil =>
    intro i s k hk _
    have : k = 0 := by simpa using hk
    subst this
    exact ⟨s, rfl⟩
  | cons x rest ih =>
    intro i s k hk hs
    cases k with
    | zero => exact ⟨s, rfl⟩
    | succ k =>
      obtain ⟨_, h2, _, _⟩ := batchItem_requests lib name desc dstFs dstRemote eps n mainJob
        (ctx + 1 + i) (env i) i x s hname hok
      have hex := h2 (by simpa using hs 0 (Nat.succ_pos k))
      have hs' : ∀ m, m < k → (env (i + 1 + m)).succeeds lib := by
        intro m hm
        have : i + 1 + m = i + (m + 1) := by omega
        rw [this]; exact hs (m + 1) (by omega)
      simp only [batchLoop, List.drop_succ_cons]
      generalize batchItem lib name desc dstFs dstRemote eps n mainJob (ctx + 1 + i) (env i) i
        x s = r at hex
      obtain ⟨s1, ex⟩ := r
      simp only at hex
      subst hex
      obtain ⟨sk, a⟩ := ih (i + 1) s1 k (by simpa using hk) hs'
      have e1 : i + 1 + k = i + (k + 1) := by omega
      rw [e1] at a
      exact ⟨sk, a⟩


theorem drop_of_getElem? (l : List ListItem) (k : Nat) (item : ListItem)
    (h : l[k]? = some item) : k < l.length ∧ l.drop k = item :: l.drop (k + 1) := by
  induction l generalizing k with
  | nil => simp at h
  | cons x rest ih =>
    cases k with
    | zero =>
      simp only [List.getElem?_cons_zero, Option.some.injEq] at h
      subst h
      exact ⟨by simp, rfl⟩
    | succ k =>
      simp only [List.getElem?_cons_succ] at h
      obtain ⟨h1, h2⟩ := ih k h
      exact ⟨by simpa using h1, by simpa using h2⟩

theorem BatchOperation_stat_failure_aux (lib : GoLib) (s : State)
    (name desc dstFs dstRemote : String) (eps : String × String) (items : List ListItem)
    (ctx : Nat) (env : Nat → ItemRun) (hname : name = "Copy" ∨ name = "Move")
    (hok : EndpointsOK eps) (k : Nat) (item : ListItem) (hitem : items[k]? = some item)
    (hprev : ∀ m, m < k → (env m).succeeds lib) (hk : (env k).succeeds lib)
    (hsize : item.Size = -1) (e : String) (hstat : (env k).statResult = .error e) :
    ∃ pre sj info post,
      (BatchOperation lib s name desc dstFs dstRemote eps (some items) ctx env).trace =
        pre ++
          [Event.send
             (itemRequest lib name dstFs dstRemote eps
               (name ++ "/" ++ toString (GetNewJobID s name)) item).1
             (itemRequest lib name dstFs dstRemote eps
               (name ++ "/" ++ toString (GetNewJobID s name)) item).2,
           Event.monitor sj true, Event.reply sj info,
           Event.send "/operations/stat"
             [("fs", JVal.str dstFs), ("remote", JVal.str (lib.Join dstRemote item.Name))]]
          ++ post ∧
      info.Error = "" ∧
      (∀ item', items[k + 1]? = some item' →
        ∃ post', post =
          Event.send
            (itemRequest lib name dstFs dstRemote eps
              (name ++ "/" ++ toString (GetNewJobID s name)) item').1
            (itemRequest lib name dstFs dstRemote eps
              (name ++ "/" ++ toString (GetNewJobID s name)) item').2 :: post') ∧
      (items.length = k + 1 →
        ∃ n', post =
          [Event.offer
            { ID := GetNewJobID s name, Type_ := name, Description := desc, JobCount := n',
              Error := "", Finished := true, RefreshItems := none, Group := "",
              Success := false }]) := by
  have hname3 : name = "Copy" ∨ name = "Move" ∨ name = "Delete" := by
    rcases hname with h | h
    · exact Or.inl h
    · exact Or.inr (Or.inl h)
  obtain ⟨hlt, hdrop⟩ := drop_of_getElem? items k item hitem
  have hprev' : ∀ m, m < k → (env (0 + m)).succeeds lib := by
    intro m hm; rw [Nat.zero_add]; exact hprev m hm
  obtain ⟨sk, hsk⟩ := batchLoop_drop lib name desc dstFs dstRemote eps items.length
    (parentJob s name desc ctx) ctx env hname3 hok items 0
    (AddJobToQueue s (parentJob s name desc ctx) true) k (Nat.le_of_lt hlt) hprev'
  rw [Nat.zero_add, hdrop] at hsk
  obtain ⟨cmd, hcmd⟩ := batchCommand_isSome lib name dstFs dstRemote item hname3
  have hk' := hk
  obtain ⟨⟨id, hd⟩, info, hg, he⟩ := hk'
  obtain ⟨_, _, _, b4⟩ := batchItem_success lib name desc dstFs dstRemote eps items.length
    (parentJob s name desc ctx) (ctx + 1 + k) (env k) k item sk cmd hcmd id hd info hg he
  have htr := b4 hname hsize e hstat
  obtain ⟨_, h2, _, _⟩ := batchItem_requests lib name desc dstFs dstRemote eps items.length
    (parentJob s name desc ctx) (ctx + 1 + k) (env k) k item sk hname3 hok
  have hex := h2 hk
  have hgroup : (parentJob s name desc ctx).Group =
      name ++ "/" ++ toString (GetNewJobID s name) := by
    simp [parentJob, NewJob]
  have hreq : itemRequest lib name dstFs dstRemote eps
      (name ++ "/" ++ toString (GetNewJobID s name)) item =
      (if item.IsDir then eps.1 else eps.2,
       GoMap.store (GoMap.store cmd "_group" (JVal.str (parentJob s name desc ctx).Group))
         "_async" (JVal.bool true)) := by
    simp [itemRequest, hcmd, hgroup]
  rw [BatchOperation_some, hsk, hreq]
  simp only [batchLoop]
  generalize batchItem lib name desc dstFs dstRemote eps items.length
    (parentJob s name desc ctx) (ctx + 1 + k) (env k) k item sk = r at htr hex
  obtain ⟨s1, ex⟩ := r
  simp only at htr hex
  subst hex
  simp only []
  refine ⟨sk.trace, subJob lib name desc dstFs dstRemote items.length
    (parentJob s name desc ctx) (ctx + 1 + k) k item id, info, ?_⟩
  cases hrest : items.drop (k + 1) with
  | nil =>
    have hlen : items.length ≤ k + 1 := by
      simpa [List.drop_eq_nil_iff] using hrest
    refine ⟨[Event.offer (jobFinished s1 (parentJob s name desc ctx) "")], ?_, he, ?_, ?_⟩
    · simp only [batchLoop, StopJob_trace_force, htr]
    · intro item' hi
      have : k + 1 < items.length := (drop_of_getElem? items (k + 1) item' hi).1
      omega
    · intro _
      exact ⟨(jobFinished s1 (parentJob s name desc ctx) "").JobCount,
        by simp [jobFinished, parentJob, NewJob]⟩
  | cons item' rest =>
    obtain ⟨tail, ht⟩ := batchLoop_head lib name desc dstFs dstRemote eps items.length
      (parentJob s name desc ctx) ctx env hname3 hok item' rest (k + 1) s1
    rw [hgroup] at ht
    generalize batchLoop lib name desc dstFs dstRemote eps items.length
      (parentJob s name desc ctx) ctx env (k + 1) (item' :: rest) s1 = r2 at ht
    obtain ⟨s2, ex2⟩ := r2
    simp only at ht
    have hnext : ∀ item'', items[k + 1]? = some item'' → item'' = item' := by
      intro item'' hi
      have := (drop_of_getElem? items (k + 1) item'' hi).2
      rw [hrest] at this
      exact (List.cons.inj this).1.symm
    have hlast : items.length ≠ k + 1 := by
      intro hl
      have : items.drop (k + 1) = [] := by
        rw [List.drop_eq_nil_iff]; omega
      rw [hrest] at this
      exact absurd this (by simp)
    cases ex2 with
    | done jobErr =>
      refine ⟨Event.send
          (itemRequest lib name dstFs dstRemote eps
            (name ++ "/" ++ toString (GetNewJobID s name)) item').1
          (itemRequest lib name dstFs dstRemote eps
            (name ++ "/" ++ toString (GetNewJobID s name)) item').2 ::
          (tail ++ [Event.offer (jobFinished s2 (parentJob s name desc ctx) jobErr)]),
        ?_, he, ?_, fun hl => absurd hl hlast⟩
      · simp only [StopJob_trace_force, ht, htr, List.append_assoc, List.cons_append]
      · intro item'' hi
        rw [hnext item'' hi]
        exact ⟨_, rfl⟩
    | blocked =>
      refine ⟨Event.send
          (itemRequest lib name dstFs dstRemote eps
            (name ++ "/" ++ toString (GetNewJobID s name)) item').1
          (itemRequest lib name dstFs dstRemote eps
            (name ++ "/" ++ toString (GetNewJobID s name)) item').2 :: tail,
        ?_, he, ?_, fun hl => absurd hl hlast⟩
      · simp only [ht, htr, List.append_assoc, List.cons_append]
      · intro item'' hi
        rw [hnext item'' hi]
        exact ⟨_, rfl⟩
    | nilMap =>
      refine ⟨Event.send
          (itemRequest lib name dstFs dstRemote eps
            (name ++ "/" ++ toString (GetNewJobID s name)) item').1
          (itemRequest lib name dstFs dstRemote eps
            (name ++ "/" ++ toString (GetNewJobID s name)) item').2 :: tail,
        ?_, he, ?_, fun hl => absurd hl hlast⟩
      · simp only [ht, htr, List.append_assoc, List.cons_append]
      · intro item'' hi
        rw [hnext item'' hi]
        exact ⟨_, rfl⟩


theorem batchItem_exit (lib : GoLib) (name desc dstFs dstRemote : String)
    (eps : String × String) (n : Nat) (mainJob : Job) (ctx : Nat) (run : ItemRun) (i : Nat)
    (item : ListItem) (s : State) (hname : name = "Copy" ∨ name = "Move" ∨ name = "Delete")
    (e : String)
    (h : (batchItem lib name desc dstFs dstRemote eps n mainJob ctx run i item s).2 =
      some (LoopExit.done e)) :
    run.rejected lib e ∨ (e = "" ∧ ∃ e', run.subJobFails lib e') := by
  obtain ⟨cmd, hcmd⟩ := batchCommand_isSome lib name dstFs dstRemote item hname
  obtain ⟨tail, _, hcases⟩ := batchItem_shape lib name desc dstFs dstRemote eps n mainJob ctx
    run i item s cmd hcmd
  rcases hcases with ⟨e1, hd, _, hx⟩ | ⟨id, _, _, _, hx⟩ | ⟨id, info, err, hd, hg, hne, _, hx⟩ |
    ⟨id, info, rest, _, _, _, _, _, hx⟩
  · rw [hx] at h
    simp only [Option.some.injEq, LoopExit.done.injEq] at h
    subst h
    exact Or.inl hd
  · rw [hx] at h
    simp at h
  · rw [hx] at h
    simp only [Option.some.injEq, LoopExit.done.injEq] at h
    exact Or.inr ⟨h.symm, info.Error, ⟨id, hd⟩, info, err, hg, rfl, hne⟩
  · rw [hx] at h
    simp at h

/-- C25. In a batch whose items before item `k` succeed, with the parent's
context already cancelled when the loop reaches item `k`: the request of item `k`
is dispatched all the same; the whole run is the one obtained with no context
cancelled at any item, so the check skips nothing; and the iteration of item `k`
leaves the loop only when the dispatch is rejected or the sub-job reports an
error. -/
theorem BatchOperation_cancel_check (kind : BatchKind) (lib : GoLib) (s : State)
    (items : List ListItem) (dstFs dstRemote : String) (ctx : Nat) (env : Nat → ItemRun)
    (k : Nat) (item : ListItem) (hitem : items[k]? = some item)
    (hprev : ∀ m, m < k → (env m).succeeds lib) (_hc : (env k).cancelled = true) :
    (∃ pre tail, (kind.run lib s (some items) dstFs dstRemote ctx env).trace =
      pre ++
        Event.send
          (itemRequest lib kind.name dstFs dstRemote kind.endpoints
            (kind.name ++ "/" ++ toString (GetNewJobID s kind.name)) item).1
          (itemRequest lib kind.name dstFs dstRemote kind.endpoints
            (kind.name ++ "/" ++ toString (GetNewJobID s kind.name)) item).2 :: tail) ∧
    kind.run lib s (some items) dstFs dstRemote ctx env =
      kind.run lib s (some items) dstFs dstRemote ctx
        (fun m => { env m with cancelled := false }) ∧
    (∀ (n : Nat) (mainJob : Job) (c : Nat) (s' : State) (e : String),
      (batchItem lib kind.name kind.desc dstFs dstRemote kind.endpoints n mainJob c (env k) k
        item s').2 = some (LoopExit.done e) →
      (env k).rejected lib e ∨ (e = "" ∧ ∃ e', (env k).subJobFails lib e')) := by
  refine ⟨?_, ?_, ?_⟩
  · rw [BatchKind.run_eq, ← itemRequest_kind kind lib dstFs dstRemote]
    obtain ⟨sk, post, hreach⟩ := BatchOperation_reaches lib s kind.name kind.desc
      (if kind = BatchKind.delete then "" else dstFs)
      (if kind = BatchKind.delete then "" else dstRemote) kind.endpoints items ctx env
      kind.name_cases kind.endpointsOK k item hitem hprev
    obtain ⟨cmd, hcmd⟩ := batchCommand_isSome lib kind.name
      (if kind = BatchKind.delete then "" else dstFs)
      (if kind = BatchKind.delete then "" else dstRemote) item kind.name_cases
    obtain ⟨tail, ht, _⟩ := batchItem_shape lib kind.name kind.desc
      (if kind = BatchKind.delete then "" else dstFs)
      (if kind = BatchKind.delete then "" else dstRemote) kind.endpoints items.length
      (parentJob s kind.name kind.desc ctx) (ctx + 1 + k) (env k) k item sk cmd hcmd
    refine ⟨sk.trace, tail ++ post, ?_⟩
    rw [hreach, ht]
    simp [itemRequest, hcmd, parentJob, NewJob]
  · rw [BatchKind.run_eq, BatchKind.run_eq]
    exact (BatchOperation_cancelled lib s kind.name kind.desc _ _ kind.endpoints (some items)
      ctx env (fun _ => false)).symm
  · intro n mainJob c s' e h
    exact batchItem_exit lib kind.name kind.desc dstFs dstRemote kind.endpoints n mainJob c
      (env k) k item s' kind.name_cases e h

/-- Delete of `a.txt` with the parent's context cancelled from the start: the
request for `a.txt` is dispatched. -/
theorem BatchOperation_cancel_check_witness :
    (cancelledEnv 5 0).cancelled = true ∧
    ∃ pre tail,
      (BatchKind.delete.run plainLib State.init (some [demoFile "a.txt"]) "" "" 0
        (cancelledEnv 5)).trace =
      pre ++
        Event.send "/operations/deletefile"
          [("_async", JVal.bool true), ("_group", JVal.str "Delete/0"),
           ("fs", JVal.str "r:"), ("remote", JVal.str "a.txt")] :: tail :=
  ⟨rfl,
   (BatchOperation_cancel_check BatchKind.delete plainLib State.init [demoFile "a.txt"] "" ""
     0 (cancelledEnv 5) 0 (demoFile "a.txt") rfl (fun m hm => absurd hm (by omega)) rfl).1⟩

/-- C29. In a Copy or Move batch whose items before item `k` succeed, if item `k`
has `Size = -1`, is dispatched, its sub-job ends without error and the stat call
fails: the stat request comes right after the sub-job's reply and what comes
next is the request of item `k + 1`, if there is one, or else the parent's final
snapshot, which carries no error and no payload. So no `/job/stop` request and
no snapshot is emitted for the sub-job, no refresh record (for Move not even the
removal record) is attached, and the loop goes on. -/
theorem BatchOperation_stat_failure (kind : BatchKind)
    (hkind : kind = BatchKind.copy ∨ kind = BatchKind.move) (lib : GoLib) (s : State)
    (items : List ListItem) (dstFs dstRemote : String) (ctx : Nat) (env : Nat → ItemRun)
    (k : Nat) (item : ListItem) (hitem : items[k]? = some item)
    (hprev : ∀ m, m < k → (env m).succeeds lib) (hk : (env k).succeeds lib)
    (hsize : item.Size = -1) (e : String) (hstat : (env k).statResult = .error e) :
    ∃ pre sj info post,
      (kind.run lib s (some items) dstFs dstRemote ctx env).trace =
        pre ++
          [Event.send
             (itemRequest lib kind.name dstFs dstRemote kind.endpoints
               (kind.name ++ "/" ++ toString (GetNewJobID s kind.name)) item).1
             (itemRequest lib kind.name dstFs dstRemote kind.endpoints
               (kind.name ++ "/" ++ toString (GetNewJobID s kind.name)) item).2,
           Event.monitor sj true, Event.reply sj info,
           Event.send "/operations/stat"
             [("fs", JVal.str dstFs), ("remote", JVal.str (lib.Join dstRemote item.Name))]]
          ++ post ∧
      info.Error = "" ∧
      (∀ item', items[k + 1]? = some item' →
        ∃ post', post =
          Event.send
            (itemRequest lib kind.name dstFs dstRemote kind.endpoints
              (kind.name ++ "/" ++ toString (GetNewJobID s kind.name)) item').1
            (itemRequest lib kind.name dstFs dstRemote kind.endpoints
              (kind.name ++ "/" ++ toString (GetNewJobID s kind.name)) item').2 :: post') ∧
      (items.length = k + 1 →
        ∃ n', post =
          [Event.offer
            { ID := GetNewJobID s kind.name, Type_ := kind.name, Description := kind.desc,
              JobCount := n', Error := "", Finished := true, RefreshItems := none,
              Group := "", Success := false }]) := by
  rcases hkind with rfl | rfl
  · exact BatchOperation_stat_failure_aux lib s "Copy" "Copying" dstFs dstRemote
      ("/sync/copy", "/operations/copyfile") items ctx env (Or.inl rfl)
      BatchKind.copy.endpointsOK k item hitem hprev hk hsize e hstat
  · exact BatchOperation_stat_failure_aux lib s "Move" "Moving" dstFs dstRemote
      ("/sync/move", "/operations/movefile") items ctx env (Or.inr rfl)
      BatchKind.move.endpointsOK k item hitem hprev hk hsize e hstat

/-- Move of the directory `docs` of unknown size and of `a.txt`, the stat call
failing: after the stat request for `docs` comes the request for `a.txt`. -/
theorem BatchOperation_stat_failure_witness :
    ∃ pre sj info post post',
      (BatchKind.move.run plainLib State.init (some [demoDir "docs", demoFile "a.txt"])
        "d:" "x" 0 statFailEnv).trace =
        pre ++
          [Event.send
             (itemRequest plainLib "Move" "d:" "x" ("/sync/move", "/operations/movefile")
               ("Move" ++ "/" ++ toString (GetNewJobID State.init "Move")) (demoDir "docs")).1
             (itemRequest plainLib "Move" "d:" "x" ("/sync/move", "/operations/movefile")
               ("Move" ++ "/" ++ toString (GetNewJobID State.init "Move")) (demoDir "docs")).2,
           Event.monitor sj true, Event.reply sj info,
           Event.send "/operations/stat"
             [("fs", JVal.str "d:"), ("remote", JVal.str "x/docs")]]
          ++ post ∧
      post =
        Event.send
          (itemRequest plainLib "Move" "d:" "x" ("/sync/move", "/operations/movefile")
            ("Move" ++ "/" ++ toString (GetNewJobID State.init "Move")) (demoFile "a.txt")).1
          (itemRequest plainLib "Move" "d:" "x" ("/sync/move", "/operations/movefile")
            ("Move" ++ "/" ++ toString (GetNewJobID State.init "Move")) (demoFile "a.txt")).2 ::
          post' :=
  let ⟨pre, sj, info, post, h, _, hn, _⟩ :=
    BatchOperation_stat_failure BatchKind.move (Or.inr rfl) plainLib State.init
      [demoDir "docs", demoFile "a.txt"] "d:" "x" 0 statFailEnv 0 (demoDir "docs") rfl
      (fun m hm => absurd hm (by omega)) ⟨⟨7, rfl⟩, doneSnapshot, rfl, rfl⟩ rfl
      "connection refused" rfl
  let ⟨post', hp⟩ := hn (demoFile "a.txt") rfl
  ⟨pre, sj, info, post, post', h, hp⟩


/-! ## Snapshot identity, sortList, empty IDs, directory commands -/

/-- C26. The first round of `MonitorJob` with the `/job/status` request failing
(message `msg`, not empty) and room in the private queue: the one snapshot
delivered to the private queue and offered to the broadcast queue has the empty
`Type` and the empty `Description`, whatever the job's are; the assignments of
`job.Type` and `job.Description` are skipped by the jump to `SendInfo`. -/
theorem MonitorJob_failure_identity (s : State) (job : Job) (nostop : Bool)
    (updates : List JobInfo) (env : PollEnv) (rest : List MonitorStep) (msg : String)
    (hreq : env.statusRequest = some msg) (hmsg : msg ≠ "") (hroom : updates.length < 10) :
    (MonitorJob s job nostop updates env rest).updates =
      updates ++
        [{ Error := msg, Finished := false, Group := "", ID := 0, Success := false,
           JobCount := 0, Type_ := "", Description := "", RefreshItems := none }] ∧
    Event.offer
        { Error := msg, Finished := false, Group := "", ID := 0, Success := false,
          JobCount := 0, Type_ := "", Description := "", RefreshItems := none } ∈
      (MonitorJob s job nostop updates env rest).state.trace := by
  have hp : pollSnapshot s job JobInfo.zero env =
      (SendCommand s (monitorCommand job) "/job/status",
       { Error := msg, Finished := false, Group := "", ID := 0, Success := false,
         JobCount := 0, Type_ := "", Description := "", RefreshItems := none }) := by
    simp [pollSnapshot, hreq, JobInfo.zero]
  unfold MonitorJob
  rw [monitorLoop_cons _ _ _ _ _ rfl]
  simp only [snapshotOf, MonitorStep.taken, List.drop_zero, hp]
  rw [sendInfo_accepted _ _ _ _ _ hroom, if_pos (Or.inl hmsg), monitorLoop_exited _ _ _ _ rfl]
  refine ⟨rfl, ?_⟩
  cases nostop with
  | true => simp [offerBroadcast_trace]
  | false => simp [StopJob_trace, offerBroadcast_trace]

/-- The monitor of the job `Copy`/0 (description `Copying`) whose first request is
refused delivers a snapshot with empty `Type` and `Description`. -/
theorem MonitorJob_failure_identity_witness :
    demoJob0.Type_ = "Copy" ∧ demoJob0.Description = "Copying" ∧
    (MonitorJob demoState demoJob0 false [] refusedEnv []).updates =
      [] ++
        [{ Error := "connection refused", Finished := false, Group := "", ID := 0,
           Success := false, JobCount := 0, Type_ := "", Description := "",
           RefreshItems := none }] :=
  ⟨rfl, rfl,
   (MonitorJob_failure_identity demoState demoJob0 false [] refusedEnv []
     "connection refused" rfl (by decide) (by decide)).1⟩

/-- C27. `sortList` gives a permutation of its input in which no file comes
before a directory, in either direction, and in which, of two entries that are
both directories or both files, the earlier one is not above the later one in
the key of the mode when `asc` is set, and not below it otherwise; this holds
for any two entries and so for consecutive ones. -/
theorem sortList_spec (l : List ListItem) (asc : Bool) (mode : String) :
    (sortList l asc mode).Perm l ∧
    (sortList l asc mode).Pairwise (fun x y => ¬ (x.IsDir = false ∧ y.IsDir = true)) ∧
    (sortList l asc mode).Pairwise
      (fun x y => x.IsDir = y.IsDir → if asc then keyLE mode x y else keyLE mode y x) ∧
    (sortList l asc mode).Chain'
      (fun x y => x.IsDir = y.IsDir → if asc then keyLE mode x y else keyLE mode y x) := by
  have hs := sortList_sorted l asc mode
  have h1 : (sortList l asc mode).Pairwise
      (fun x y => ¬ (x.IsDir = false ∧ y.IsDir = true)) := by
    refine hs.imp ?_
    intro x y hxy
    unfold sortedBefore at hxy
    rw [lessItem_eq] at hxy
    rintro ⟨hx, hy⟩
    simp [hx, hy] at hxy
  have h2 : (sortList l asc mode).Pairwise
      (fun x y => x.IsDir = y.IsDir → if asc then keyLE mode x y else keyLE mode y x) := by
    refine hs.imp ?_
    intro x y hxy hd
    unfold sortedBefore at hxy
    rw [lessItem_eq] at hxy
    have hd' : ¬ (y.IsDir ≠ x.IsDir) := fun hn => hn hd.symm
    rw [if_neg hd'] at hxy
    unfold keyLE
    cases asc <;> simp only [Bool.false_eq_true, if_false, if_true] at hxy ⊢ <;>
      split_ifs at hxy ⊢ <;>
      simpa only [decide_eq_false_iff_not, not_lt] using hxy
  exact ⟨sortList_perm l asc mode, h1, h2, h2.chain'⟩

/-- C28. A record with the empty ID that passes the guard of `watchItem`, for a
listing whose first entry has the empty ID: the first entry is the match,
whatever the two names are. An insert record patches the `Size` and `ISize` of
that entry and is not appended; a removal record removes that entry. -/
theorem watchRecord_empty_id (lib : GoLib) (p : Pane) (item x : ListItem)
    (rest : List ListItem) (happ : p.FS ++ p.Path = item.FS ++ recordDir lib item)
    (hitems : p.items = x :: rest) (hid : item.ID = "") (hx : x.ID = "") :
    (watchRecord lib p item).items =
      if item.RefreshAddItem then { x with Size := item.Size, ISize := item.ISize } :: rest
      else rest := by
  have hm : matchesRecord item x = true :=
    (matchesRecord_iff item x).2 (Or.inl (by rw [hx, hid]))
  have hscan := scanItems_first_match item [] x rest (fun y hy => absurd hy (List.not_mem_nil y))
    hm
  rw [List.nil_append] at hscan
  rw [watchRecord_apply lib p item happ, hitems, hscan]
  cases item.RefreshAddItem <;> simp

/-- A listing of `a.txt` and `m.txt` without IDs and an insert record for
`new.txt`, a name that is not in the listing: `a.txt` gets the record's size 3
and `new.txt` is not added. -/
theorem watchRecord_empty_id_witness :
    (∀ y ∈ localPane.items, y.Name ≠ "new.txt") ∧
    (watchRecord plainLib localPane
      { (demoEntry "" "new.txt" 3) with RefreshAddItem := true }).items =
      [{ (demoEntry "" "a.txt" 1) with Size := 3, ISize := "3B" }, demoEntry "" "m.txt" 5] :=
  ⟨by decide,
   watchRecord_empty_id plainLib localPane
     { (demoEntry "" "new.txt" 3) with RefreshAddItem := true } (demoEntry "" "a.txt" 1)
     [demoEntry "" "m.txt" 5] (by decide) rfl rfl rfl⟩

/-- C30. The Copy/Move command `batchCommand` builds: for a directory, `srcFs` is
`item.Path` alone, without `item.FS`, and `dstFs` is the destination remote
followed by the joined path; for a file, `srcFs` is `item.FS`, `srcRemote` is
`item.Path`, `dstFs` is the destination remote and `dstRemote` the joined
path. -/
theorem batchCommand_directory (lib : GoLib) (operation dstFs dstRemote : String)
    (item : ListItem) (hop : operation = "Copy" ∨ operation = "Move") :
    (item.IsDir = true →
      batchCommand lib operation dstFs dstRemote item =
        some [("srcFs", JVal.str item.Path),
              ("dstFs", JVal.str (dstFs ++ lib.Join dstRemote item.Name))]) ∧
    (item.IsDir = false →
      batchCommand lib operation dstFs dstRemote item =
        some [("srcFs", JVal.str item.FS), ("srcRemote", JVal.str item.Path),
              ("dstFs", JVal.str dstFs),
              ("dstRemote", JVal.str (lib.Join dstRemote item.Name))]) := by
  constructor <;> intro hd <;> simp [batchCommand, hop, hd]

/-- Copy of the directory `docs` of remote `r:` to `d:x`: the command names the
source `docs`, not `r:docs`. -/
theorem batchCommand_directory_witness :
    batchCommand plainLib "Copy" "d:" "x" (demoDir "docs") =
      some [("srcFs", JVal.str "docs"), ("dstFs", JVal.str "d:x/docs")] ∧
    (demoDir "docs").FS ++ (demoDir "docs").Path = "r:docs" :=
  ⟨(batchCommand_directory plainLib "Copy" "d:" "x" (demoDir "docs") (Or.inl rfl)).1 rfl,
   by decide⟩

end RcloneTui
